import Mathlib

/-!
Shallow embedding of the sdl2_chess_engine core (board, move generation,
make/undo, FEN, evaluation, search) translated from `src/board.cpp`,
`src/move.cpp`, `src/eval.cpp` and `src/search.cpp`, together with
verification of the specification claims.

Modelling conventions:
* C++ `int` values are embedded as `Int`; `std::uint8_t` flag sets and the
  64-bit Zobrist keys as `Nat` (all operations keep them in range, and no
  claim depends on 8/64-bit wraparound).
* The 64-entry `std::array<Piece, 64>` is embedded as a function
  `Fin 64 → Piece`; all raw array accesses in the C++ code happen at indices
  that are in range (out-of-range access would be UB), so reads/writes go
  through guarded helpers `getSq`/`setSq` that are the identity of the C++
  behaviour on the defined executions.
* The Zobrist random tables are produced by `std::mt19937_64` from a fixed
  seed; their concrete values are irrelevant to every claim, so the
  embedding is parameterised by an arbitrary table (`ZobristTables`) and the
  theorems are proved for all table values, including the real ones.
-/

set_option maxHeartbeats 1000000

/-- Color enum from board.h. -/
inductive Color : Type
  | White
  | Black
deriving DecidableEq, Repr

/-- Piece enum from board.h (13 values, `None` first). -/
inductive Piece : Type
  | None
  | WhitePawn
  | WhiteKnight
  | WhiteBishop
  | WhiteRook
  | WhiteQueen
  | WhiteKing
  | BlackPawn
  | BlackKnight
  | BlackBishop
  | BlackRook
  | BlackQueen
  | BlackKing
deriving DecidableEq, Repr

/-- Numeric value of the Piece enum (used as Zobrist piece index). -/
def Piece.toIndex : Piece → Nat
  | .None => 0
  | .WhitePawn => 1
  | .WhiteKnight => 2
  | .WhiteBishop => 3
  | .WhiteRook => 4
  | .WhiteQueen => 5
  | .WhiteKing => 6
  | .BlackPawn => 7
  | .BlackKnight => 8
  | .BlackBishop => 9
  | .BlackRook => 10
  | .BlackQueen => 11
  | .BlackKing => 12

/-- board.h: `is_white_piece` (`piece >= WhitePawn && piece <= WhiteKing`). -/
def is_white_piece (piece : Piece) : Bool :=
  1 ≤ piece.toIndex && piece.toIndex ≤ 6

/-- board.h: `is_black_piece` (`piece >= BlackPawn && piece <= BlackKing`). -/
def is_black_piece (piece : Piece) : Bool :=
  7 ≤ piece.toIndex && piece.toIndex ≤ 12

/-- board.h: `is_empty_piece`. -/
def is_empty_piece (piece : Piece) : Bool :=
  piece = Piece.None

/-- board.cpp anonymous namespace: `opposite_color`. -/
def opposite_color (color : Color) : Color :=
  match color with
  | .White => .Black
  | .Black => .White

/-- board.cpp anonymous namespace: `is_pawn`. -/
def is_pawn (piece : Piece) : Bool :=
  piece = Piece.WhitePawn || piece = Piece.BlackPawn

/-- board.cpp anonymous namespace: `is_king`. -/
def is_king (piece : Piece) : Bool :=
  piece = Piece.WhiteKing || piece = Piece.BlackKing

/-- Move flag bits from move.h. -/
def MoveFlagNone : Nat := 0

/-- move.h: capture flag (1 << 0). -/
def MoveFlagCapture : Nat := 1

/-- move.h: double pawn push flag (1 << 1). -/
def MoveFlagDoublePawnPush : Nat := 2

/-- move.h: en passant flag (1 << 2). -/
def MoveFlagEnPassant : Nat := 4

/-- move.h: castle king side flag (1 << 3). -/
def MoveFlagCastleKingSide : Nat := 8

/-- move.h: castle queen side flag (1 << 4). -/
def MoveFlagCastleQueenSide : Nat := 16

/-- move.h: promotion flag (1 << 5). -/
def MoveFlagPromotion : Nat := 32

/-- Move struct from move.h.  The C++ fields `from`/`to` are named
`fromSq`/`toSq` because `from` is a Lean keyword. -/
structure Move where
  fromSq : Int := 0
  toSq : Int := 0
  movingPiece : Piece := Piece.None
  capturedPiece : Piece := Piece.None
  promotionPiece : Piece := Piece.None
  flags : Nat := 0
deriving DecidableEq, Repr

/-- move.cpp: `file_of` (square % 8; callers assert 0 ≤ square < 64, where
`%` agrees with C++ truncation). -/
def file_of (square : Int) : Int :=
  square % 8

/-- move.cpp: `rank_of` (square / 8; callers assert 0 ≤ square < 64, where
`/` agrees with C++ truncation). -/
def rank_of (square : Int) : Int :=
  square / 8

/-- move.cpp: `make_square` (rank * 8 + file). -/
def make_square (file rank : Int) : Int :=
  rank * 8 + file

/-- board.cpp castling-rights bit: white king side (1 << 0). -/
def CastleWhiteKing : Nat := 1

/-- board.cpp castling-rights bit: white queen side (1 << 1). -/
def CastleWhiteQueen : Nat := 2

/-- board.cpp castling-rights bit: black king side (1 << 2). -/
def CastleBlackKing : Nat := 4

/-- board.cpp castling-rights bit: black queen side (1 << 3). -/
def CastleBlackQueen : Nat := 8

/-- BoardState struct from board.h. -/
@[ext] structure BoardState where
  sideToMove : Color := Color.White
  castlingRights : Nat := 0
  enPassantSquare : Int := -1
  halfmoveClock : Int := 0
  fullmoveNumber : Int := 1
deriving DecidableEq, Repr

/-- Undo record from board.h (`Board::Undo`). -/
structure Undo where
  state : BoardState := {}
  zobristKey : Nat := 0
  capturedPiece : Piece := Piece.None
  move : Move := {}
deriving DecidableEq, Repr

/-- The Zobrist random tables of board.cpp (`zobristPieces`,
`zobristCastling`, `zobristEnPassant`, `zobristSideToMove`).  The real
program fills them from `std::mt19937_64` seeded with 0x9e3779b97f4a7c15;
no claim depends on the concrete values, so the embedding treats the table
as a parameter and the theorems hold for every table. -/
structure ZobristTables where
  pieces : Nat → Nat → Nat
  castling : Nat → Nat
  enPassant : Nat → Nat
  sideToMove : Nat

/-- Board class state from board.h: squares array, state, Zobrist key and
undo history. -/
structure Board where
  squares : Fin 64 → Piece
  state : BoardState
  zobristKey : Nat
  history : List Undo
deriving DecidableEq

/-- Guarded read of the squares array at an `Int` index (all C++ direct
array reads happen in range; this helper coincides with `piece_at` which is
explicitly guarded in board.cpp). -/
def getSq (squares : Fin 64 → Piece) (square : Int) : Piece :=
  if h : 0 ≤ square ∧ square < 64 then
    squares ⟨square.toNat, by omega⟩
  else
    Piece.None

/-- Guarded write to the squares array at an `Int` index (all C++ direct
array writes happen in range on defined executions). -/
def setSq (squares : Fin 64 → Piece) (square : Int) (piece : Piece) :
    Fin 64 → Piece :=
  if h : 0 ≤ square ∧ square < 64 then
    Function.update squares ⟨square.toNat, by omega⟩ piece
  else
    squares

/-- board.cpp: `Board::piece_at` (returns None outside [0, 64)). -/
def piece_at (b : Board) (square : Int) : Piece :=
  if h : square < 0 ∨ 64 ≤ square then
    Piece.None
  else
    b.squares ⟨square.toNat, by omega⟩

/-- board.cpp: `Board::set_piece_at` (leaves the board unchanged outside
[0, 64)). -/
def set_piece_at (b : Board) (square : Int) (piece : Piece) : Board :=
  if h : square < 0 ∨ 64 ≤ square then
    b
  else
    { b with squares := Function.update b.squares ⟨square.toNat, by omega⟩ piece }

/-- board.cpp: `Board::side_to_move`. -/
def side_to_move (b : Board) : Color :=
  b.state.sideToMove

/-- board.cpp: `Board::fullmove_number`. -/
def fullmove_number (b : Board) : Int :=
  b.state.fullmoveNumber

/-- board.cpp: `Board::zobrist_key`. -/
def zobrist_key (b : Board) : Nat :=
  b.zobristKey

/-- board.cpp: `Board::compute_zobrist`: XOR of piece-square keys over the
occupied squares, the castling entry, the en-passant file entry when set,
and the side key iff Black to move. -/
def compute_zobrist (Z : ZobristTables) (b : Board) : Nat :=
  let key := (List.range 64).foldl
    (fun key square =>
      let piece := getSq b.squares (Int.ofNat square)
      if piece ≠ Piece.None then
        Nat.xor key (Z.pieces piece.toIndex square)
      else
        key)
    0
  let key := Nat.xor key (Z.castling (b.state.castlingRights &&& 15))
  let key :=
    if b.state.enPassantSquare ≠ -1 then
      let epFile := file_of b.state.enPassantSquare
      if 0 ≤ epFile ∧ epFile < 8 then
        Nat.xor key (Z.enPassant epFile.toNat)
      else
        key
    else
      key
  if b.state.sideToMove = Color.Black then
    Nat.xor key Z.sideToMove
  else
    key

/-- Knight move deltas from board.cpp (file delta, rank delta). -/
def knightDeltas : List (Int × Int) :=
  [(1, 2), (2, 1), (2, -1), (1, -2), (-1, -2), (-2, -1), (-2, 1), (-1, 2)]

/-- Bishop ray directions from board.cpp. -/
def bishopDirections : List (Int × Int) :=
  [(1, 1), (1, -1), (-1, 1), (-1, -1)]

/-- Rook ray directions from board.cpp. -/
def rookDirections : List (Int × Int) :=
  [(1, 0), (-1, 0), (0, 1), (0, -1)]

/-- King move deltas from board.cpp. -/
def kingDeltas : List (Int × Int) :=
  [(1, 0), (1, 1), (0, 1), (-1, 1), (-1, 0), (-1, -1), (0, -1), (1, -1)]

/-- King box deltas for `is_square_attacked` (dr from -1 to 1, df from -1 to
1, skipping (0,0), in C++ loop order; pairs are (dr, df)). -/
def kingBoxDeltas : List (Int × Int) :=
  [(-1, -1), (-1, 0), (-1, 1), (0, -1), (0, 1), (1, -1), (1, 0), (1, 1)]

/-- The C++ `while` ray scan of `Board::is_square_attacked`: starting at
(f, r), walk in direction (df, dr) while on the board and return the first
non-empty piece met, if any.  The fuel bounds the iteration count; a scan
started one step away from an on-board square stays on the board for at
most 7 steps, so fuel 8 makes this identical to the unbounded C++ loop. -/
def ray_first_piece (b : Board) : Nat → Int → Int → Int → Int → Option Piece
  | 0, _, _, _, _ => none
  | fuel + 1, f, r, df, dr =>
    if 0 ≤ f ∧ f < 8 ∧ 0 ≤ r ∧ r < 8 then
      let targetPiece := piece_at b (make_square f r)
      if is_empty_piece targetPiece then
        ray_first_piece b fuel (f + df) (r + dr) df dr
      else
        some targetPiece
    else
      none

/-- board.cpp: `Board::is_square_attacked(square, bySide)`. -/
def is_square_attacked (b : Board) (square : Int) (bySide : Color) : Bool :=
  let file := file_of square
  let rank := rank_of square
  let pawnDirection : Int := if bySide = Color.White then -1 else 1
  let pawnRank := rank + pawnDirection
  let pawnAttack : Bool :=
    if 0 ≤ pawnRank ∧ pawnRank < 8 then
      ([-1, 1] : List Int).any fun df =>
        let pawnFile := file + df
        if pawnFile < 0 ∨ 7 < pawnFile then
          false
        else
          let pawnPiece := piece_at b (make_square pawnFile pawnRank)
          (bySide == Color.White && pawnPiece == Piece.WhitePawn) ||
          (bySide == Color.Black && pawnPiece == Piece.BlackPawn)
    else
      false
  let knightAttack : Bool :=
    knightDeltas.any fun d =>
      let knightFile := file + d.1
      let knightRank := rank + d.2
      if knightFile < 0 ∨ 7 < knightFile ∨ knightRank < 0 ∨ 7 < knightRank then
        false
      else
        let knightPiece := piece_at b (make_square knightFile knightRank)
        (bySide == Color.White && knightPiece == Piece.WhiteKnight) ||
        (bySide == Color.Black && knightPiece == Piece.BlackKnight)
  let bishopAttack : Bool :=
    bishopDirections.any fun d =>
      match ray_first_piece b 8 (file + d.1) (rank + d.2) d.1 d.2 with
      | some p =>
        (bySide == Color.White &&
          (p == Piece.WhiteBishop || p == Piece.WhiteQueen)) ||
        (bySide == Color.Black &&
          (p == Piece.BlackBishop || p == Piece.BlackQueen))
      | none => false
  let rookAttack : Bool :=
    rookDirections.any fun d =>
      match ray_first_piece b 8 (file + d.1) (rank + d.2) d.1 d.2 with
      | some p =>
        (bySide == Color.White &&
          (p == Piece.WhiteRook || p == Piece.WhiteQueen)) ||
        (bySide == Color.Black &&
          (p == Piece.BlackRook || p == Piece.BlackQueen))
      | none => false
  let kingAttack : Bool :=
    kingBoxDeltas.any fun d =>
      let kingFile := file + d.2
      let kingRank := rank + d.1
      if kingFile < 0 ∨ 7 < kingFile ∨ kingRank < 0 ∨ 7 < kingRank then
        false
      else
        let kingPiece := piece_at b (make_square kingFile kingRank)
        (bySide == Color.White && kingPiece == Piece.WhiteKing) ||
        (bySide == Color.Black && kingPiece == Piece.BlackKing)
  pawnAttack || knightAttack || bishopAttack || rookAttack || kingAttack

/-- board.cpp: `Board::find_king_square` (first square holding the king in
ascending order, -1 if absent). -/
def find_king_square (b : Board) (side : Color) : Int :=
  let kingPiece := if side = Color.White then Piece.WhiteKing else Piece.BlackKing
  match (List.finRange 64).find? (fun sq => b.squares sq == kingPiece) with
  | some sq => (sq.val : Int)
  | none => -1

/-- board.cpp: `Board::is_in_check`. -/
def is_in_check (b : Board) (side : Color) : Bool :=
  let kingSquare := find_king_square b side
  if kingSquare = -1 then
    false
  else
    is_square_attacked b kingSquare (opposite_color side)

/-- The four promotion pieces of board.cpp pawn generation, in source
order (Queen, Rook, Bishop, Knight) for the moving pawn's color. -/
def promotionList (piece : Piece) : List Piece :=
  [if piece == Piece.WhitePawn then Piece.WhiteQueen else Piece.BlackQueen,
   if piece == Piece.WhitePawn then Piece.WhiteRook else Piece.BlackRook,
   if piece == Piece.WhitePawn then Piece.WhiteBishop else Piece.BlackBishop,
   if piece == Piece.WhitePawn then Piece.WhiteKnight else Piece.BlackKnight]

/-- Pawn forward (single/double push and push promotions) moves of
`Board::generate_pseudo_legal_moves`. -/
def pawnForwardMoves (b : Board) (square file rank : Int) (piece : Piece) :
    List Move :=
  let direction : Int := if piece == Piece.WhitePawn then 1 else -1
  let startRank : Int := if piece == Piece.WhitePawn then 1 else 6
  let promotionRank : Int := if piece == Piece.WhitePawn then 6 else 1
  let forwardRank := rank + direction
  if 0 ≤ forwardRank ∧ forwardRank < 8 then
    let forwardSquare := make_square file forwardRank
    if piece_at b forwardSquare = Piece.None then
      if rank = promotionRank then
        (promotionList piece).map fun promoPiece =>
          { fromSq := square, toSq := forwardSquare, movingPiece := piece,
            capturedPiece := Piece.None, promotionPiece := promoPiece,
            flags := MoveFlagPromotion }
      else
        { fromSq := square, toSq := forwardSquare, movingPiece := piece } ::
          (if rank = startRank then
            let doubleRank := rank + 2 * direction
            let doubleSquare := make_square file doubleRank
            if piece_at b doubleSquare = Piece.None then
              [{ fromSq := square, toSq := doubleSquare, movingPiece := piece,
                 capturedPiece := Piece.None, promotionPiece := Piece.None,
                 flags := MoveFlagDoublePawnPush }]
            else
              []
          else
            [])
    else
      []
  else
    []

/-- Pawn diagonal captures, capture promotions and en-passant moves of
`Board::generate_pseudo_legal_moves`. -/
def pawnCaptureMoves (b : Board) (square file rank : Int) (piece : Piece)
    (them : Color) : List Move :=
  let direction : Int := if piece == Piece.WhitePawn then 1 else -1
  let captureRank := rank + direction
  if 0 ≤ captureRank ∧ captureRank < 8 then
    ([-1, 1] : List Int).flatMap fun df =>
      let captureFile := file + df
      if captureFile < 0 ∨ 7 < captureFile then
        []
      else
        let targetSquare := make_square captureFile captureRank
        let targetPiece := piece_at b targetSquare
        let isEnemy : Bool :=
          (them == Color.White && is_white_piece targetPiece) ||
          (them == Color.Black && is_black_piece targetPiece)
        let captures :=
          if !is_empty_piece targetPiece && isEnemy then
            if (direction = 1 ∧ captureRank = 7) ∨
               (direction = -1 ∧ captureRank = 0) then
              (promotionList piece).map fun promoPiece =>
                { fromSq := square, toSq := targetSquare, movingPiece := piece,
                  capturedPiece := targetPiece, promotionPiece := promoPiece,
                  flags := MoveFlagCapture ||| MoveFlagPromotion }
            else
              [{ fromSq := square, toSq := targetSquare, movingPiece := piece,
                 capturedPiece := targetPiece, promotionPiece := Piece.None,
                 flags := MoveFlagCapture }]
          else
            []
        let epMoves :=
          if b.state.enPassantSquare = targetSquare then
            [{ fromSq := square, toSq := targetSquare, movingPiece := piece,
               capturedPiece :=
                 if piece == Piece.WhitePawn then Piece.BlackPawn
                 else Piece.WhitePawn,
               promotionPiece := Piece.None,
               flags := MoveFlagEnPassant ||| MoveFlagCapture }]
          else
            []
        captures ++ epMoves
  else
    []

/-- Single-step moves for knights and kings (the two C++ delta loops have
identical bodies; the delta list is passed in). -/
def stepMoves (b : Board) (square file rank : Int) (piece : Piece)
    (them : Color) (deltas : List (Int × Int)) : List Move :=
  deltas.flatMap fun d =>
    let targetFile := file + d.1
    let targetRank := rank + d.2
    if targetFile < 0 ∨ 7 < targetFile ∨ targetRank < 0 ∨ 7 < targetRank then
      []
    else
      let targetSquare := make_square targetFile targetRank
      let targetPiece := piece_at b targetSquare
      if is_empty_piece targetPiece then
        [{ fromSq := square, toSq := targetSquare, movingPiece := piece }]
      else if (them == Color.White && is_white_piece targetPiece) ||
              (them == Color.Black && is_black_piece targetPiece) then
        [{ fromSq := square, toSq := targetSquare, movingPiece := piece,
           capturedPiece := targetPiece, promotionPiece := Piece.None,
           flags := MoveFlagCapture }]
      else
        []

/-- The C++ `while` ray scan of the sliding-move generation: emit quiet
moves until the first occupied square, add a capture if it holds an enemy
piece.  Fuel 8 makes this identical to the unbounded C++ loop (a scan
started one step away from an on-board square stays on the board for at
most 7 steps). -/
def rayMoves (b : Board) (square : Int) (piece : Piece) (them : Color)
    (df dr : Int) : Nat → Int → Int → List Move
  | 0, _, _ => []
  | fuel + 1, currentFile, currentRank =>
    if 0 ≤ currentFile ∧ currentFile < 8 ∧ 0 ≤ currentRank ∧ currentRank < 8 then
      let targetSquare := make_square currentFile currentRank
      let targetPiece := piece_at b targetSquare
      if is_empty_piece targetPiece then
        { fromSq := square, toSq := targetSquare, movingPiece := piece } ::
          rayMoves b square piece them df dr fuel (currentFile + df)
            (currentRank + dr)
      else if (them == Color.White && is_white_piece targetPiece) ||
              (them == Color.Black && is_black_piece targetPiece) then
        [{ fromSq := square, toSq := targetSquare, movingPiece := piece,
           capturedPiece := targetPiece, promotionPiece := Piece.None,
           flags := MoveFlagCapture }]
      else
        []
    else
      []

/-- Sliding moves over a direction list (bishop or rook directions). -/
def slidingMoves (b : Board) (square file rank : Int) (piece : Piece)
    (them : Color) (directions : List (Int × Int)) : List Move :=
  directions.flatMap fun d =>
    rayMoves b square piece them d.1 d.2 8 (file + d.1) (rank + d.2)

/-- Castling moves of `Board::generate_pseudo_legal_moves` (the white and
black C++ blocks are identical up to the home rank and rights bits). -/
def castleMoves (b : Board) (square : Int) (piece : Piece) (them : Color) :
    List Move :=
  let isWhite := piece == Piece.WhiteKing
  let rankHome : Int := if isWhite then 0 else 7
  let kingSide :=
    if b.state.castlingRights &&&
        (if isWhite then CastleWhiteKing else CastleBlackKing) ≠ 0 then
      let fSquare := make_square 5 rankHome
      let gSquare := make_square 6 rankHome
      if piece_at b fSquare = Piece.None ∧ piece_at b gSquare = Piece.None then
        if !is_square_attacked b (make_square 4 rankHome) them &&
           !is_square_attacked b fSquare them &&
           !is_square_attacked b gSquare them then
          [{ fromSq := square, toSq := gSquare, movingPiece := piece,
             capturedPiece := Piece.None, promotionPiece := Piece.None,
             flags := MoveFlagCastleKingSide }]
        else
          []
      else
        []
    else
      []
  let queenSide :=
    if b.state.castlingRights &&&
        (if isWhite then CastleWhiteQueen else CastleBlackQueen) ≠ 0 then
      let dSquare := make_square 3 rankHome
      let cSquare := make_square 2 rankHome
      let bSquare := make_square 1 rankHome
      if piece_at b dSquare = Piece.None ∧ piece_at b cSquare = Piece.None ∧
          piece_at b bSquare = Piece.None then
        if !is_square_attacked b (make_square 4 rankHome) them &&
           !is_square_attacked b dSquare them &&
           !is_square_attacked b cSquare them then
          [{ fromSq := square, toSq := cSquare, movingPiece := piece,
             capturedPiece := Piece.None, promotionPiece := Piece.None,
             flags := MoveFlagCastleQueenSide }]
        else
          []
      else
        []
    else
      []
  kingSide ++ queenSide

/-- Per-square dispatch of `Board::generate_pseudo_legal_moves`. -/
def movesFrom (b : Board) (us them : Color) (squareN : Fin 64) : List Move :=
  let piece := b.squares squareN
  if piece = Piece.None then
    []
  else if us == Color.White && !is_white_piece piece then
    []
  else if us == Color.Black && !is_black_piece piece then
    []
  else
    let square : Int := (squareN.val : Int)
    let file := file_of square
    let rank := rank_of square
    if piece == Piece.WhitePawn || piece == Piece.BlackPawn then
      pawnForwardMoves b square file rank piece ++
        pawnCaptureMoves b square file rank piece them
    else if piece == Piece.WhiteKnight || piece == Piece.BlackKnight then
      stepMoves b square file rank piece them knightDeltas
    else if piece == Piece.WhiteBishop || piece == Piece.BlackBishop ||
            piece == Piece.WhiteRook || piece == Piece.BlackRook ||
            piece == Piece.WhiteQueen || piece == Piece.BlackQueen then
      let isBishopLike :=
        piece == Piece.WhiteBishop || piece == Piece.BlackBishop ||
        piece == Piece.WhiteQueen || piece == Piece.BlackQueen
      let isRookLike :=
        piece == Piece.WhiteRook || piece == Piece.BlackRook ||
        piece == Piece.WhiteQueen || piece == Piece.BlackQueen
      (if isBishopLike then
        slidingMoves b square file rank piece them bishopDirections
      else
        []) ++
      (if isRookLike then
        slidingMoves b square file rank piece them rookDirections
      else
        [])
    else if piece == Piece.WhiteKing || piece == Piece.BlackKing then
      stepMoves b square file rank piece them kingDeltas ++
        castleMoves b square piece them
    else
      []

/-- board.cpp: `Board::generate_pseudo_legal_moves`. -/
def generate_pseudo_legal_moves (b : Board) : List Move :=
  let us := b.state.sideToMove
  let them := opposite_color us
  (List.finRange 64).flatMap (movesFrom b us them)

/-- The piece-array effect of `Board::make_move` (board.cpp lines 296-364):
en-passant victim removal, castling rook relocation, lifting the mover off
`from` and placing the moved or promoted piece on `to`. -/
def make_move_squares (squares : Fin 64 → Piece) (move : Move)
    (movingSide : Color) : Fin 64 → Piece :=
  let squares1 :=
    if move.flags &&& MoveFlagEnPassant ≠ 0 then
      if movingSide = Color.White then
        let captureSquare := move.toSq - 8
        if 0 ≤ captureSquare ∧ captureSquare < 64 then
          setSq squares captureSquare Piece.None
        else
          squares
      else
        let captureSquare := move.toSq + 8
        if 0 ≤ captureSquare ∧ captureSquare < 64 then
          setSq squares captureSquare Piece.None
        else
          squares
    else
      squares
  let squares2 :=
    if move.flags &&& MoveFlagCastleKingSide ≠ 0 then
      let rookFrom := if movingSide = Color.White then make_square 7 0 else make_square 7 7
      let rookTo := if movingSide = Color.White then make_square 5 0 else make_square 5 7
      setSq (setSq squares1 rookTo (getSq squares1 rookFrom)) rookFrom Piece.None
    else if move.flags &&& MoveFlagCastleQueenSide ≠ 0 then
      let rookFrom := if movingSide = Color.White then make_square 0 0 else make_square 0 7
      let rookTo := if movingSide = Color.White then make_square 3 0 else make_square 3 7
      setSq (setSq squares1 rookTo (getSq squares1 rookFrom)) rookFrom Piece.None
    else
      squares1
  let squares3 := setSq squares2 move.fromSq Piece.None
  let placedPiece :=
    if move.flags &&& MoveFlagPromotion ≠ 0 then move.promotionPiece
    else move.movingPiece
  setSq squares3 move.toSq placedPiece

/-- The castling-rights update of `Board::make_move` (board.cpp lines
366-426): the uint8 `&= ~mask` operations become `&&&` with the 8-bit
complement of the mask. -/
def make_move_rights (rights0 : Nat) (move : Move) : Nat :=
  let fromFile := file_of move.fromSq
  let fromRank := rank_of move.fromSq
  -- king moves clear both bits of that side
  let rights1 :=
    if move.movingPiece = Piece.WhiteKing then rights0 &&& 252
    else if move.movingPiece = Piece.BlackKing then rights0 &&& 243
    else rights0
  -- the own rook leaving its home corner clears that corner's bit
  let rights2 :=
    if move.movingPiece = Piece.WhiteRook then
      if fromFile = 0 ∧ fromRank = 0 then rights1 &&& 253
      else if fromFile = 7 ∧ fromRank = 0 then rights1 &&& 254
      else rights1
    else if move.movingPiece = Piece.BlackRook then
      if fromFile = 0 ∧ fromRank = 7 then rights1 &&& 247
      else if fromFile = 7 ∧ fromRank = 7 then rights1 &&& 251
      else rights1
    else
      rights1
  -- capturing a rook on its home corner clears the opponent's bit
  let toFile := file_of move.toSq
  let toRank := rank_of move.toSq
  if move.capturedPiece = Piece.WhiteRook then
    if toFile = 0 ∧ toRank = 0 then rights2 &&& 253
    else if toFile = 7 ∧ toRank = 0 then rights2 &&& 254
    else rights2
  else if move.capturedPiece = Piece.BlackRook then
    if toFile = 0 ∧ toRank = 7 then rights2 &&& 247
    else if toFile = 7 ∧ toRank = 7 then rights2 &&& 251
    else rights2
  else
    rights2

/-- board.cpp: `Board::make_move`.  The C++ history vector's `push_back`
becomes a list cons (most recent record at the head); `pop_back` is the
matching tail.  The piece-array and castling-rights updates are the helper
functions above. -/
def make_move (Z : ZobristTables) (b : Board) (move : Move) : Board :=
  let undo : Undo :=
    { state := b.state, zobristKey := b.zobristKey,
      capturedPiece := move.capturedPiece, move := move }
  let movingSide := b.state.sideToMove
  let fullmoveNumber :=
    if movingSide = Color.Black then b.state.fullmoveNumber + 1
    else b.state.fullmoveNumber
  let halfmoveClock :=
    if is_pawn move.movingPiece ∨ move.capturedPiece ≠ Piece.None then 0
    else b.state.halfmoveClock + 1
  let enPassantSquare :=
    if is_pawn move.movingPiece ∧ move.flags &&& MoveFlagDoublePawnPush ≠ 0 then
      if movingSide = Color.White then move.fromSq + 8 else move.fromSq - 8
    else
      (-1 : Int)
  let state : BoardState :=
    { sideToMove := opposite_color movingSide,
      castlingRights := make_move_rights b.state.castlingRights move,
      enPassantSquare := enPassantSquare, halfmoveClock := halfmoveClock,
      fullmoveNumber := fullmoveNumber }
  let afterMove : Board :=
    { squares := make_move_squares b.squares move movingSide, state := state,
      zobristKey := 0, history := undo :: b.history }
  { afterMove with zobristKey := compute_zobrist Z afterMove }

/-- The piece-array effect of `Board::undo_move` (board.cpp lines 463-525):
undo the castling rook relocation, then restore `from`/`to` and the
en-passant victim. -/
def undo_move_squares (squares : Fin 64 → Piece) (undo : Undo)
    (movingSide : Color) : Fin 64 → Piece :=
  let move := undo.move
  let movingPiece := move.movingPiece
  let squares1 :=
    if move.flags &&& MoveFlagCastleKingSide ≠ 0 then
      let rookFrom := if movingSide = Color.White then make_square 7 0 else make_square 7 7
      let rookTo := if movingSide = Color.White then make_square 5 0 else make_square 5 7
      setSq (setSq squares rookFrom (getSq squares rookTo)) rookTo Piece.None
    else if move.flags &&& MoveFlagCastleQueenSide ≠ 0 then
      let rookFrom := if movingSide = Color.White then make_square 0 0 else make_square 0 7
      let rookTo := if movingSide = Color.White then make_square 3 0 else make_square 3 7
      setSq (setSq squares rookFrom (getSq squares rookTo)) rookTo Piece.None
    else
      squares
  if move.flags &&& MoveFlagEnPassant ≠ 0 then
    let s1 := setSq squares1 move.fromSq movingPiece
    let s2 := setSq s1 move.toSq Piece.None
    let captureSquare :=
      if movingSide = Color.White then move.toSq - 8 else move.toSq + 8
    setSq s2 captureSquare undo.capturedPiece
  else
    -- the C++ promotion and non-promotion branches both restore
    -- squares[to] := undo.capturedPiece
    let s1 := setSq squares1 move.fromSq movingPiece
    setSq s1 move.toSq undo.capturedPiece

/-- board.cpp: `Board::undo_move` (returns the board unchanged when the
history is empty). -/
def undo_move (b : Board) : Board :=
  match b.history with
  | [] => b
  | undo :: rest =>
    let movingSide := opposite_color b.state.sideToMove
    { squares := undo_move_squares b.squares undo movingSide,
      state := undo.state, zobristKey := undo.zobristKey, history := rest }

/-- board.cpp: `Board::generate_legal_moves`: keep the pseudo-legal moves
whose application leaves the mover's king not in check. -/
def generate_legal_moves (Z : ZobristTables) (b : Board) : List Move :=
  (generate_pseudo_legal_moves b).filter fun move =>
    let movingSide := side_to_move b
    !is_in_check (make_move Z b move) movingSide

/-- Modelled from the spec: `Board::make_null_move` is declared in board.h
and called by search.cpp but its definition is not part of the sources
under src/.  Spec §4.2: "make_null_move toggles side, clears en-passant,
pushes an Undo with a sentinel move"; the Undo snapshot follows the §3
Undo-record description, the sentinel move is the default-constructed
`Move{}`, and the Zobrist key is recomputed to keep the §3 at-rest hash
invariant, as `make_move` does. -/
def make_null_move (Z : ZobristTables) (b : Board) : Board :=
  let undo : Undo :=
    { state := b.state, zobristKey := b.zobristKey,
      capturedPiece := Piece.None, move := {} }
  let state : BoardState :=
    { b.state with sideToMove := opposite_color b.state.sideToMove,
                   enPassantSquare := -1 }
  let afterNull : Board :=
    { squares := b.squares, state := state, zobristKey := 0,
      history := undo :: b.history }
  { afterNull with zobristKey := compute_zobrist Z afterNull }

/-- Modelled from the spec: `Board::undo_null_move` (declared in board.h,
not defined under src/).  Spec §4.2: "undo_null_move restores": it pops the
Undo record pushed by `make_null_move` and restores state and Zobrist key
from the snapshot (the squares were untouched). -/
def undo_null_move (b : Board) : Board :=
  match b.history with
  | [] => b
  | undo :: rest =>
    { squares := b.squares, state := undo.state,
      zobristKey := undo.zobristKey, history := rest }

/-- A simple all-zero Zobrist table used to instantiate the table-generic
theorems on concrete inputs. -/
def Z0 : ZobristTables :=
  { pieces := fun _ _ => 0, castling := fun _ => 0, enPassant := fun _ => 0,
    sideToMove := 0 }

/-- Builds a squares function from a list in square order (a1 first). -/
def boardOfList (l : List Piece) (st : BoardState) : Board :=
  { squares := fun i => l.getD i.val Piece.None, state := st,
    zobristKey := 0, history := [] }

/-- A minimal position: white king e1, black king e8, white to move. -/
def kingsBoard : Board :=
  { squares := fun i =>
      if i.val = 4 then Piece.WhiteKing
      else if i.val = 60 then Piece.BlackKing
      else Piece.None,
    state := { }, zobristKey := 0, history := [] }

/-- search.cpp: `MateValue` = 30000. -/
def MateValue : Int := 30000

/-- search.cpp: `MateThreshold` = MateValue - 1024. -/
def MateThreshold : Int := MateValue - 1024

/-- search.cpp: `InfinityScore` = INT_MAX / 16 (32-bit int). -/
def InfinityScore : Int := 134217727

/-- search.cpp: `MaxSearchDepth`. -/
def MaxSearchDepth : Nat := 64

/-- search.cpp: `TTSize` = 1 << 20. -/
def TTSize : Nat := 1048576

/-- search.cpp: `NodeType`. -/
inductive NodeType : Type
  | Exact
  | LowerBound
  | UpperBound
deriving DecidableEq, Repr

/-- search.cpp: `TTEntry`. -/
structure TTEntry where
  key : Nat := 0
  depth : Int := 0
  score : Int := 0
  nodeType : NodeType := NodeType.Exact
  bestMove : Move := {}
  valid : Bool := false
deriving DecidableEq, Repr

/-- search.cpp: the transposition table, a flat array of `TTSize` entries
indexed by `key % TTSize` (embedded as a function from the index). -/
def TranspositionTable : Type := Nat → TTEntry

/-- search.cpp: `to_tt_score` (shift mate scores away from the root when
storing). -/
def to_tt_score (score ply : Int) : Int :=
  if score ≥ MateThreshold then score + ply
  else if score ≤ -MateThreshold then score - ply
  else score

/-- search.cpp: `from_tt_score` (reverse the shift when loading). -/
def from_tt_score (score ply : Int) : Int :=
  if score ≥ MateThreshold then score - ply
  else if score ≤ -MateThreshold then score + ply
  else score

/-- search.cpp: `store_tt`: overwrite the slot at `key % TTSize` when the
slot is empty, the stored key differs from the new key
(`entry.key != key`), or the new depth ≥ the stored depth. -/
def store_tt (table : TranspositionTable) (key : Nat) (depth ply score : Int)
    (nodeType : NodeType) (bestMove : Move) : TranspositionTable :=
  if ¬(table (key % TTSize)).valid ∨ (table (key % TTSize)).key ≠ key ∨
      depth ≥ (table (key % TTSize)).depth then
    Function.update table (key % TTSize)
      { key := key, depth := depth, score := to_tt_score score ply,
        nodeType := nodeType, bestMove := bestMove, valid := true }
  else
    table

/-- search.cpp: `compute_time_budget_ms`. -/
def compute_time_budget_ms (timeLimitMs : Int) : Int :=
  if timeLimitMs ≤ 0 then 0
  else if timeLimitMs < 5000 then timeLimitMs
  else
    let assumedMovesToGo : Int := 30
    let perMove := timeLimitMs.tdiv assumedMovesToGo
    let safetyMargin := timeLimitMs.tdiv 20
    let budget := max perMove 50
    min (timeLimitMs - safetyMargin) budget

/-- Modelled from the claim wording for C6 (refinement comparison only):
"t minus a safety margin of one twentieth of t, with the remainder divided
by an assumed 30 moves-to-go and floored at 50 ms", i.e.
max((t - t/20) / 30, 50), claimed for every t > 0. -/
def spec_clock_budget (t : Int) : Int :=
  max ((t - t.tdiv 20).tdiv 30) 50

/-- board.cpp anonymous namespace: `piece_from_char`. -/
def piece_from_char (symbol : Char) : Piece :=
  if symbol = 'P' then Piece.WhitePawn
  else if symbol = 'N' then Piece.WhiteKnight
  else if symbol = 'B' then Piece.WhiteBishop
  else if symbol = 'R' then Piece.WhiteRook
  else if symbol = 'Q' then Piece.WhiteQueen
  else if symbol = 'K' then Piece.WhiteKing
  else if symbol = 'p' then Piece.BlackPawn
  else if symbol = 'n' then Piece.BlackKnight
  else if symbol = 'b' then Piece.BlackBishop
  else if symbol = 'r' then Piece.BlackRook
  else if symbol = 'q' then Piece.BlackQueen
  else if symbol = 'k' then Piece.BlackKing
  else Piece.None

/-- board.cpp anonymous namespace: `char_from_piece`. -/
def char_from_piece (piece : Piece) : Char :=
  match piece with
  | Piece.WhitePawn => 'P'
  | Piece.WhiteKnight => 'N'
  | Piece.WhiteBishop => 'B'
  | Piece.WhiteRook => 'R'
  | Piece.WhiteQueen => 'Q'
  | Piece.WhiteKing => 'K'
  | Piece.BlackPawn => 'p'
  | Piece.BlackKnight => 'n'
  | Piece.BlackBishop => 'b'
  | Piece.BlackRook => 'r'
  | Piece.BlackQueen => 'q'
  | Piece.BlackKing => 'k'
  | Piece.None => ' '

/-- move.cpp: `square_to_string` as a character list ('' outside the
board). -/
def square_to_chars (square : Int) : List Char :=
  if square < 0 ∨ 64 ≤ square then
    []
  else
    [Char.ofNat ('a'.toNat + (file_of square).toNat),
     Char.ofNat ('1'.toNat + (rank_of square).toNat)]

/-- `std::tolower` restricted to ASCII as used by `square_from_string`. -/
def char_tolower (c : Char) : Char :=
  if 'A' ≤ c ∧ c ≤ 'Z' then Char.ofNat (c.toNat + 32) else c

/-- move.cpp: `square_from_string` over a character list (-1 on any
malformed name). -/
def square_from_chars (name : List Char) : Int :=
  match name with
  | [f0, r0] =>
    let fileChar := char_tolower f0
    let rankChar := r0
    if fileChar < 'a' ∨ 'h' < fileChar ∨ rankChar < '1' ∨ '8' < rankChar then
      -1
    else
      make_square ((fileChar.toNat : Int) - ('a'.toNat : Int))
        ((rankChar.toNat : Int) - ('1'.toNat : Int))
  | _ => -1

/-- Whitespace of the classic C locale, which `std::istringstream` token
extraction skips. -/
def is_space (c : Char) : Bool :=
  c = ' ' ∨ c = '\t' ∨ c = '\n' ∨ c = '\x0d' ∨ c = '\x0b' ∨ c = '\x0c'

/-- Helper of `words`: accumulates the current word (reversed). -/
def words_aux : List Char → List Char → List (List Char)
  | [], acc => if acc = [] then [] else [acc.reverse]
  | c :: rest, acc =>
    if is_space c then
      (if acc = [] then [] else [acc.reverse]) ++ words_aux rest []
    else
      words_aux rest (c :: acc)

/-- Whitespace-separated tokens of a character list, as the chained
`stream >> tok` extractions of load_fen read them. -/
def words (s : List Char) : List (List Char) :=
  words_aux s []

/-- Decimal digits of a natural number (what `stream << int` prints for
non-negative values). -/
def natDigitsF : Nat → Nat → List Char
  | 0, n => [Char.ofNat ('0'.toNat + n)]
  | fuel + 1, n =>
    if n < 10 then
      [Char.ofNat ('0'.toNat + n)]
    else
      natDigitsF fuel (n / 10) ++ [Char.ofNat ('0'.toNat + n % 10)]

def natDigits (n : Nat) : List Char :=
  natDigitsF n n

/-- `stream << int` for a possibly negative value. -/
def int_to_chars (i : Int) : List Char :=
  if i < 0 then '-' :: natDigits (-i).toNat else natDigits i.toNat

/-- Accumulating decimal parse, as `stream >> int` consumes digits. -/
def parseNatAux : List Char → Nat → Nat
  | [], acc => acc
  | c :: rest, acc => parseNatAux rest (acc * 10 + (c.toNat - '0'.toNat))

/-- The `stream >> int` extraction of one already-tokenized field: an
optionally signed decimal.  Faithful to the C++ stream semantics on
well-formed FEN number fields; `dflt` is the value the C++ variable keeps
when the field is absent. -/
def parse_int_field (tok : List Char) (dflt : Int) : Int :=
  match tok with
  | [] => dflt
  | c :: _ =>
    if c = '-' then -(parseNatAux tok.tail 0 : Int)
    else (parseNatAux tok 0 : Int)

/-- The placement-loop of `Board::load_fen` (board.cpp lines 134-158): fold
over the placement characters updating (rank, file, squares); the explicit
`square >= 0 && square < 64` guard of the C++ code is the `setSq` guard. -/
def parse_placement : List Char → Int → Int → (Fin 64 → Piece) →
    (Fin 64 → Piece)
  | [], _, _, squares => squares
  | c :: rest, rank, file, squares =>
    if c = '/' then
      parse_placement rest (rank - 1) 0 squares
    else if '1' ≤ c ∧ c ≤ '8' then
      parse_placement rest rank (file + ((c.toNat : Int) - ('0'.toNat : Int)))
        squares
    else
      let piece := piece_from_char c
      let square := rank * 8 + file
      parse_placement rest rank (file + 1) (setSq squares square piece)

/-- The castling-field parse of `Board::load_fen` (find of each letter). -/
def parse_castling (castling : List Char) : Nat :=
  (if 'K' ∈ castling then CastleWhiteKing else 0) |||
  (if 'Q' ∈ castling then CastleWhiteQueen else 0) |||
  (if 'k' ∈ castling then CastleBlackKing else 0) |||
  (if 'q' ∈ castling then CastleBlackQueen else 0)

/-- board.cpp: `Board::load_fen` over the character list of the FEN
string. -/
def load_fen_chars (Z : ZobristTables) (fen : List Char) : Board :=
  let toks := words fen
  let placement := toks.getD 0 []
  let side := toks.getD 1 []
  let castling := toks.getD 2 []
  let enPassant := toks.getD 3 []
  let halfmove := parse_int_field (toks.getD 4 []) 0
  let fullmove := parse_int_field (toks.getD 5 []) 1
  let squares := parse_placement placement 7 0 (fun _ => Piece.None)
  let sideToMove := if side = ['b'] then Color.Black else Color.White
  let enPassantSquare :=
    if enPassant ≠ ['-'] ∧ enPassant ≠ [] then square_from_chars enPassant
    else -1
  let state : BoardState :=
    { sideToMove := sideToMove, castlingRights := parse_castling castling,
      enPassantSquare := enPassantSquare, halfmoveClock := halfmove,
      fullmoveNumber := fullmove }
  let b : Board := { squares := squares, state := state, zobristKey := 0,
                     history := [] }
  { b with zobristKey := compute_zobrist Z b }

/-- board.cpp: `Board::load_fen` on a `String`. -/
def load_fen (Z : ZobristTables) (fen : String) : Board :=
  load_fen_chars Z fen.data

/-- One rank of the `Board::to_fen` placement output, from `file` to h,
carrying the pending run of empty squares (board.cpp lines 185-214). -/
def fen_rank_go (squares : Fin 64 → Piece) (rank : Int) :
    Nat → Nat → Nat → List Char
  | 0, _, emptyCount => if 0 < emptyCount then natDigits emptyCount else []
  | remaining + 1, file, emptyCount =>
    let piece := getSq squares (rank * 8 + (file : Int))
    if piece = Piece.None then
      fen_rank_go squares rank remaining (file + 1) (emptyCount + 1)
    else
      (if 0 < emptyCount then natDigits emptyCount else []) ++
        char_from_piece piece :: fen_rank_go squares rank remaining (file + 1) 0

def fen_rank_from (squares : Fin 64 → Piece) (rank : Int) (file : Nat)
    (emptyCount : Nat) : List Char :=
  fen_rank_go squares rank (8 - file) file emptyCount

/-- The ranks of the `Board::to_fen` placement output from `rank` downward
(`n` ranks in total), slash-separated. -/
def fen_placement_from (squares : Fin 64 → Piece) : Nat → Int → List Char
  | 0, _ => []
  | n + 1, rank =>
    fen_rank_from squares rank 0 0 ++
      (if 0 < rank then ['/'] else []) ++
      fen_placement_from squares n (rank - 1)

/-- The placement field of `Board::to_fen`. -/
def fen_placement (squares : Fin 64 → Piece) : List Char :=
  fen_placement_from squares 8 7

/-- The castling field of `Board::to_fen`. -/
def fen_castling (rights : Nat) : List Char :=
  if rights = 0 then
    ['-']
  else
    (if rights &&& CastleWhiteKing ≠ 0 then ['K'] else []) ++
    (if rights &&& CastleWhiteQueen ≠ 0 then ['Q'] else []) ++
    (if rights &&& CastleBlackKing ≠ 0 then ['k'] else []) ++
    (if rights &&& CastleBlackQueen ≠ 0 then ['q'] else [])

/-- The en-passant field of `Board::to_fen`. -/
def fen_en_passant (ep : Int) : List Char :=
  if ep = -1 then ['-'] else square_to_chars ep

/-- board.cpp: `Board::to_fen` over character lists (a function of the
squares array and state only). -/
def to_fen_chars (squares : Fin 64 → Piece) (state : BoardState) :
    List Char :=
  fen_placement squares ++
    ' ' :: (if state.sideToMove = Color.White then ['w'] else ['b']) ++
    ' ' :: fen_castling state.castlingRights ++
    ' ' :: fen_en_passant state.enPassantSquare ++
    ' ' :: int_to_chars state.halfmoveClock ++
    ' ' :: int_to_chars state.fullmoveNumber

/-- board.cpp: `Board::to_fen` on a `String`. -/
def to_fen (b : Board) : String :=
  String.mk (to_fen_chars b.squares b.state)

/-- Well-formedness of the board fields rendered into a FEN: ranges that
hold for every state `load_fen` itself produces from a six-field FEN. -/
@[reducible] def fen_well_formed (b : Board) : Prop :=
  b.state.castlingRights < 16 ∧
  (b.state.enPassantSquare = -1 ∨
    (0 ≤ b.state.enPassantSquare ∧ b.state.enPassantSquare < 64)) ∧
  0 ≤ b.state.halfmoveClock ∧ 0 ≤ b.state.fullmoveNumber

/-- A valid six-field FEN string: the FEN text of a well-formed position
(spec section 6.1: emit follows the same grammar that accept reads, so the
valid FENs are exactly the emitted ones). -/
def ValidFEN (s : String) : Prop :=
  ∃ b : Board, fen_well_formed b ∧ to_fen b = s

/-! ### Evaluation (eval.cpp) -/

/-- eval.cpp: `PawnValue`. -/
def PawnValue : Int := 100

/-- eval.cpp: `KnightValue`. -/
def KnightValue : Int := 320

/-- eval.cpp: `BishopValue`. -/
def BishopValue : Int := 330

/-- eval.cpp: `RookValue`. -/
def RookValue : Int := 500

/-- eval.cpp: `QueenValue`. -/
def QueenValue : Int := 900

/-- eval.cpp: `MaxPhase`. -/
def MaxPhase : Int := 24

/-- eval.cpp: `PassedPawnBonusMg`. -/
def PassedPawnBonusMg : List Int := [0, 5, 10, 20, 35, 60, 100, 0]

/-- eval.cpp: `PassedPawnBonusEg`. -/
def PassedPawnBonusEg : List Int := [0, 10, 20, 40, 70, 110, 170, 0]

/-- eval.cpp: `IsolatedPenaltyMg`. -/
def IsolatedPenaltyMg : Int := 15

/-- eval.cpp: `IsolatedPenaltyEg`. -/
def IsolatedPenaltyEg : Int := 10

/-- eval.cpp: `DoubledPenaltyMg`. -/
def DoubledPenaltyMg : Int := 20

/-- eval.cpp: `DoubledPenaltyEg`. -/
def DoubledPenaltyEg : Int := 12

/-- eval.cpp: `BackwardPenaltyMg`. -/
def BackwardPenaltyMg : Int := 12

/-- eval.cpp: `BackwardPenaltyEg`. -/
def BackwardPenaltyEg : Int := 8

/-- eval.cpp: `pawnTable`. -/
def pawnTable : List Int :=
  [ 0,  0,  0,  0,  0,  0,  0,  0,
   10, 15, 15, 20, 20, 15, 15, 10,
    5, 10, 15, 25, 25, 15, 10,  5,
    0,  5, 10, 20, 20, 10,  5,  0,
    0,  5, 10, 15, 15, 10,  5,  0,
    0,  5,  5, 10, 10,  5,  5,  0,
    0,  0,  0,  0,  0,  0,  0,  0,
    0,  0,  0,  0,  0,  0,  0,  0]

/-- eval.cpp: `knightTable`. -/
def knightTable : List Int :=
  [-50, -40, -30, -30, -30, -30, -40, -50,
   -40, -20,   0,   5,   5,   0, -20, -40,
   -30,   5,  10,  15,  15,  10,   5, -30,
   -30,   0,  15,  20,  20,  15,   0, -30,
   -30,   5,  15,  20,  20,  15,   5, -30,
   -30,   0,  10,  15,  15,  10,   0, -30,
   -40, -20,   0,   0,   0,   0, -20, -40,
   -50, -40, -30, -30, -30, -30, -40, -50]

/-- eval.cpp: `bishopTable`. -/
def bishopTable : List Int :=
  [-20, -10, -10, -10, -10, -10, -10, -20,
   -10,   0,   0,   0,   0,   0,   0, -10,
   -10,   0,   5,  10,  10,   5,   0, -10,
   -10,   5,   5,  10,  10,   5,   5, -10,
   -10,   0,  10,  10,  10,  10,   0, -10,
   -10,  10,  10,  10,  10,  10,  10, -10,
   -10,   5,   0,   0,   0,   0,   5, -10,
   -20, -10, -10, -10, -10, -10, -10, -20]

/-- eval.cpp: `rookTable`. -/
def rookTable : List Int :=
  [ 0,   0,   5,  10,  10,   5,   0,   0,
    0,   0,   5,  10,  10,   5,   0,   0,
    0,   0,   5,  10,  10,   5,   0,   0,
    0,   0,   5,  10,  10,   5,   0,   0,
    0,   0,   5,  10,  10,   5,   0,   0,
    0,   0,   5,  10,  10,   5,   0,   0,
   10,  10,  10,  15,  15,  10,  10,  10,
    0,   0,   0,   0,   0,   0,   0,   0]

/-- eval.cpp: `queenTable`. -/
def queenTable : List Int :=
  [-20, -10, -10,  -5,  -5, -10, -10, -20,
   -10,   0,   0,   0,   0,   0,   0, -10,
   -10,   0,   5,   5,   5,   5,   0, -10,
    -5,   0,   5,   5,   5,   5,   0,  -5,
     0,   0,   5,   5,   5,   5,   0,  -5,
   -10,   5,   5,   5,   5,   5,   0, -10,
   -10,   0,   5,   0,   0,   0,   0, -10,
   -20, -10, -10,  -5,  -5, -10, -10, -20]

/-- eval.cpp: `kingTableMidgame`. -/
def kingTableMidgame : List Int :=
  [-30, -40, -40, -50, -50, -40, -40, -30,
   -30, -40, -40, -50, -50, -40, -40, -30,
   -30, -40, -40, -50, -50, -40, -40, -30,
   -30, -40, -40, -50, -50, -40, -40, -30,
   -20, -30, -30, -40, -40, -30, -30, -20,
   -10, -20, -20, -20, -20, -20, -20, -10,
    20,  20,   0,   0,   0,   0,  20,  20,
    20,  30,  10,   0,   0,  10,  30,  20]

/-- eval.cpp: `kingTableEndgame`. -/
def kingTableEndgame : List Int :=
  [-50, -30, -30, -30, -30, -30, -30, -50,
   -30, -20, -10,   0,   0, -10, -20, -30,
   -30, -10,  20,  30,  30,  20, -10, -30,
   -30, -10,  30,  40,  40,  30, -10, -30,
   -30, -10,  30,  40,  40,  30, -10, -30,
   -30, -10,  20,  30,  30,  20, -10, -30,
   -30, -30,   0,   0,   0,   0, -30, -30,
   -50, -30, -30, -30, -30, -30, -30, -50]

/-- C++ `table[idx]` for the 64-entry evaluation tables (every caller passes
an index in 0..63). -/
def tableAt (t : List Int) (idx : Int) : Int :=
  t.getD idx.toNat 0

/-- eval.cpp: `mirror_square`. -/
def mirror_square (square : Int) : Int :=
  make_square (file_of square) (7 - rank_of square)

/-- eval.cpp: `piece_phase_value`. -/
def piece_phase_value (piece : Piece) : Int :=
  match piece with
  | .WhiteKnight | .BlackKnight => 1
  | .WhiteBishop | .BlackBishop => 1
  | .WhiteRook | .BlackRook => 2
  | .WhiteQueen | .BlackQueen => 4
  | _ => 0

/-- eval.cpp: `PhaseScore`. -/
@[ext] structure PhaseScore where
  mg : Int := 0
  eg : Int := 0
deriving DecidableEq, Repr

/-- eval.cpp: `SideEval`.  `pawnFileCounts` (`std::array<int, 8>`, only
ever indexed at 0..7) is embedded as a function. -/
@[ext] structure SideEval where
  base : PhaseScore := {}
  pawnFileCounts : Int → Int := fun _ => 0
  pawnSquares : List Int := []
  knightSquares : List Int := []
  bishopSquares : List Int := []
  rookSquares : List Int := []
  queenSquares : List Int := []
  kingSquare : Int := -1

/-- eval.cpp: `piece_square_score`. -/
def piece_square_score (piece : Piece) (square : Int) (color : Color) :
    PhaseScore :=
  let idx := if color = Color.White then square else mirror_square square
  match piece with
  | .WhitePawn | .BlackPawn =>
    ⟨PawnValue + tableAt pawnTable idx, PawnValue + tableAt pawnTable idx⟩
  | .WhiteKnight | .BlackKnight =>
    ⟨KnightValue + tableAt knightTable idx,
     KnightValue + tableAt knightTable idx⟩
  | .WhiteBishop | .BlackBishop =>
    ⟨BishopValue + tableAt bishopTable idx,
     BishopValue + tableAt bishopTable idx⟩
  | .WhiteRook | .BlackRook =>
    ⟨RookValue + tableAt rookTable idx, RookValue + tableAt rookTable idx⟩
  | .WhiteQueen | .BlackQueen =>
    ⟨QueenValue + tableAt queenTable idx, QueenValue + tableAt queenTable idx⟩
  | .WhiteKing | .BlackKing =>
    ⟨tableAt kingTableMidgame idx, tableAt kingTableEndgame idx⟩
  | .None => ⟨0, 0⟩

/-- eval.cpp: `accumulate_piece` (the two by-reference parameters become
the returned pair). -/
def accumulate_piece (piece : Piece) (square : Int) (side : SideEval)
    (phase : Int) : SideEval × Int :=
  let color := if is_white_piece piece then Color.White else Color.Black
  let pst := piece_square_score piece square color
  let side :=
    { side with base := ⟨side.base.mg + pst.mg, side.base.eg + pst.eg⟩ }
  let phase := phase + piece_phase_value piece
  match piece with
  | .WhitePawn | .BlackPawn =>
    ({ side with
        pawnFileCounts := fun f =>
          if f = file_of square then side.pawnFileCounts f + 1
          else side.pawnFileCounts f,
        pawnSquares := side.pawnSquares ++ [square] }, phase)
  | .WhiteKnight | .BlackKnight =>
    ({ side with knightSquares := side.knightSquares ++ [square] }, phase)
  | .WhiteBishop | .BlackBishop =>
    ({ side with bishopSquares := side.bishopSquares ++ [square] }, phase)
  | .WhiteRook | .BlackRook =>
    ({ side with rookSquares := side.rookSquares ++ [square] }, phase)
  | .WhiteQueen | .BlackQueen =>
    ({ side with queenSquares := side.queenSquares ++ [square] }, phase)
  | .WhiteKing | .BlackKing =>
    ({ side with kingSquare := square }, phase)
  | .None => (side, phase)

/-- The ranks visited by the eval.cpp scan loops of the shape
`for (r = start + direction; r >= 0 && r < 8; r += direction)` with
`direction = ±1` (the loop exits at the first out-of-range rank, and the
iterates are monotone, so the visited ranks are exactly the in-range ones).
-/
def rank_scan (start direction : Int) : List Int :=
  ((List.range 8).map (fun i => start + direction * ((i : Int) + 1))).filter
    (fun r => decide (0 ≤ r ∧ r < 8))

/-- eval.cpp: `is_passed_pawn` (returns false iff the scan finds an enemy
pawn). -/
def is_passed_pawn (b : Board) (square : Int) (side : Color) : Bool :=
  let file := file_of square
  let rank := rank_of square
  let direction : Int := if side = Color.White then 1 else -1
  let enemyPawn :=
    if side = Color.White then Piece.BlackPawn else Piece.WhitePawn
  (rank_scan rank direction).all (fun r =>
    ([-1, 0, 1] : List Int).all (fun df =>
      let f := file + df
      if f < 0 ∨ f > 7 then true
      else decide (piece_at b (make_square f r) ≠ enemyPawn)))

/-- eval.cpp: `is_isolated_pawn`. -/
def is_isolated_pawn (side : SideEval) (file : Int) : Bool :=
  let left := decide (0 < file) && decide (0 < side.pawnFileCounts (file - 1))
  let right := decide (file < 7) && decide (0 < side.pawnFileCounts (file + 1))
  !left && !right

/-- Body of eval.cpp `is_backward_pawn` over its computed locals (`file`,
`rank`, `direction`, own/enemy pawn, the opponent file count it reads); the
backward scans `for (r = rank - direction; ...; r -= direction)` are
`rank_scan` with direction `-direction`. -/
def is_backward_core (b : Board) (file rank direction : Int)
    (ownPawn enemyPawn : Piece) (oppFileCount : Int) : Bool :=
  let targetRank := rank + direction
  if targetRank < 0 ∨ targetRank > 7 then false
  else if ¬ is_empty_piece (piece_at b (make_square file targetRank)) then
    false
  else
    let behindClear := ([-1, 1] : List Int).all (fun df =>
      let adjFile := file + df
      if adjFile < 0 ∨ adjFile > 7 then true
      else (rank_scan rank (-direction)).all (fun r =>
        decide (piece_at b (make_square adjFile r) ≠ ownPawn)))
    if ¬ behindClear then false
    else
      if ([-1, 1] : List Int).any (fun df =>
          let adjFile := file + df
          if adjFile < 0 ∨ adjFile > 7 then false
          else decide (piece_at b (make_square adjFile targetRank) = enemyPawn))
      then true
      else decide (0 < oppFileCount)

/-- eval.cpp: `is_backward_pawn`. -/
def is_backward_pawn (b : Board) (square : Int) (side : Color)
    (opponent : SideEval) : Bool :=
  is_backward_core b (file_of square) (rank_of square)
    (if side = Color.White then 1 else -1)
    (if side = Color.White then Piece.WhitePawn else Piece.BlackPawn)
    (if side = Color.White then Piece.BlackPawn else Piece.WhitePawn)
    (opponent.pawnFileCounts (file_of square))

/-- Componentwise sum of `PhaseScore` values (the `score.mg += ...;
score.eg += ...` accumulation pattern of eval.cpp). -/
def PhaseScore.add (a b : PhaseScore) : PhaseScore :=
  ⟨a.mg + b.mg, a.eg + b.eg⟩

/-- Folded accumulation of `PhaseScore` contributions, as the eval.cpp
loops accumulate into a local `score`. -/
def sumScores (l : List PhaseScore) : PhaseScore :=
  l.foldl PhaseScore.add ⟨0, 0⟩

/-- The files 0..7 iterated by eval.cpp's per-file loops. -/
def fileList : List Int := [0, 1, 2, 3, 4, 5, 6, 7]

/-- The doubled-pawn term of `pawn_structure_score` for one file. -/
def doubled_file_penalty (us : SideEval) (file : Int) : PhaseScore :=
  let count := us.pawnFileCounts file
  if 1 < count then
    ⟨-((count - 1) * DoubledPenaltyMg), -((count - 1) * DoubledPenaltyEg)⟩
  else ⟨0, 0⟩

/-- The per-pawn term of `pawn_structure_score` (passed bonus, isolated or
backward penalty). -/
def pawn_entry_score (b : Board) (side : Color) (us them : SideEval)
    (square : Int) : PhaseScore :=
  let file := file_of square
  let relRank :=
    if side = Color.White then rank_of square else 7 - rank_of square
  let passed : PhaseScore :=
    if 0 ≤ relRank ∧ relRank < 8 ∧ is_passed_pawn b square side then
      ⟨PassedPawnBonusMg.getD relRank.toNat 0,
       PassedPawnBonusEg.getD relRank.toNat 0⟩
    else ⟨0, 0⟩
  let structural : PhaseScore :=
    if is_isolated_pawn us file then ⟨-IsolatedPenaltyMg, -IsolatedPenaltyEg⟩
    else if is_backward_pawn b square side them then
      ⟨-BackwardPenaltyMg, -BackwardPenaltyEg⟩
    else ⟨0, 0⟩
  PhaseScore.add passed structural

/-- eval.cpp: `pawn_structure_score`. -/
def pawn_structure_score (b : Board) (side : Color) (us them : SideEval) :
    PhaseScore :=
  PhaseScore.add
    (sumScores (fileList.map (doubled_file_penalty us)))
    (sumScores (us.pawnSquares.map (pawn_entry_score b side us them)))

/-- The `add_threat_penalty` lambda of `king_safety_score`: `penalty` per
enemy piece within Chebyshev distance 2 of the king. -/
def threat_penalty (kingFile kingRank : Int) (squares : List Int)
    (penalty : Int) : Int :=
  penalty * (squares.countP (fun sq =>
    decide (max |file_of sq - kingFile| |rank_of sq - kingRank| ≤ 2)) : Nat)

/-- eval.cpp: `king_safety_score` (all terms touch only the middlegame
component, as in the source). -/
def king_safety_score (b : Board) (side : Color) (us them : SideEval)
    (fullmoveNumber : Int) : PhaseScore :=
  if us.kingSquare = -1 then ⟨0, 0⟩
  else
    let kingFile := file_of us.kingSquare
    let kingRank := rank_of us.kingSquare
    let direction : Int := if side = Color.White then 1 else -1
    let ownPawn :=
      if side = Color.White then Piece.WhitePawn else Piece.BlackPawn
    let pawnShield : Int :=
      (([-1, 0, 1] : List Int).countP (fun df =>
        let file := kingFile + df
        if file < 0 ∨ file > 7 then false
        else ([1, 2] : List Int).any (fun step =>
          let rank := kingRank + direction * step
          if rank < 0 ∨ rank > 7 then false
          else decide (piece_at b (make_square file rank) = ownPawn))) : Nat)
    let missingShield := max 0 (3 - pawnShield)
    let openFiles : Int :=
      (([-1, 0, 1] : List Int).map (fun df =>
        let file := kingFile + df
        if file < 0 ∨ file > 7 then 0
        else
          let friendlyPawns := 0 < us.pawnFileCounts file
          let enemyPawns := 0 < them.pawnFileCounts file
          if ¬friendlyPawns ∧ ¬enemyPawns then (-20 : Int)
          else if ¬friendlyPawns then -12
          else 0)).sum
    let kingCastled :=
      (side = Color.White ∧
        (us.kingSquare = make_square 6 0 ∨ us.kingSquare = make_square 2 0)) ∨
      (side = Color.Black ∧
        (us.kingSquare = make_square 6 7 ∨ us.kingSquare = make_square 2 7))
    let castleTerm : Int :=
      if kingCastled then 16
      else if 10 < fullmoveNumber ∧
          ((side = Color.White ∧ kingRank = 0) ∨
           (side = Color.Black ∧ kingRank = 7)) then -18
      else 0
    let threats :=
      threat_penalty kingFile kingRank them.knightSquares 6 +
      threat_penalty kingFile kingRank them.bishopSquares 5 +
      threat_penalty kingFile kingRank them.rookSquares 7 +
      threat_penalty kingFile kingRank them.queenSquares 9
    ⟨-(missingShield * 12) + openFiles + castleTerm - threats, 0⟩

/-- The per-knight term of `activity_score`. -/
def knight_activity (side : Color) (square : Int) : PhaseScore :=
  let file := file_of square
  let relRank :=
    if side = Color.White then rank_of square else 7 - rank_of square
  let advanced : Int := if 1 < relRank then 6 else 0
  let central : PhaseScore :=
    if 2 ≤ file ∧ file ≤ 5 ∧ 2 ≤ relRank ∧ relRank ≤ 5 then ⟨8, 4⟩
    else ⟨0, 0⟩
  let rim : Int := if file = 0 ∨ file = 7 then -8 else 0
  ⟨advanced + central.mg + rim, central.eg⟩

/-- The per-bishop term of `activity_score` (middlegame only). -/
def bishop_activity (side : Color) (square : Int) : Int :=
  let relRank :=
    if side = Color.White then rank_of square else 7 - rank_of square
  if 0 < relRank then 5 else 0

/-- The per-rook term of `activity_score`. -/
def rook_activity (side : Color) (us them : SideEval) (square : Int) :
    PhaseScore :=
  let file := file_of square
  let relRank :=
    if side = Color.White then rank_of square else 7 - rank_of square
  let friendlyPawns := 0 < us.pawnFileCounts file
  let enemyPawns := 0 < them.pawnFileCounts file
  let fileBonus : PhaseScore :=
    if ¬friendlyPawns ∧ ¬enemyPawns then ⟨20, 12⟩
    else if ¬friendlyPawns then ⟨12, 6⟩
    else ⟨0, 0⟩
  let seventh : PhaseScore := if relRank = 6 then ⟨8, 6⟩ else ⟨0, 0⟩
  PhaseScore.add fileBonus seventh

/-- The per-queen term of `activity_score` (middlegame only). -/
def queen_activity (side : Color) (square : Int) : Int :=
  let relRank :=
    if side = Color.White then rank_of square else 7 - rank_of square
  if 5 ≤ relRank then 4 else 0

/-- eval.cpp: `activity_score`. -/
def activity_score (side : Color) (us them : SideEval) : PhaseScore :=
  let knights := sumScores (us.knightSquares.map (knight_activity side))
  let bishopsMg := (us.bishopSquares.map (bishop_activity side)).sum
  let rooks := sumScores (us.rookSquares.map (rook_activity side us them))
  let queensMg := (us.queenSquares.map (queen_activity side)).sum
  ⟨knights.mg + bishopsMg + rooks.mg + queensMg, knights.eg + rooks.eg⟩

/-- One step of the `evaluate` piece scan (skip empty squares, accumulate
into the white or black `SideEval` and the shared phase counter). -/
def eval_scan_step (b : Board) (acc : SideEval × SideEval × Int)
    (square : Int) : SideEval × SideEval × Int :=
  let piece := piece_at b square
  if piece = Piece.None then acc
  else if is_white_piece piece then
    let r := accumulate_piece piece square acc.1 acc.2.2
    (r.1, acc.2.1, r.2)
  else
    let r := accumulate_piece piece square acc.2.1 acc.2.2
    (acc.1, r.1, r.2)

/-- The squares 0..63 scanned by `evaluate`'s piece loop. -/
def squareList : List Int :=
  (List.range 64).map (fun n => (n : Int))

/-- The `evaluate` piece scan over squares 0..63 from the empty
accumulators. -/
def eval_scan (b : Board) : SideEval × SideEval × Int :=
  squareList.foldl (eval_scan_step b) ({}, {}, 0)

/-- eval.cpp: `evaluate` (side-to-move relative blend of middlegame and
endgame scores; C++ `/` is `Int.tdiv`). -/
def evaluate (b : Board) : Int :=
  let scan := eval_scan b
  let white := scan.1
  let black := scan.2.1
  let phase := scan.2.2
  let fullmoveNumber := b.state.fullmoveNumber
  let whitePawn := pawn_structure_score b Color.White white black
  let blackPawn := pawn_structure_score b Color.Black black white
  let whiteKing := king_safety_score b Color.White white black fullmoveNumber
  let blackKing := king_safety_score b Color.Black black white fullmoveNumber
  let whiteActivity := activity_score Color.White white black
  let blackActivity := activity_score Color.Black black white
  let mgScore := white.base.mg + whitePawn.mg + whiteKing.mg +
    whiteActivity.mg -
    (black.base.mg + blackPawn.mg + blackKing.mg + blackActivity.mg)
  let egScore := white.base.eg + whitePawn.eg + whiteKing.eg +
    whiteActivity.eg -
    (black.base.eg + blackPawn.eg + blackKing.eg + blackActivity.eg)
  let phaseClamped := min (max phase 0) MaxPhase
  let blended :=
    (mgScore * phaseClamped + egScore * (MaxPhase - phaseClamped)).tdiv
      MaxPhase
  if b.state.sideToMove = Color.White then blended else -blended

/-- The claim's color swap on pieces. -/
def mirrorPiece : Piece → Piece
  | .None => .None
  | .WhitePawn => .BlackPawn
  | .WhiteKnight => .BlackKnight
  | .WhiteBishop => .BlackBishop
  | .WhiteRook => .BlackRook
  | .WhiteQueen => .BlackQueen
  | .WhiteKing => .BlackKing
  | .BlackPawn => .WhitePawn
  | .BlackKnight => .WhiteKnight
  | .BlackBishop => .WhiteBishop
  | .BlackRook => .WhiteRook
  | .BlackQueen => .WhiteQueen
  | .BlackKing => .WhiteKing

/-- The claim's position transformation: mirror the board vertically
(rank r ↔ 7 − r), swap all piece colors, swap the side to move; castling
rights swap their white/black bit pairs, the en-passant square mirrors,
clocks and history are kept. -/
def mirrorBoard (b : Board) : Board :=
  { squares := fun i => mirrorPiece (getSq b.squares (mirror_square i.val)),
    state :=
      { sideToMove := opposite_color b.state.sideToMove,
        castlingRights :=
          ((b.state.castlingRights &&& 3) <<< 2) |||
            ((b.state.castlingRights >>> 2) &&& 3),
        enPassantSquare :=
          if b.state.enPassantSquare = -1 then -1
          else mirror_square b.state.enPassantSquare,
        halfmoveClock := b.state.halfmoveClock,
        fullmoveNumber := b.state.fullmoveNumber },
    zobristKey := b.zobristKey,
    history := b.history }

/-- Guard selecting the pieces accumulated into the white `SideEval` by the
`evaluate` scan. -/
def scan_guard_white (p : Piece) : Bool :=
  is_white_piece p

/-- Guard selecting the pieces accumulated into the black `SideEval` by the
`evaluate` scan (non-empty and not white). -/
def scan_guard_black (p : Piece) : Bool :=
  !(p == Piece.None) && !(is_white_piece p)

/-- Per-square base (material + PST) contribution of the `evaluate` scan. -/
def scan_base (b : Board) (guard : Piece → Bool) (color : Color) (s : Int) :
    PhaseScore :=
  if guard (piece_at b s) then piece_square_score (piece_at b s) s color
  else ⟨0, 0⟩

/-- Per-square pawn-file-count contribution of the `evaluate` scan. -/
def scan_count (b : Board) (p : Piece) (s f : Int) : Int :=
  if piece_at b s = p ∧ f = file_of s then 1 else 0

/-- The last square holding piece `p` in scan order (the repeated
`side.kingSquare = square` overwrite). -/
def king_scan (b : Board) (p : Piece) (L : List Int) (k0 : Int) : Int :=
  L.foldl (fun k s => if piece_at b s = p then s else k) k0

/-- Closed form of the `evaluate` piece-scan fold. -/
def scan_closed (b : Board) (L : List Int) (acc : SideEval × SideEval × Int) :
    SideEval × SideEval × Int :=
  ({ base := PhaseScore.add acc.1.base
       (sumScores (L.map (scan_base b scan_guard_white Color.White))),
     pawnFileCounts := fun f =>
       acc.1.pawnFileCounts f +
         (L.map (fun s => scan_count b Piece.WhitePawn s f)).sum,
     pawnSquares := acc.1.pawnSquares ++
       L.filter (fun s => decide (piece_at b s = Piece.WhitePawn)),
     knightSquares := acc.1.knightSquares ++
       L.filter (fun s => decide (piece_at b s = Piece.WhiteKnight)),
     bishopSquares := acc.1.bishopSquares ++
       L.filter (fun s => decide (piece_at b s = Piece.WhiteBishop)),
     rookSquares := acc.1.rookSquares ++
       L.filter (fun s => decide (piece_at b s = Piece.WhiteRook)),
     queenSquares := acc.1.queenSquares ++
       L.filter (fun s => decide (piece_at b s = Piece.WhiteQueen)),
     kingSquare := king_scan b Piece.WhiteKing L acc.1.kingSquare },
   { base := PhaseScore.add acc.2.1.base
       (sumScores (L.map (scan_base b scan_guard_black Color.Black))),
     pawnFileCounts := fun f =>
       acc.2.1.pawnFileCounts f +
         (L.map (fun s => scan_count b Piece.BlackPawn s f)).sum,
     pawnSquares := acc.2.1.pawnSquares ++
       L.filter (fun s => decide (piece_at b s = Piece.BlackPawn)),
     knightSquares := acc.2.1.knightSquares ++
       L.filter (fun s => decide (piece_at b s = Piece.BlackKnight)),
     bishopSquares := acc.2.1.bishopSquares ++
       L.filter (fun s => decide (piece_at b s = Piece.BlackBishop)),
     rookSquares := acc.2.1.rookSquares ++
       L.filter (fun s => decide (piece_at b s = Piece.BlackRook)),
     queenSquares := acc.2.1.queenSquares ++
       L.filter (fun s => decide (piece_at b s = Piece.BlackQueen)),
     kingSquare := king_scan b Piece.BlackKing L acc.2.1.kingSquare },
   acc.2.2 + (L.map (fun s => piece_phase_value (piece_at b s))).sum)

/-- White king e1, black king e8, white pawn e4, white to move: a position
whose evaluation is nonzero. -/
def mirrorEvalBoard : Board :=
  { squares := fun i =>
      if i.val = 4 then Piece.WhiteKing
      else if i.val = 60 then Piece.BlackKing
      else if i.val = 28 then Piece.WhitePawn
      else Piece.None,
    state := { }, zobristKey := 0, history := [] }

/-! ### Search (search.cpp)

The embedding models the `timeLimitMs = 0` regime that the `search()` entry
point sets up: `has_time_left` then always returns true and never sets
`context.stopped`, so the `context.stopped` early-exit branches are dead and
the context is not threaded.  The C++ code mutates one `Board` with
`make_move`/`undo_move` around each recursive call; the embedding passes the
child position `make_move Z b move` functionally and keeps `b` for the
remaining moves, which is the behaviour of the defined executions (undo
restores the position exactly).  The mutable globals (transposition table,
killer moves, history heuristic) and the `nodes` counter are threaded as an
explicit `SearchState`. -/

/-- search.cpp: `piece_value`. -/
def piece_value (piece : Piece) : Int :=
  match piece with
  | .WhitePawn | .BlackPawn => 100
  | .WhiteKnight | .BlackKnight => 320
  | .WhiteBishop | .BlackBishop => 330
  | .WhiteRook | .BlackRook => 500
  | .WhiteQueen | .BlackQueen => 900
  | .WhiteKing | .BlackKing => MateValue
  | .None => 0

/-- search.cpp: `same_move`. -/
def same_move (lhs rhs : Move) : Bool :=
  decide (lhs.fromSq = rhs.fromSq) && decide (lhs.toSq = rhs.toSq) &&
    decide (lhs.movingPiece = rhs.movingPiece) &&
    decide (lhs.promotionPiece = rhs.promotionPiece) &&
    decide (lhs.flags = rhs.flags)

/-- search.cpp: `is_capture`. -/
def is_capture (move : Move) : Bool :=
  decide (move.flags &&& MoveFlagCapture ≠ 0)

/-- search.cpp: `is_promotion`. -/
def is_promotion (move : Move) : Bool :=
  decide (move.flags &&& MoveFlagPromotion ≠ 0)

/-- search.cpp: `mvv_lva`. -/
def mvv_lva (move : Move) : Int :=
  piece_value move.capturedPiece * 10 - piece_value move.movingPiece

/-- search.cpp: `KillerMoves`. -/
structure KillerMoves where
  primary : Move := {}
  secondary : Move := {}
deriving DecidableEq, Repr

/-- The mutable search globals (`transpositionTable`, `killerMoves`,
`historyHeuristic`) and the `nodes` counter, threaded explicitly. -/
structure SearchState where
  tt : TranspositionTable := fun _ => {}
  killers : Int → KillerMoves := fun _ => {}
  historyHeuristic : Nat → Int → Int → Int := fun _ _ _ => 0
  nodes : Int := 0

/-- search.cpp: `probe_tt`.  The C++ out-parameters become the returned
pair: the stored best move (the caller's `Move{}` default on a key miss)
and `some score` exactly when the C++ function returns true. -/
def probe_tt (table : TranspositionTable) (key : Nat)
    (depth alpha beta ply : Int) : Move × Option Int :=
  let entry := table (key % TTSize)
  if ¬entry.valid ∨ entry.key ≠ key then ({}, none)
  else
    let ttScore := from_tt_score entry.score ply
    if entry.depth ≥ depth then
      match entry.nodeType with
      | NodeType.Exact => (entry.bestMove, some ttScore)
      | NodeType.LowerBound =>
        let alpha := if ttScore > alpha then ttScore else alpha
        if alpha ≥ beta then (entry.bestMove, some ttScore)
        else (entry.bestMove, none)
      | NodeType.UpperBound =>
        let beta := if ttScore < beta then ttScore else beta
        if alpha ≥ beta then (entry.bestMove, some ttScore)
        else (entry.bestMove, none)
    else (entry.bestMove, none)

/-- search.cpp: `is_passed_pawn_push` (same rank scan as the evaluation's
`is_passed_pawn`, on the move's target square). -/
def is_passed_pawn_push (b : Board) (move : Move) (mover : Color) : Bool :=
  let pawnPiece :=
    if mover = Color.White then Piece.WhitePawn else Piece.BlackPawn
  if move.movingPiece ≠ pawnPiece then false
  else if is_capture move then false
  else
    let targetFile := file_of move.toSq
    let targetRank := rank_of move.toSq
    let direction : Int := if mover = Color.White then 1 else -1
    let enemyPawn :=
      if mover = Color.White then Piece.BlackPawn else Piece.WhitePawn
    (rank_scan targetRank direction).all (fun r =>
      ([-1, 0, 1] : List Int).all (fun df =>
        let f := targetFile + df
        if f < 0 ∨ f > 7 then true
        else decide (piece_at b (make_square f r) ≠ enemyPawn)))

/-- search.cpp: `has_non_pawn_material`. -/
def has_non_pawn_material (b : Board) (side : Color) : Bool :=
  let pawn := if side = Color.White then Piece.WhitePawn else Piece.BlackPawn
  let king := if side = Color.White then Piece.WhiteKing else Piece.BlackKing
  squareList.any (fun square =>
    let piece := piece_at b square
    if piece = pawn ∨ piece = king ∨ piece = Piece.None then false
    else decide ((side = Color.White ∧ is_white_piece piece) ∨
      (side = Color.Black ∧ is_black_piece piece)))

/-- The per-move ordering score of `score_and_sort_moves`. -/
def move_order_score (ttMove : Move) (killers : KillerMoves)
    (colorIndex : Nat) (history : Nat → Int → Int → Int) (move : Move) :
    Int :=
  if same_move move ttMove then 1000000
  else if is_capture move then
    900000 + mvv_lva move +
      (if is_promotion move then piece_value move.promotionPiece else 0)
  else if is_promotion move then 850000 + piece_value move.promotionPiece
  else if same_move move killers.primary then 800000
  else if same_move move killers.secondary then 795000
  else history colorIndex move.fromSq move.toSq

/-- Stable insertion into a descending-score list: an element goes after
every earlier element with an equal or higher score (`std::stable_sort`
with `lhs.first > rhs.first`). -/
def insert_scored (x : Int × Move) : List (Int × Move) → List (Int × Move)
  | [] => [x]
  | y :: ys => if x.1 > y.1 then x :: y :: ys else y :: insert_scored x ys

/-- search.cpp: `score_and_sort_moves` (stable descending sort by the
ordering score). -/
def score_and_sort_moves (st : SearchState) (ttMove : Move) (ply : Int)
    (mover : Color) (moves : List Move) : List Move :=
  let colorIndex : Nat := if mover = Color.White then 0 else 1
  let killers :=
    if ply < (MaxSearchDepth : Int) then st.killers ply else {}
  let scored := moves.map (fun m =>
    (move_order_score ttMove killers colorIndex st.historyHeuristic m, m))
  (scored.foldl (fun acc x => insert_scored x acc) []).map Prod.snd

/-- The capture loop of `quiescence`, recursing through the continuation
`q` (the quiescence call at the remaining fuel). -/
def quiescence_loop
    (q : Board → Int → Int → SearchState → Int → Int × SearchState)
    (Z : ZobristTables) (b : Board) (beta ply : Int) :
    List Move → Int → SearchState → Int × SearchState
  | [], alpha, st => (alpha, st)
  | move :: rest, alpha, st =>
    let r := q (make_move Z b move) (-beta) (-alpha) st (ply + 1)
    let score := -r.1
    let st := r.2
    if score ≥ beta then (beta, st)
    else
      let alpha := if score > alpha then score else alpha
      quiescence_loop q Z b beta ply rest alpha st

/-- search.cpp: `quiescence` (fuel-indexed; the C++ recursion always
terminates because capture sequences are finite, and every theorem supplies
enough fuel). -/
def quiescence (Z : ZobristTables) :
    Nat → Board → Int → Int → SearchState → Int → Int × SearchState
  | 0, _, alpha, _, st, _ => (alpha, st)
  | fuel + 1, b, alpha, beta, st, ply =>
    let st := { st with nodes := st.nodes + 1 }
    let standPat := evaluate b
    if standPat ≥ beta then (beta, st)
    else
      let alpha := if standPat > alpha then standPat else alpha
      let moves := generate_legal_moves Z b
      let captures := moves.filter is_capture
      let captures := score_and_sort_moves st {} ply (side_to_move b) captures
      quiescence_loop (quiescence Z fuel) Z b beta ply captures alpha st

/-- The move loop of `search_impl`, recursing through the continuation
`srec` (the search call at the remaining fuel); returns the final
`bestScore`, `bestMove` and state.  The killer/history update happens on
the beta-cutoff break, as in the source. -/
def search_move_loop
    (srec : Board → Int → Int → Int → SearchState → Int → Move →
      Int × SearchState)
    (Z : ZobristTables) (b : Board) (depth beta ply : Int) (mover : Color)
    (ttMove previousMove : Move) :
    List Move → Int → Int → Move → Int → SearchState →
      Int × Move × SearchState
  | [], _, bestScore, bestMove, _, st => (bestScore, bestMove, st)
  | move :: rest, alpha, bestScore, bestMove, moveIndex, st =>
    let child := make_move Z b move
    let gaveCheck := is_in_check child (side_to_move child)
    let passedPawnPush := is_passed_pawn_push child move mover
    let recapture := is_capture move &&
      decide (previousMove.toSq = move.toSq) &&
      decide (previousMove.toSq ≠ previousMove.fromSq)
    let extension : Int :=
      if gaveCheck || passedPawnPush || recapture then 1 else 0
    let nextDepth := depth - 1 + extension
    let nextDepth :=
      if !(is_capture move) && !(is_promotion move) && decide (depth ≥ 3) &&
          decide (moveIndex ≥ (4 : Int)) && !gaveCheck && !recapture &&
          !(same_move move ttMove) then
        nextDepth - 1
      else nextDepth
    let nextDepth := if nextDepth < 0 then 0 else nextDepth
    let r := srec child nextDepth (-beta) (-alpha) st (ply + 1) move
    let score := -r.1
    let st := r.2
    let best := if score > bestScore then (score, move) else (bestScore, bestMove)
    if score > alpha then
      let alpha := score
      if alpha ≥ beta then
        let st :=
          if !(is_capture move) && !(is_promotion move) &&
              decide (ply < (MaxSearchDepth : Int)) then
            let killers := st.killers ply
            let newKillers := Function.update st.killers ply
              { primary := move, secondary := killers.primary }
            let st :=
              if ¬ same_move move killers.primary then
                { st with killers := newKillers }
              else st
            let colorIndex : Nat := if mover = Color.White then 0 else 1
            { st with historyHeuristic := fun c f t =>
                if c = colorIndex ∧ f = move.fromSq ∧ t = move.toSq then
                  st.historyHeuristic c f t + depth * depth
                else st.historyHeuristic c f t }
          else st
        (best.1, best.2, st)
      else
        search_move_loop srec Z b depth beta ply mover ttMove previousMove
          rest alpha best.1 best.2 (moveIndex + 1) st
    else
      search_move_loop srec Z b depth beta ply mover ttMove previousMove
        rest alpha best.1 best.2 (moveIndex + 1) st

/-- search.cpp: `search_impl` (fuel-indexed negamax with TT probe, null
move, mate/stalemate detection, extensions, late-move reduction and TT
store). -/
def search_impl (Z : ZobristTables) :
    Nat → Board → Int → Int → Int → SearchState → Int → Move →
      Int × SearchState
  | 0, _, _, alpha, _, st, _, _ => (alpha, st)
  | fuel + 1, b, depth, alpha, beta, st, ply, previousMove =>
    if depth ≤ 0 then quiescence Z fuel b alpha beta st ply
    else
      let st := { st with nodes := st.nodes + 1 }
      let alphaOriginal := alpha
      let key := zobrist_key b
      let mover := side_to_move b
      let inCheck := is_in_check b mover
      let probe := probe_tt st.tt key depth alpha beta ply
      let ttMove := probe.1
      match probe.2 with
      | some ttScore => (ttScore, st)
      | none =>
        let nullPair : Option Int × SearchState :=
          if ¬inCheck ∧ depth ≥ 3 ∧ has_non_pawn_material b mover then
            let r := search_impl Z fuel (make_null_move Z b) (depth - 3)
              (-beta) (-beta + 1) st (ply + 1) {}
            (some (-r.1), r.2)
          else (none, st)
        let st := nullPair.2
        if (nullPair.1.map (fun ns => decide (ns ≥ beta))).getD false then
          (beta, st)
        else
          let moves := generate_legal_moves Z b
          if moves.isEmpty then
            if inCheck then (-MateValue + ply, st) else (0, st)
          else
            let moves := score_and_sort_moves st ttMove ply mover moves
            let lr := search_move_loop (search_impl Z fuel) Z b depth beta
              ply mover ttMove previousMove moves alpha (-InfinityScore) {}
              0 st
            let bestScore := lr.1
            let bestMove := lr.2.1
            let st := lr.2.2
            let nodeType :=
              if bestScore ≤ alphaOriginal then NodeType.UpperBound
              else if bestScore ≥ beta then NodeType.LowerBound
              else NodeType.Exact
            let st := { st with
              tt := store_tt st.tt key depth ply bestScore nodeType bestMove }
            (bestScore, st)

/-- search.cpp: `search` (fixed-depth entry point: zero time limit, ply 0,
no previous move). -/
def search (Z : ZobristTables) (fuel : Nat) (b : Board)
    (depth alpha beta : Int) (st : SearchState) : Int × SearchState :=
  search_impl Z fuel b depth alpha beta st 0 {}

/-- The stalemate position `7k/5Q2/6K1/8/8/8/8/8 b - - 0 1` from spec
section 8: black to move, no legal moves, not in check. -/
def stalemateBoard : Board :=
  { squares := fun i =>
      if i.val = 63 then Piece.BlackKing
      else if i.val = 53 then Piece.WhiteQueen
      else if i.val = 46 then Piece.WhiteKing
      else Piece.None,
    state := { sideToMove := Color.Black }, zobristKey := 0, history := [] }

/-- A transposition table holding one valid Exact entry for key 0 (as a
64-bit Zobrist collision or a stale entry can produce, spec section 7). -/
def poisonedTT : TranspositionTable :=
  Function.update (fun _ => ({} : TTEntry)) 0
    { key := 0, depth := 1, score := 123, nodeType := NodeType.Exact,
      bestMove := {}, valid := true }

/-- A transposition table whose slot 0 holds a valid depth-5 entry for
key 0. -/
def deepSlotTT : TranspositionTable :=
  Function.update (fun _ => ({} : TTEntry)) 0
    { key := 0, depth := 5, score := 7, nodeType := NodeType.Exact,
      bestMove := {}, valid := true }

/-- C9: for every integer square outside [0, 63], `piece_at` returns
`Piece.None` and `set_piece_at` leaves the board completely unchanged. -/
theorem out_of_range_square_access_safe (b : Board) (square : Int)
    (piece : Piece) (h : square < 0 ∨ 64 ≤ square) :
    piece_at b square = Piece.None ∧ set_piece_at b square piece = b := by
  constructor
  · simp [piece_at, h]
  · simp [set_piece_at, h]

/-- Witness for C9 at square 64 and square -1 on a concrete board. -/
theorem out_of_range_square_access_safe_witness :
    (piece_at kingsBoard 64 = Piece.None ∧
      set_piece_at kingsBoard 64 Piece.WhiteQueen = kingsBoard) ∧
    (piece_at kingsBoard (-1) = Piece.None ∧
      set_piece_at kingsBoard (-1) Piece.WhiteQueen = kingsBoard) :=
  ⟨out_of_range_square_access_safe kingsBoard 64 Piece.WhiteQueen (by decide),
   out_of_range_square_access_safe kingsBoard (-1) Piece.WhiteQueen (by decide)⟩

/-- C10: `undo_move` on a board whose history stack is empty is a no-op:
every component (piece array, side to move, castling rights, en-passant
square, clocks, Zobrist key) is unchanged. -/
theorem undo_move_empty_history_noop (b : Board) (h : b.history = []) :
    undo_move b = b := by
  unfold undo_move
  rw [h]

/-- Witness for C10: `load_fen` clears the history (see
`load_fen_clears_history`); here `undo_move` is applied to a concrete board
with empty history. -/
theorem undo_move_empty_history_noop_witness :
    undo_move kingsBoard = kingsBoard :=
  undo_move_empty_history_noop kingsBoard (by decide)

/-- C8: `make_null_move` toggles the side to move, clears the en-passant
square and pushes an Undo record carrying the sentinel (default) move; a
following `undo_null_move` restores the exact prior board. -/
theorem null_move_toggles_and_restores (Z : ZobristTables) (b : Board) :
    undo_null_move (make_null_move Z b) = b ∧
    (make_null_move Z b).state.sideToMove = opposite_color b.state.sideToMove ∧
    (make_null_move Z b).state.enPassantSquare = -1 ∧
    (make_null_move Z b).history =
      { state := b.state, zobristKey := b.zobristKey,
        capturedPiece := Piece.None, move := {} } :: b.history := by
  cases b
  simp [make_null_move, undo_null_move]

/-- C2: every move returned by `generate_legal_moves` leaves the moving
side's king not attacked after `make_move` (this is exactly the legality
filter of board.cpp). -/
theorem legal_moves_leave_mover_not_in_check (Z : ZobristTables) (b : Board)
    (move : Move) (hm : move ∈ generate_legal_moves Z b) :
    is_in_check (make_move Z b move) (side_to_move b) = false := by
  unfold generate_legal_moves at hm
  have h := List.of_mem_filter hm
  simpa using h

/-- Witness for C2: the quiet king move e1-d1 on the two-kings board. -/
theorem legal_moves_leave_mover_not_in_check_witness :
    is_in_check
      (make_move Z0 kingsBoard { fromSq := 4, toSq := 3, movingPiece := Piece.WhiteKing })
      (side_to_move kingsBoard) = false :=
  legal_moves_leave_mover_not_in_check Z0 kingsBoard
    { fromSq := 4, toSq := 3, movingPiece := Piece.WhiteKing } (by decide)

/-- C4 counterexample: the slot for the new key is valid, its stored key
equals the new key, and the new depth (1) is below the stored depth (5);
the claimed policy overwrites on a key match, but `store_tt` leaves the
slot unchanged (search.cpp line 180 overwrites on a key mismatch,
`entry.key != key`). -/
theorem store_tt_key_match_counterexample :
    (deepSlotTT (0 % TTSize)).valid = true ∧
    (deepSlotTT (0 % TTSize)).key = 0 ∧
    store_tt deepSlotTT 0 1 0 7 NodeType.Exact {} (0 % TTSize) =
      deepSlotTT (0 % TTSize) ∧
    store_tt deepSlotTT 0 1 0 7 NodeType.Exact {} (0 % TTSize) ≠
      { key := 0, depth := 1, score := to_tt_score 7 0,
        nodeType := NodeType.Exact, bestMove := {}, valid := true } :=
  ⟨by decide, by decide, by decide, by decide⟩

/-- C4 (amended): `store_tt` overwrites the slot at index `key % TTSize`
exactly when that slot is empty, or its stored key differs from the new
key, or the new depth is at least the stored depth; every other slot, and
that slot in every other case, is left unchanged. -/
theorem store_tt_replacement_policy (table : TranspositionTable) (key : Nat)
    (depth ply score : Int) (nodeType : NodeType) (bestMove : Move) (j : Nat) :
    store_tt table key depth ply score nodeType bestMove j =
      if j = key % TTSize ∧
          (¬(table (key % TTSize)).valid ∨ (table (key % TTSize)).key ≠ key ∨
            (table (key % TTSize)).depth ≤ depth) then
        { key := key, depth := depth, score := to_tt_score score ply,
          nodeType := nodeType, bestMove := bestMove, valid := true }
      else
        table j := by
  unfold store_tt
  simp only [ge_iff_le]
  split
  · next hcond =>
    rw [Function.update_apply]
    by_cases hj : j = key % TTSize
    · subst hj
      rw [if_pos rfl]
      split
      · rfl
      · next hR => exact absurd ⟨rfl, hcond⟩ hR
    · rw [if_neg hj, if_neg fun hc => hj hc.1]
  · next hcond =>
    rw [if_neg fun hc => hcond hc.2]

/-- Counterexample for C6: at t = 1000 the code returns the time limit
verbatim (1000 ms) because every limit below 5000 ms skips the clock
formula entirely, while the claimed formula would give 50 ms; in
particular no safety margin is subtracted. -/
theorem time_budget_small_limit_counterexample :
    compute_time_budget_ms 1000 = 1000 ∧ spec_clock_budget 1000 = 50 ∧
      compute_time_budget_ms 1000 ≠ spec_clock_budget 1000 ∧
      compute_time_budget_ms 1000 ≠ 1000 - 1000 / 20 := by
  refine ⟨by decide, by decide, by decide, by decide⟩

/-- C6 (amended): for 0 < t < 5000 the clock-style budget is t verbatim;
for t ≥ 5000 it is min(t − t/20, max(t/30, 50)) — the remaining budget
minus a one-twentieth safety margin, capped by the per-move share of an
assumed 30 moves-to-go floored at 50 ms. -/
theorem time_budget_formula (t : Int) (h : 0 < t) :
    compute_time_budget_ms t =
      if t < 5000 then t
      else min (t - t.tdiv 20) (max (t.tdiv 30) 50) := by
  unfold compute_time_budget_ms
  rw [if_neg (by omega)]

/-- Witness for C6's amended theorem at t = 6000 and t = 1000. -/
theorem time_budget_formula_witness :
    ((0 : Int) < 6000 ∧
      compute_time_budget_ms 6000 =
        if (6000 : Int) < 5000 then 6000
        else min (6000 - Int.tdiv 6000 20) (max (Int.tdiv 6000 30) 50)) ∧
    ((0 : Int) < 1000 ∧
      compute_time_budget_ms 1000 =
        if (1000 : Int) < 5000 then 1000
        else min (1000 - Int.tdiv 1000 20) (max (Int.tdiv 1000 30) 50)) :=
  ⟨⟨by decide, time_budget_formula 6000 (by decide)⟩,
   ⟨by decide, time_budget_formula 1000 (by decide)⟩⟩

theorem setSq_apply (sq : Fin 64 → Piece) (a : Int) (p : Piece) (i : Fin 64) :
    setSq sq a p i = if (i.val : Int) = a then p else sq i := by
  unfold setSq
  split
  · next h =>
    rw [Function.update_apply]
    by_cases hi : (i.val : Int) = a
    · rw [if_pos (Fin.ext (show i.val = Int.toNat a by omega)), if_pos hi]
    · have hne : ¬ i = ⟨a.toNat, by omega⟩ := by
        intro hh
        apply hi
        have hval := congrArg Fin.val hh
        simp only at hval
        omega
      rw [if_neg hne, if_neg hi]
  · next h =>
    have hlt := i.isLt
    rw [if_neg (by omega)]

theorem getSq_eq_of_val (sq : Fin 64 → Piece) (a : Int) (i : Fin 64)
    (hi : (i.val : Int) = a) : getSq sq a = sq i := by
  unfold getSq
  have hlt := i.isLt
  rw [dif_pos (by omega)]
  congr 1
  exact Fin.ext (show Int.toNat a = i.val by omega)

theorem make_undo_squares_plain (sq : Fin 64 → Piece) (u : Undo) (side : Color)
    (hep : u.move.flags &&& MoveFlagEnPassant = 0)
    (hks : u.move.flags &&& MoveFlagCastleKingSide = 0)
    (hqs : u.move.flags &&& MoveFlagCastleQueenSide = 0)
    (hcap : u.capturedPiece = u.move.capturedPiece)
    (hfrom : getSq sq u.move.fromSq = u.move.movingPiece)
    (hto : getSq sq u.move.toSq = u.move.capturedPiece) :
    undo_move_squares (make_move_squares sq u.move side) u side = sq := by
  funext i
  unfold make_move_squares undo_move_squares
  simp only [hep, hks, hqs, hcap, ne_eq, not_true_eq_false, if_false,
    ite_self, if_neg (fun hh : (0 : Nat) ≠ 0 => hh rfl)]
  rw [setSq_apply, setSq_apply, setSq_apply, setSq_apply]
  by_cases hito : (i.val : Int) = u.move.toSq
  · rw [if_pos hito, ← getSq_eq_of_val sq u.move.toSq i hito, hto]
  · rw [if_neg hito]
    by_cases hifrom : (i.val : Int) = u.move.fromSq
    · rw [if_pos hifrom, ← getSq_eq_of_val sq u.move.fromSq i hifrom, hfrom]
    · rw [if_neg hifrom, if_neg hito, if_neg hifrom]

theorem make_undo_squares_ep (sq : Fin 64 → Piece) (u : Undo) (side : Color)
    (hflags : u.move.flags = MoveFlagEnPassant ||| MoveFlagCapture)
    (hfrom : getSq sq u.move.fromSq = u.move.movingPiece)
    (hto : getSq sq u.move.toSq = Piece.None)
    (hside :
      (side = Color.White ∧ u.move.movingPiece = Piece.WhitePawn ∧
        u.capturedPiece = Piece.BlackPawn ∧
        getSq sq (u.move.toSq - 8) = Piece.BlackPawn) ∨
      (side = Color.Black ∧ u.move.movingPiece = Piece.BlackPawn ∧
        u.capturedPiece = Piece.WhitePawn ∧
        getSq sq (u.move.toSq + 8) = Piece.WhitePawn)) :
    undo_move_squares (make_move_squares sq u.move side) u side = sq := by
  have f1 : u.move.flags &&& MoveFlagEnPassant = 4 := by rw [hflags]; decide
  have f2 : u.move.flags &&& MoveFlagCastleKingSide = 0 := by rw [hflags]; decide
  have f3 : u.move.flags &&& MoveFlagCastleQueenSide = 0 := by rw [hflags]; decide
  have f4 : u.move.flags &&& MoveFlagPromotion = 0 := by rw [hflags]; decide
  rcases hside with ⟨hs, hmp, hcp, hbp⟩ | ⟨hs, hmp, hcp, hbp⟩ <;> subst hs
  · have hcaprange : 0 ≤ u.move.toSq - 8 ∧ u.move.toSq - 8 < 64 := by
      by_contra hc
      unfold getSq at hbp
      rw [dif_neg hc] at hbp
      exact Piece.noConfusion hbp
    funext i
    unfold make_move_squares undo_move_squares
    simp only [f1, f2, f3, f4, ne_eq, OfNat.ofNat_ne_zero, not_false_eq_true,
      if_true, not_true_eq_false, if_false, ite_self, if_pos rfl,
      if_pos hcaprange]
    rw [setSq_apply, setSq_apply, setSq_apply, setSq_apply, setSq_apply,
      setSq_apply]
    by_cases hicap : (i.val : Int) = u.move.toSq - 8
    · rw [if_pos hicap, hcp, ← getSq_eq_of_val sq _ i hicap, hbp]
    · rw [if_neg hicap]
      by_cases hito : (i.val : Int) = u.move.toSq
      · rw [if_pos hito, ← getSq_eq_of_val sq _ i hito, hto]
      · rw [if_neg hito]
        by_cases hifrom : (i.val : Int) = u.move.fromSq
        · rw [if_pos hifrom, ← getSq_eq_of_val sq _ i hifrom, hfrom]
        · rw [if_neg hifrom, if_neg hito, if_neg hifrom, if_neg hicap]
  · have hcaprange : 0 ≤ u.move.toSq + 8 ∧ u.move.toSq + 8 < 64 := by
      by_contra hc
      unfold getSq at hbp
      rw [dif_neg hc] at hbp
      exact Piece.noConfusion hbp
    funext i
    unfold make_move_squares undo_move_squares
    simp only [f1, f2, f3, f4, ne_eq, OfNat.ofNat_ne_zero, not_false_eq_true,
      if_true, not_true_eq_false, if_false, ite_self,
      if_neg (fun hh : Color.Black = Color.White => Color.noConfusion hh),
      if_pos hcaprange]
    rw [setSq_apply, setSq_apply, setSq_apply, setSq_apply, setSq_apply,
      setSq_apply]
    by_cases hicap : (i.val : Int) = u.move.toSq + 8
    · rw [if_pos hicap, hcp, ← getSq_eq_of_val sq _ i hicap, hbp]
    · rw [if_neg hicap]
      by_cases hito : (i.val : Int) = u.move.toSq
      · rw [if_pos hito, ← getSq_eq_of_val sq _ i hito, hto]
      · rw [if_neg hito]
        by_cases hifrom : (i.val : Int) = u.move.fromSq
        · rw [if_pos hifrom, ← getSq_eq_of_val sq _ i hifrom, hfrom]
        · rw [if_neg hifrom, if_neg hito, if_neg hifrom, if_neg hicap]

theorem getSq_setSq_of_ne (f : Fin 64 → Piece) (a b : Int) (p : Piece)
    (h : b ≠ a) : getSq (setSq f a p) b = getSq f b := by
  unfold getSq setSq
  by_cases hb : 0 ≤ b ∧ b < 64
  · rw [dif_pos hb, dif_pos hb]
    by_cases ha : 0 ≤ a ∧ a < 64
    · rw [dif_pos ha, Function.update_apply,
        if_neg (fun hh => h (by
          have hv := congrArg Fin.val hh
          simp only at hv
          omega))]
    · rw [dif_neg ha]
  · rw [dif_neg hb, dif_neg hb]

theorem getSq_setSq_self (f : Fin 64 → Piece) (a : Int) (p : Piece)
    (h : 0 ≤ a ∧ a < 64) : getSq (setSq f a p) a = p := by
  unfold getSq setSq
  rw [dif_pos h, dif_pos h]
  exact Function.update_same _ _ _

theorem make_undo_squares_castle_ks (sq : Fin 64 → Piece) (u : Undo)
    (side : Color)
    (hflags : u.move.flags = MoveFlagCastleKingSide)
    (hcap : u.capturedPiece = Piece.None)
    (hking : getSq sq u.move.fromSq = u.move.movingPiece)
    (hside :
      (side = Color.White ∧ u.move.movingPiece = Piece.WhiteKing ∧
        u.move.toSq = 6 ∧ getSq sq 5 = Piece.None ∧ getSq sq 6 = Piece.None) ∨
      (side = Color.Black ∧ u.move.movingPiece = Piece.BlackKing ∧
        u.move.toSq = 62 ∧ getSq sq 61 = Piece.None ∧
        getSq sq 62 = Piece.None)) :
    undo_move_squares (make_move_squares sq u.move side) u side = sq := by
  have f1 : u.move.flags &&& MoveFlagEnPassant = 0 := by rw [hflags]; decide
  have f2 : u.move.flags &&& MoveFlagCastleKingSide = 8 := by rw [hflags]; decide
  have f4 : u.move.flags &&& MoveFlagPromotion = 0 := by rw [hflags]; decide
  rcases hside with ⟨hs, hmp, hto6, h5, h6⟩ | ⟨hs, hmp, hto6, h5, h6⟩ <;> subst hs
  · have m70 : make_square 7 0 = 7 := by decide
    have m50 : make_square 5 0 = 5 := by decide
    have hfrom5 : u.move.fromSq ≠ 5 := by
      intro h
      rw [h, h5, hmp] at hking
      exact Piece.noConfusion hking
    funext i
    unfold make_move_squares undo_move_squares
    simp only [f1, f2, f4, hto6, m70, m50, ne_eq, OfNat.ofNat_ne_zero,
      not_false_eq_true, if_true, not_true_eq_false, if_false, ite_self,
      if_pos rfl]
    rw [getSq_setSq_of_ne _ _ _ _ (by omega),
      getSq_setSq_of_ne _ _ _ _ (fun hh => hfrom5 hh.symm),
      getSq_setSq_of_ne _ _ _ _ (by omega),
      getSq_setSq_self _ _ _ (by constructor <;> omega)]
    rw [setSq_apply, setSq_apply, setSq_apply, setSq_apply, setSq_apply,
      setSq_apply, setSq_apply, setSq_apply]
    by_cases hi6 : (i.val : Int) = 6
    · rw [if_pos hi6, hcap, ← getSq_eq_of_val sq 6 i hi6, h6]
    · rw [if_neg hi6]
      by_cases hifrom : (i.val : Int) = u.move.fromSq
      · rw [if_pos hifrom, ← getSq_eq_of_val sq _ i hifrom, hking]
      · rw [if_neg hifrom]
        by_cases hi5 : (i.val : Int) = 5
        · rw [if_pos hi5, ← getSq_eq_of_val sq 5 i hi5, h5]
        · rw [if_neg hi5]
          by_cases hi7 : (i.val : Int) = 7
          · rw [if_pos hi7, getSq_eq_of_val sq 7 i hi7]
          · rw [if_neg hi7, if_neg hi6, if_neg hifrom, if_neg hi7, if_neg hi5]
  · have m77 : make_square 7 7 = 63 := by decide
    have m57 : make_square 5 7 = 61 := by decide
    have hfrom61 : u.move.fromSq ≠ 61 := by
      intro h
      rw [h, h5, hmp] at hking
      exact Piece.noConfusion hking
    funext i
    unfold make_move_squares undo_move_squares
    simp only [f1, f2, f4, hto6, m77, m57, ne_eq, OfNat.ofNat_ne_zero,
      not_false_eq_true, if_true, not_true_eq_false, if_false, ite_self,
      if_neg (fun hh : Color.Black = Color.White => Color.noConfusion hh)]
    rw [getSq_setSq_of_ne _ _ _ _ (by omega),
      getSq_setSq_of_ne _ _ _ _ (fun hh => hfrom61 hh.symm),
      getSq_setSq_of_ne _ _ _ _ (by omega),
      getSq_setSq_self _ _ _ (by constructor <;> omega)]
    rw [setSq_apply, setSq_apply, setSq_apply, setSq_apply, setSq_apply,
      setSq_apply, setSq_apply, setSq_apply]
    by_cases hi62 : (i.val : Int) = 62
    · rw [if_pos hi62, hcap, ← getSq_eq_of_val sq 62 i hi62, h6]
    · rw [if_neg hi62]
      by_cases hifrom : (i.val : Int) = u.move.fromSq
      · rw [if_pos hifrom, ← getSq_eq_of_val sq _ i hifrom, hking]
      · rw [if_neg hifrom]
        by_cases hi61 : (i.val : Int) = 61
        · rw [if_pos hi61, ← getSq_eq_of_val sq 61 i hi61, h5]
        · rw [if_neg hi61]
          by_cases hi63 : (i.val : Int) = 63
          · rw [if_pos hi63, getSq_eq_of_val sq 63 i hi63]
          · rw [if_neg hi63, if_neg hi62, if_neg hifrom, if_neg hi63,
              if_neg hi61]

theorem make_undo_squares_castle_qs (sq : Fin 64 → Piece) (u : Undo)
    (side : Color)
    (hflags : u.move.flags = MoveFlagCastleQueenSide)
    (hcap : u.capturedPiece = Piece.None)
    (hking : getSq sq u.move.fromSq = u.move.movingPiece)
    (hside :
      (side = Color.White ∧ u.move.movingPiece = Piece.WhiteKing ∧
        u.move.toSq = 2 ∧ getSq sq 3 = Piece.None ∧ getSq sq 2 = Piece.None) ∨
      (side = Color.Black ∧ u.move.movingPiece = Piece.BlackKing ∧
        u.move.toSq = 58 ∧ getSq sq 59 = Piece.None ∧
        getSq sq 58 = Piece.None)) :
    undo_move_squares (make_move_squares sq u.move side) u side = sq := by
  have f1 : u.move.flags &&& MoveFlagEnPassant = 0 := by rw [hflags]; decide
  have f2 : u.move.flags &&& MoveFlagCastleKingSide = 0 := by rw [hflags]; decide
  have f3 : u.move.flags &&& MoveFlagCastleQueenSide = 16 := by rw [hflags]; decide
  have f4 : u.move.flags &&& MoveFlagPromotion = 0 := by rw [hflags]; decide
  rcases hside with ⟨hs, hmp, hto2, h3, h2⟩ | ⟨hs, hmp, hto2, h3, h2⟩ <;> subst hs
  · have m00 : make_square 0 0 = 0 := by decide
    have m30 : make_square 3 0 = 3 := by decide
    have hfrom3 : u.move.fromSq ≠ 3 := by
      intro h
      rw [h, h3, hmp] at hking
      exact Piece.noConfusion hking
    funext i
    unfold make_move_squares undo_move_squares
    simp only [f1, f2, f3, f4, hto2, m00, m30, ne_eq, OfNat.ofNat_ne_zero,
      not_false_eq_true, if_true, not_true_eq_false, if_false, ite_self,
      if_pos rfl]
    rw [getSq_setSq_of_ne _ _ _ _ (by omega),
      getSq_setSq_of_ne _ _ _ _ (fun hh => hfrom3 hh.symm),
      getSq_setSq_of_ne _ _ _ _ (by omega),
      getSq_setSq_self _ _ _ (by constructor <;> omega)]
    rw [setSq_apply, setSq_apply, setSq_apply, setSq_apply, setSq_apply,
      setSq_apply, setSq_apply, setSq_apply]
    by_cases hi2 : (i.val : Int) = 2
    · rw [if_pos hi2, hcap, ← getSq_eq_of_val sq 2 i hi2, h2]
    · rw [if_neg hi2]
      by_cases hifrom : (i.val : Int) = u.move.fromSq
      · rw [if_pos hifrom, ← getSq_eq_of_val sq _ i hifrom, hking]
      · rw [if_neg hifrom]
        by_cases hi3 : (i.val : Int) = 3
        · rw [if_pos hi3, ← getSq_eq_of_val sq 3 i hi3, h3]
        · rw [if_neg hi3]
          by_cases hi0 : (i.val : Int) = 0
          · rw [if_pos hi0, getSq_eq_of_val sq 0 i hi0]
          · rw [if_neg hi0, if_neg hi2, if_neg hifrom, if_neg hi0, if_neg hi3]
  · have m07 : make_square 0 7 = 56 := by decide
    have m37 : make_square 3 7 = 59 := by decide
    have hfrom59 : u.move.fromSq ≠ 59 := by
      intro h
      rw [h, h3, hmp] at hking
      exact Piece.noConfusion hking
    funext i
    unfold make_move_squares undo_move_squares
    simp only [f1, f2, f3, f4, hto2, m07, m37, ne_eq, OfNat.ofNat_ne_zero,
      not_false_eq_true, if_true, not_true_eq_false, if_false, ite_self,
      if_neg (fun hh : Color.Black = Color.White => Color.noConfusion hh)]
    rw [getSq_setSq_of_ne _ _ _ _ (by omega),
      getSq_setSq_of_ne _ _ _ _ (fun hh => hfrom59 hh.symm),
      getSq_setSq_of_ne _ _ _ _ (by omega),
      getSq_setSq_self _ _ _ (by constructor <;> omega)]
    rw [setSq_apply, setSq_apply, setSq_apply, setSq_apply, setSq_apply,
      setSq_apply, setSq_apply, setSq_apply]
    by_cases hi58 : (i.val : Int) = 58
    · rw [if_pos hi58, hcap, ← getSq_eq_of_val sq 58 i hi58, h2]
    · rw [if_neg hi58]
      by_cases hifrom : (i.val : Int) = u.move.fromSq
      · rw [if_pos hifrom, ← getSq_eq_of_val sq _ i hifrom, hking]
      · rw [if_neg hifrom]
        by_cases hi59 : (i.val : Int) = 59
        · rw [if_pos hi59, ← getSq_eq_of_val sq 59 i hi59, h3]
        · rw [if_neg hi59]
          by_cases hi56 : (i.val : Int) = 56
          · rw [if_pos hi56, getSq_eq_of_val sq 56 i hi56]
          · rw [if_neg hi56, if_neg hi58, if_neg hifrom, if_neg hi56,
              if_neg hi59]

theorem piece_at_eq_getSq (b : Board) (a : Int) :
    piece_at b a = getSq b.squares a := by
  unfold piece_at getSq
  by_cases h : a < 0 ∨ 64 ≤ a
  · rw [dif_pos h, dif_neg (by omega)]
  · rw [dif_neg h, dif_pos (by omega)]

theorem getSq_val (sq : Fin 64 → Piece) (i : Fin 64) :
    getSq sq (i.val : Int) = sq i :=
  getSq_eq_of_val sq _ i rfl

/-- Shape facts of a plain (non-en-passant, non-castling) pseudo-legal
move, sufficient for `undo_move` to invert `make_move`. -/
@[reducible] def plain_shape (b : Board) (m : Move) : Prop :=
  m.flags &&& MoveFlagEnPassant = 0 ∧
  m.flags &&& MoveFlagCastleKingSide = 0 ∧
  m.flags &&& MoveFlagCastleQueenSide = 0 ∧
  getSq b.squares m.fromSq = m.movingPiece ∧
  getSq b.squares m.toSq = m.capturedPiece

/-- Shape facts of a generated en-passant move. -/
@[reducible] def ep_shape (b : Board) (m : Move) : Prop :=
  m.flags = MoveFlagEnPassant ||| MoveFlagCapture ∧
  m.toSq = b.state.enPassantSquare ∧
  0 ≤ m.toSq ∧ m.toSq < 64 ∧
  getSq b.squares m.fromSq = m.movingPiece ∧
  ((b.state.sideToMove = Color.White ∧ m.movingPiece = Piece.WhitePawn ∧
    m.capturedPiece = Piece.BlackPawn) ∨
   (b.state.sideToMove = Color.Black ∧ m.movingPiece = Piece.BlackPawn ∧
    m.capturedPiece = Piece.WhitePawn))

/-- Shape facts of a generated king-side castling move. -/
@[reducible] def castle_ks_shape (b : Board) (m : Move) : Prop :=
  m.flags = MoveFlagCastleKingSide ∧
  m.capturedPiece = Piece.None ∧
  getSq b.squares m.fromSq = m.movingPiece ∧
  ((b.state.sideToMove = Color.White ∧ m.movingPiece = Piece.WhiteKing ∧
    m.toSq = 6 ∧ getSq b.squares 5 = Piece.None ∧
    getSq b.squares 6 = Piece.None) ∨
   (b.state.sideToMove = Color.Black ∧ m.movingPiece = Piece.BlackKing ∧
    m.toSq = 62 ∧ getSq b.squares 61 = Piece.None ∧
    getSq b.squares 62 = Piece.None))

/-- Shape facts of a generated queen-side castling move. -/
@[reducible] def castle_qs_shape (b : Board) (m : Move) : Prop :=
  m.flags = MoveFlagCastleQueenSide ∧
  m.capturedPiece = Piece.None ∧
  getSq b.squares m.fromSq = m.movingPiece ∧
  ((b.state.sideToMove = Color.White ∧ m.movingPiece = Piece.WhiteKing ∧
    m.toSq = 2 ∧ getSq b.squares 3 = Piece.None ∧
    getSq b.squares 2 = Piece.None) ∨
   (b.state.sideToMove = Color.Black ∧ m.movingPiece = Piece.BlackKing ∧
    m.toSq = 58 ∧ getSq b.squares 59 = Piece.None ∧
    getSq b.squares 58 = Piece.None))

/-- Every pseudo-legal move has one of the four shapes. -/
@[reducible] def pseudo_move_shape (b : Board) (m : Move) : Prop :=
  plain_shape b m ∨ ep_shape b m ∨ castle_ks_shape b m ∨ castle_qs_shape b m

theorem pawnForwardMoves_shape (b : Board) (square file rank : Int)
    (piece : Piece) (hsq : getSq b.squares square = piece) :
    ∀ m ∈ pawnForwardMoves b square file rank piece, plain_shape b m := by
  intro m hm
  unfold pawnForwardMoves at hm
  simp only [] at hm
  repeat' split at hm
  all_goals
    simp only [List.mem_map, List.mem_cons, List.mem_singleton,
      List.not_mem_nil, or_false] at hm
  all_goals
    first
    | (obtain ⟨pp, hpp, hmeq⟩ := hm
       subst hmeq
       refine ⟨?_, ?_, ?_, hsq, ?_⟩ <;>
         first
         | (simp only [MoveFlagNone, MoveFlagCapture, MoveFlagDoublePawnPush,
             MoveFlagEnPassant, MoveFlagCastleKingSide,
             MoveFlagCastleQueenSide, MoveFlagPromotion]
            decide)
         | (rw [← piece_at_eq_getSq]; assumption))
    | (rcases hm with hmeq | hmeq <;> subst hmeq <;>
       refine ⟨?_, ?_, ?_, hsq, ?_⟩ <;>
         first
         | (simp only [MoveFlagNone, MoveFlagCapture, MoveFlagDoublePawnPush,
             MoveFlagEnPassant, MoveFlagCastleKingSide,
             MoveFlagCastleQueenSide, MoveFlagPromotion]
            decide)
         | (rw [← piece_at_eq_getSq]; assumption))
    | (subst hm
       refine ⟨?_, ?_, ?_, hsq, ?_⟩ <;>
         first
         | (simp only [MoveFlagNone, MoveFlagCapture, MoveFlagDoublePawnPush,
             MoveFlagEnPassant, MoveFlagCastleKingSide,
             MoveFlagCastleQueenSide, MoveFlagPromotion]
            decide)
         | (rw [← piece_at_eq_getSq]; assumption))

theorem pawnCaptureMoves_shape (b : Board) (square file rank : Int)
    (piece : Piece) (them : Color) (hsq : getSq b.squares square = piece)
    (hcolor : (b.state.sideToMove = Color.White ∧ piece = Piece.WhitePawn) ∨
              (b.state.sideToMove = Color.Black ∧ piece = Piece.BlackPawn)) :
    ∀ m ∈ pawnCaptureMoves b square file rank piece them,
      plain_shape b m ∨ ep_shape b m := by
  intro m hm
  unfold pawnCaptureMoves at hm
  simp only [] at hm
  rcases hcolor with ⟨hstm, hpiece⟩ | ⟨hstm, hpiece⟩ <;> subst hpiece
  · have hdir :
        (if (Piece.WhitePawn == Piece.WhitePawn) = true then (1 : Int) else -1)
          = 1 := rfl
    have hcapp :
        (if (Piece.WhitePawn == Piece.WhitePawn) = true then Piece.BlackPawn
          else Piece.WhitePawn) = Piece.BlackPawn := rfl
    rw [hdir, hcapp] at hm
    split at hm
    case isFalse => simp at hm
    case isTrue hbounds =>
      rw [List.mem_flatMap] at hm
      obtain ⟨df, hdf, hm⟩ := hm
      split at hm
      case isTrue => simp at hm
      case isFalse hfile =>
        rw [List.mem_append] at hm
        rcases hm with hm | hm
        · left
          split at hm
          case isFalse => simp at hm
          case isTrue henemy =>
            split at hm
            case isTrue hpromo =>
              rw [List.mem_map] at hm
              obtain ⟨pp, hpp, hmeq⟩ := hm
              subst hmeq
              refine ⟨?_, ?_, ?_, hsq, ?_⟩ <;>
                first
                | (simp only [MoveFlagCapture, MoveFlagPromotion,
                    MoveFlagEnPassant, MoveFlagCastleKingSide,
                    MoveFlagCastleQueenSide]
                   decide)
                | (rw [← piece_at_eq_getSq])
            case isFalse =>
              rw [List.mem_singleton] at hm
              subst hm
              refine ⟨?_, ?_, ?_, hsq, ?_⟩ <;>
                first
                | (simp only [MoveFlagCapture, MoveFlagEnPassant,
                    MoveFlagCastleKingSide, MoveFlagCastleQueenSide]
                   decide)
                | (rw [← piece_at_eq_getSq])
        · right
          split at hm
          case isFalse => simp at hm
          case isTrue hep =>
            rw [List.mem_singleton] at hm
            subst hm
            refine ⟨rfl, hep.symm, ?_, ?_, hsq,
              Or.inl ⟨hstm, rfl, rfl⟩⟩
            · simp only [make_square]
              omega
            · simp only [make_square]
              omega
  · have hdir :
        (if (Piece.BlackPawn == Piece.WhitePawn) = true then (1 : Int) else -1)
          = -1 := rfl
    have hcapp :
        (if (Piece.BlackPawn == Piece.WhitePawn) = true then Piece.BlackPawn
          else Piece.WhitePawn) = Piece.WhitePawn := rfl
    rw [hdir, hcapp] at hm
    split at hm
    case isFalse => simp at hm
    case isTrue hbounds =>
      rw [List.mem_flatMap] at hm
      obtain ⟨df, hdf, hm⟩ := hm
      split at hm
      case isTrue => simp at hm
      case isFalse hfile =>
        rw [List.mem_append] at hm
        rcases hm with hm | hm
        · left
          split at hm
          case isFalse => simp at hm
          case isTrue henemy =>
            split at hm
            case isTrue hpromo =>
              rw [List.mem_map] at hm
              obtain ⟨pp, hpp, hmeq⟩ := hm
              subst hmeq
              refine ⟨?_, ?_, ?_, hsq, ?_⟩ <;>
                first
                | (simp only [MoveFlagCapture, MoveFlagPromotion,
                    MoveFlagEnPassant, MoveFlagCastleKingSide,
                    MoveFlagCastleQueenSide]
                   decide)
                | (rw [← piece_at_eq_getSq])
            case isFalse =>
              rw [List.mem_singleton] at hm
              subst hm
              refine ⟨?_, ?_, ?_, hsq, ?_⟩ <;>
                first
                | (simp only [MoveFlagCapture, MoveFlagEnPassant,
                    MoveFlagCastleKingSide, MoveFlagCastleQueenSide]
                   decide)
                | (rw [← piece_at_eq_getSq])
        · right
          split at hm
          case isFalse => simp at hm
          case isTrue hep =>
            rw [List.mem_singleton] at hm
            subst hm
            refine ⟨rfl, hep.symm, ?_, ?_, hsq,
              Or.inr ⟨hstm, rfl, rfl⟩⟩
            · simp only [make_square]
              omega
            · simp only [make_square]
              omega

theorem stepMoves_shape (b : Board) (square file rank : Int) (piece : Piece)
    (them : Color) (deltas : List (Int × Int))
    (hsq : getSq b.squares square = piece) :
    ∀ m ∈ stepMoves b square file rank piece them deltas, plain_shape b m := by
  intro m hm
  unfold stepMoves at hm
  rw [List.mem_flatMap] at hm
  obtain ⟨d, hd, hm⟩ := hm
  simp only [] at hm
  split at hm
  case isTrue => simp at hm
  case isFalse hguard =>
    split at hm
    case isTrue hempty =>
      rw [List.mem_singleton] at hm
      subst hm
      refine ⟨by simp, by simp, by simp, hsq, ?_⟩
      rw [← piece_at_eq_getSq]
      simpa [is_empty_piece] using hempty
    case isFalse hempty =>
      split at hm
      case isFalse => simp at hm
      case isTrue henemy =>
        rw [List.mem_singleton] at hm
        subst hm
        refine ⟨?_, ?_, ?_, hsq, ?_⟩ <;>
          first
          | (simp only [MoveFlagCapture, MoveFlagEnPassant,
              MoveFlagCastleKingSide, MoveFlagCastleQueenSide]
             decide)
          | (rw [← piece_at_eq_getSq])

theorem rayMoves_shape (b : Board) (square : Int) (piece : Piece)
    (them : Color) (df dr : Int) (hsq : getSq b.squares square = piece) :
    ∀ fuel f r, ∀ m ∈ rayMoves b square piece them df dr fuel f r,
      plain_shape b m := by
  intro fuel
  induction fuel with
  | zero => intro f r m hm; simp [rayMoves] at hm
  | succ n ih =>
    intro f r m hm
    unfold rayMoves at hm
    simp only [] at hm
    split at hm
    case isFalse => simp at hm
    case isTrue hbounds =>
      split at hm
      case isTrue hempty =>
        rcases List.mem_cons.mp hm with hmeq | hm2
        · subst hmeq
          refine ⟨by simp, by simp, by simp, hsq, ?_⟩
          rw [← piece_at_eq_getSq]
          simpa [is_empty_piece] using hempty
        · exact ih _ _ m hm2
      case isFalse hempty =>
        split at hm
        case isFalse => simp at hm
        case isTrue henemy =>
          rw [List.mem_singleton] at hm
          subst hm
          refine ⟨?_, ?_, ?_, hsq, ?_⟩ <;>
            first
            | (simp only [MoveFlagCapture, MoveFlagEnPassant,
                MoveFlagCastleKingSide, MoveFlagCastleQueenSide]
               decide)
            | (rw [← piece_at_eq_getSq])

theorem slidingMoves_shape (b : Board) (square file rank : Int)
    (piece : Piece) (them : Color) (directions : List (Int × Int))
    (hsq : getSq b.squares square = piece) :
    ∀ m ∈ slidingMoves b square file rank piece them directions,
      plain_shape b m := by
  intro m hm
  unfold slidingMoves at hm
  rw [List.mem_flatMap] at hm
  obtain ⟨d, hd, hm⟩ := hm
  exact rayMoves_shape b square piece them d.1 d.2 hsq 8 _ _ m hm

theorem castleMoves_shape (b : Board) (square : Int) (piece : Piece)
    (them : Color) (hsq : getSq b.squares square = piece)
    (hcolor : (b.state.sideToMove = Color.White ∧ piece = Piece.WhiteKing) ∨
              (b.state.sideToMove = Color.Black ∧ piece = Piece.BlackKing)) :
    ∀ m ∈ castleMoves b square piece them,
      castle_ks_shape b m ∨ castle_qs_shape b m := by
  intro m hm
  unfold castleMoves at hm
  simp only [] at hm
  rcases hcolor with ⟨hstm, hpiece⟩ | ⟨hstm, hpiece⟩ <;> subst hpiece
  · have hrank :
        (if (Piece.WhiteKing == Piece.WhiteKing) = true then (0 : Int) else 7)
          = 0 := rfl
    have hks :
        (if (Piece.WhiteKing == Piece.WhiteKing) = true then CastleWhiteKing
          else CastleBlackKing) = CastleWhiteKing := rfl
    have hqs :
        (if (Piece.WhiteKing == Piece.WhiteKing) = true then CastleWhiteQueen
          else CastleBlackQueen) = CastleWhiteQueen := rfl
    rw [hrank, hks, hqs, show make_square 5 0 = (5 : Int) from by decide,
      show make_square 6 0 = (6 : Int) from by decide,
      show make_square 4 0 = (4 : Int) from by decide,
      show make_square 3 0 = (3 : Int) from by decide,
      show make_square 2 0 = (2 : Int) from by decide,
      show make_square 1 0 = (1 : Int) from by decide] at hm
    rw [List.mem_append] at hm
    rcases hm with hm | hm
    · left
      split at hm
      case isFalse => simp at hm
      case isTrue hbit =>
        split at hm
        case isFalse => simp at hm
        case isTrue hempty =>
          split at hm
          case isFalse => simp at hm
          case isTrue hattack =>
            rw [List.mem_singleton] at hm
            subst hm
            refine ⟨rfl, rfl, hsq, Or.inl ⟨hstm, rfl, rfl, ?_, ?_⟩⟩
            · rw [← piece_at_eq_getSq]
              exact hempty.1
            · rw [← piece_at_eq_getSq]
              exact hempty.2
    · right
      split at hm
      case isFalse => simp at hm
      case isTrue hbit =>
        split at hm
        case isFalse => simp at hm
        case isTrue hempty =>
          split at hm
          case isFalse => simp at hm
          case isTrue hattack =>
            rw [List.mem_singleton] at hm
            subst hm
            refine ⟨rfl, rfl, hsq, Or.inl ⟨hstm, rfl, rfl, ?_, ?_⟩⟩
            · rw [← piece_at_eq_getSq]
              exact hempty.1
            · rw [← piece_at_eq_getSq]
              exact hempty.2.1
  · have hrank :
        (if (Piece.BlackKing == Piece.WhiteKing) = true then (0 : Int) else 7)
          = 7 := rfl
    have hks :
        (if (Piece.BlackKing == Piece.WhiteKing) = true then CastleWhiteKing
          else CastleBlackKing) = CastleBlackKing := rfl
    have hqs :
        (if (Piece.BlackKing == Piece.WhiteKing) = true then CastleWhiteQueen
          else CastleBlackQueen) = CastleBlackQueen := rfl
    rw [hrank, hks, hqs, show make_square 5 7 = (61 : Int) from by decide,
      show make_square 6 7 = (62 : Int) from by decide,
      show make_square 4 7 = (60 : Int) from by decide,
      show make_square 3 7 = (59 : Int) from by decide,
      show make_square 2 7 = (58 : Int) from by decide,
      show make_square 1 7 = (57 : Int) from by decide] at hm
    rw [List.mem_append] at hm
    rcases hm with hm | hm
    · left
      split at hm
      case isFalse => simp at hm
      case isTrue hbit =>
        split at hm
        case isFalse => simp at hm
        case isTrue hempty =>
          split at hm
          case isFalse => simp at hm
          case isTrue hattack =>
            rw [List.mem_singleton] at hm
            subst hm
            refine ⟨rfl, rfl, hsq, Or.inr ⟨hstm, rfl, rfl, ?_, ?_⟩⟩
            · rw [← piece_at_eq_getSq]
              exact hempty.1
            · rw [← piece_at_eq_getSq]
              exact hempty.2
    · right
      split at hm
      case isFalse => simp at hm
      case isTrue hbit =>
        split at hm
        case isFalse => simp at hm
        case isTrue hempty =>
          split at hm
          case isFalse => simp at hm
          case isTrue hattack =>
            rw [List.mem_singleton] at hm
            subst hm
            refine ⟨rfl, rfl, hsq, Or.inr ⟨hstm, rfl, rfl, ?_, ?_⟩⟩
            · rw [← piece_at_eq_getSq]
              exact hempty.1
            · rw [← piece_at_eq_getSq]
              exact hempty.2.1

theorem movesFrom_shape (b : Board) (squareN : Fin 64) :
    ∀ m ∈ movesFrom b b.state.sideToMove (opposite_color b.state.sideToMove)
        squareN, pseudo_move_shape b m := by
  intro m hm
  unfold movesFrom at hm
  simp only [] at hm
  have hsq : getSq b.squares ((squareN.val : Int)) = b.squares squareN :=
    getSq_val b.squares squareN
  split at hm
  case isTrue => simp at hm
  case isFalse hnone =>
    split at hm
    case isTrue => simp at hm
    case isFalse hwf =>
      split at hm
      case isTrue => simp at hm
      case isFalse hbf =>
        split at hm
        case isTrue hpawn =>
          have hcolor :
              (b.state.sideToMove = Color.White ∧
                b.squares squareN = Piece.WhitePawn) ∨
              (b.state.sideToMove = Color.Black ∧
                b.squares squareN = Piece.BlackPawn) := by
            cases hstm : b.state.sideToMove <;>
              cases hp : b.squares squareN <;>
                rw [hstm] at hwf hbf <;> rw [hp] at hpawn hwf hbf <;>
                  simp_all [is_white_piece, is_black_piece, Piece.toIndex]
          rw [List.mem_append] at hm
          rcases hm with hm | hm
          · exact Or.inl (pawnForwardMoves_shape b _ _ _ _ hsq m hm)
          · rcases pawnCaptureMoves_shape b _ _ _ _ _ hsq hcolor m hm with h | h
            · exact Or.inl h
            · exact Or.inr (Or.inl h)
        case isFalse hnp =>
          split at hm
          case isTrue hknight =>
            exact Or.inl (stepMoves_shape b _ _ _ _ _ _ hsq m hm)
          case isFalse hnk =>
            split at hm
            case isTrue hslider =>
              rw [List.mem_append] at hm
              rcases hm with hm | hm
              · split at hm
                case isFalse => simp at hm
                case isTrue =>
                  exact Or.inl (slidingMoves_shape b _ _ _ _ _ _ hsq m hm)
              · split at hm
                case isFalse => simp at hm
                case isTrue =>
                  exact Or.inl (slidingMoves_shape b _ _ _ _ _ _ hsq m hm)
            case isFalse hns =>
              split at hm
              case isTrue hking =>
                have hcolor :
                    (b.state.sideToMove = Color.White ∧
                      b.squares squareN = Piece.WhiteKing) ∨
                    (b.state.sideToMove = Color.Black ∧
                      b.squares squareN = Piece.BlackKing) := by
                  cases hstm : b.state.sideToMove <;>
                    cases hp : b.squares squareN <;>
                      rw [hstm] at hwf hbf <;> rw [hp] at hking hwf hbf <;>
                        simp_all [is_white_piece, is_black_piece, Piece.toIndex]
                rw [List.mem_append] at hm
                rcases hm with hm | hm
                · exact Or.inl (stepMoves_shape b _ _ _ _ _ _ hsq m hm)
                · rcases castleMoves_shape b _ _ _ hsq hcolor m hm with h | h
                  · exact Or.inr (Or.inr (Or.inl h))
                  · exact Or.inr (Or.inr (Or.inr h))
              case isFalse => simp at hm

theorem pseudo_moves_shape (b : Board) :
    ∀ m ∈ generate_pseudo_legal_moves b, pseudo_move_shape b m := by
  intro m hm
  unfold generate_pseudo_legal_moves at hm
  simp only [] at hm
  rw [List.mem_flatMap] at hm
  obtain ⟨sqN, hsqN, hm⟩ := hm
  exact movesFrom_shape b sqN m hm

/-- En-passant consistency, which holds in every legal position: when the
en-passant square is set, its target square is empty and the enemy pawn
that just double-pushed stands right behind it.  An arbitrary (illegal)
squares array could violate this, and then the generated en-passant "move"
would not restore the fabricated state. -/
@[reducible] def ep_consistent (b : Board) : Prop :=
  b.state.enPassantSquare = -1 ∨
  (getSq b.squares b.state.enPassantSquare = Piece.None ∧
    (b.state.sideToMove = Color.White →
      getSq b.squares (b.state.enPassantSquare - 8) = Piece.BlackPawn) ∧
    (b.state.sideToMove = Color.Black →
      getSq b.squares (b.state.enPassantSquare + 8) = Piece.WhitePawn))

theorem opposite_color_involutive (c : Color) :
    opposite_color (opposite_color c) = c := by
  cases c <;> rfl

theorem make_move_squares_eq (Z : ZobristTables) (b : Board) (move : Move) :
    (make_move Z b move).squares =
      make_move_squares b.squares move b.state.sideToMove := rfl

theorem make_move_side_eq (Z : ZobristTables) (b : Board) (move : Move) :
    (make_move Z b move).state.sideToMove =
      opposite_color b.state.sideToMove := rfl

theorem make_move_history_eq (Z : ZobristTables) (b : Board) (move : Move) :
    (make_move Z b move).history =
      { state := b.state, zobristKey := b.zobristKey,
        capturedPiece := move.capturedPiece, move := move } :: b.history := rfl

theorem shape_make_undo (b : Board) (m : Move)
    (hshape : pseudo_move_shape b m) (hep : ep_consistent b) :
    undo_move_squares (make_move_squares b.squares m b.state.sideToMove)
      { state := b.state, zobristKey := b.zobristKey,
        capturedPiece := m.capturedPiece, move := m }
      b.state.sideToMove = b.squares := by
  rcases hshape with h | h | h | h
  · exact make_undo_squares_plain b.squares _ _ h.1 h.2.1 h.2.2.1 rfl
      h.2.2.2.1 h.2.2.2.2
  · obtain ⟨hfl, htoep, h0, h64, hfrom, hcolor⟩ := h
    rcases hep with hneg | ⟨hen, hwp, hbp⟩
    · rw [← htoep] at hneg
      omega
    · refine make_undo_squares_ep b.squares _ _ hfl hfrom
        (by rw [htoep]; exact hen) ?_
      rcases hcolor with ⟨hstm, hmp, hcp⟩ | ⟨hstm, hmp, hcp⟩
      · exact Or.inl ⟨hstm, hmp, hcp, by rw [htoep]; exact hwp hstm⟩
      · exact Or.inr ⟨hstm, hmp, hcp, by rw [htoep]; exact hbp hstm⟩
  · exact make_undo_squares_castle_ks b.squares _ _ h.1 h.2.1 h.2.2.1 h.2.2.2
  · exact make_undo_squares_castle_qs b.squares _ _ h.1 h.2.1 h.2.2.1 h.2.2.2

/-- C1: on an en-passant-consistent position (every legal position is one),
applying any generated legal move with `make_move` and then calling
`undo_move` restores the board exactly: piece array, side to move, castling
rights, en-passant square, clocks, Zobrist key and history stack. -/
theorem make_undo_restores_position (Z : ZobristTables) (b : Board)
    (m : Move) (hep : ep_consistent b) (hm : m ∈ generate_legal_moves Z b) :
    undo_move (make_move Z b m) = b := by
  have hpseudo : m ∈ generate_pseudo_legal_moves b :=
    List.mem_of_mem_filter hm
  have hshape := pseudo_moves_shape b m hpseudo
  unfold undo_move
  simp only [make_move_history_eq, make_move_side_eq, make_move_squares_eq,
    opposite_color_involutive]
  rw [shape_make_undo b m hshape hep]

/-- Witness for C1: the quiet king move e1-d1 on the two-kings board. -/
theorem make_undo_restores_position_witness :
    undo_move (make_move Z0 kingsBoard
      { fromSq := 4, toSq := 3, movingPiece := Piece.WhiteKing }) =
      kingsBoard :=
  make_undo_restores_position Z0 kingsBoard
    { fromSq := 4, toSq := 3, movingPiece := Piece.WhiteKing }
    (by decide) (by decide)

theorem natDigitsF_congr :
    ∀ (fuel fuel' n : Nat), n ≤ fuel → n ≤ fuel' →
      natDigitsF fuel n = natDigitsF fuel' n := by
  intro fuel
  induction fuel with
  | zero =>
    intro fuel' n h h'
    have hn : n = 0 := by omega
    subst hn
    cases fuel' with
    | zero => rfl
    | succ f => rw [natDigitsF, natDigitsF, if_pos (by omega)]
  | succ f ih =>
    intro fuel' n h h'
    cases fuel' with
    | zero =>
      have hn : n = 0 := by omega
      subst hn
      rw [natDigitsF, natDigitsF, if_pos (by omega)]
    | succ f' =>
      rw [natDigitsF, natDigitsF]
      by_cases h10 : n < 10
      · rw [if_pos h10, if_pos h10]
      · rw [if_neg h10, if_neg h10,
          ih f' (n / 10) (by omega) (by omega)]

theorem natDigits_eq (n : Nat) :
    natDigits n =
      if n < 10 then
        [Char.ofNat ('0'.toNat + n)]
      else
        natDigits (n / 10) ++ [Char.ofNat ('0'.toNat + n % 10)] := by
  unfold natDigits
  cases n with
  | zero => rw [natDigitsF, if_pos (by omega)]
  | succ m =>
    rw [natDigitsF]
    by_cases h10 : m + 1 < 10
    · rw [if_pos h10, if_pos h10]
    · rw [if_neg h10, if_neg h10,
        natDigitsF_congr m ((m + 1) / 10) ((m + 1) / 10) (by omega)
          (by omega)]

theorem fen_rank_from_eq (squares : Fin 64 → Piece) (rank : Int)
    (file emptyCount : Nat) :
    fen_rank_from squares rank file emptyCount =
      if file < 8 then
        (let piece := getSq squares (rank * 8 + (file : Int))
         if piece = Piece.None then
           fen_rank_from squares rank (file + 1) (emptyCount + 1)
         else
           (if 0 < emptyCount then natDigits emptyCount else []) ++
             char_from_piece piece ::
               fen_rank_from squares rank (file + 1) 0)
      else
        (if 0 < emptyCount then natDigits emptyCount else []) := by
  by_cases h : file < 8
  · rw [if_pos h]
    show fen_rank_go squares rank (8 - file) file emptyCount = _
    have h8 : 8 - file = (8 - (file + 1)) + 1 := by omega
    rw [h8]
    rfl
  · rw [if_neg h]
    show fen_rank_go squares rank (8 - file) file emptyCount = _
    have h8 : 8 - file = 0 := by omega
    rw [h8, fen_rank_go]

theorem digit_char_facts (d : Nat) (hd : d < 10) :
    is_space (Char.ofNat ('0'.toNat + d)) = false ∧
    (Char.ofNat ('0'.toNat + d)).toNat = '0'.toNat + d ∧
    Char.ofNat ('0'.toNat + d) ≠ '-' ∧
    Char.ofNat ('0'.toNat + d) ≠ '/' := by
  interval_cases d <;> exact ⟨rfl, rfl, by decide, by decide⟩

theorem natDigits_ne_nil (n : Nat) : natDigits n ≠ [] := by
  rw [natDigits_eq]
  split
  · simp
  · simp

theorem natDigits_mem (n : Nat) :
    ∀ c ∈ natDigits n, ∃ d, d < 10 ∧ c = Char.ofNat ('0'.toNat + d) := by
  induction n using Nat.strong_induction_on with
  | _ n ih =>
    intro c hc
    rw [natDigits_eq] at hc
    split at hc
    · next h =>
      rw [List.mem_singleton] at hc
      exact ⟨n, h, hc⟩
    · next h =>
      rw [List.mem_append] at hc
      rcases hc with hc | hc
      · exact ih (n / 10) (Nat.div_lt_self (by omega) (by omega)) c hc
      · rw [List.mem_singleton] at hc
        exact ⟨n % 10, Nat.mod_lt n (by omega), hc⟩

theorem parseNatAux_append (a b : List Char) (acc : Nat) :
    parseNatAux (a ++ b) acc = parseNatAux b (parseNatAux a acc) := by
  induction a generalizing acc with
  | nil => rfl
  | cons c rest ih => simp [parseNatAux, ih]

theorem parseNat_natDigits (n : Nat) :
    ∀ acc, parseNatAux (natDigits n) acc =
      acc * 10 ^ (natDigits n).length + n := by
  induction n using Nat.strong_induction_on with
  | _ n ih =>
    intro acc
    rw [natDigits_eq]
    split
    · next h =>
      have hv := (digit_char_facts n h).2.1
      simp only [parseNatAux, hv, List.length_singleton, pow_one]
      omega
    · next h =>
      have hlt := Nat.div_lt_self (show 0 < n by omega) (show 1 < 10 by omega)
      have hmod := (digit_char_facts (n % 10) (Nat.mod_lt n (by omega))).2.1
      rw [parseNatAux_append, ih (n / 10) hlt acc]
      simp only [parseNatAux, hmod, List.length_append, List.length_singleton,
        pow_succ]
      ring_nf
      omega

theorem parse_int_field_natDigits (n : Nat) (d : Int) :
    parse_int_field (natDigits n) d = n := by
  have hne := natDigits_ne_nil n
  obtain ⟨c, rest, hcons⟩ := List.exists_cons_of_ne_nil hne
  have hc : ∃ dd, dd < 10 ∧ c = Char.ofNat ('0'.toNat + dd) :=
    natDigits_mem n c (by rw [hcons]; exact List.mem_cons_self c rest)
  obtain ⟨dd, hdd, rfl⟩ := hc
  rw [hcons, parse_int_field, if_neg (by exact (digit_char_facts dd hdd).2.2.1)]
  rw [← hcons, parseNat_natDigits n 0]
  simp

theorem words_aux_append (rest : List Char) :
    ∀ (a acc : List Char), (∀ c ∈ a, is_space c = false) →
      (acc ≠ [] ∨ a ≠ []) →
      words_aux (a ++ ' ' :: rest) acc =
        (acc.reverse ++ a) :: words_aux rest [] := by
  intro a
  induction a with
  | nil =>
    intro acc hfree hne
    rcases hne with hne | hne
    · simp [words_aux, is_space, hne]
    · simp at hne
  | cons c a' ih =>
    intro acc hfree hne
    have hc : is_space c = false := hfree c (List.mem_cons_self c a')
    simp only [List.cons_append, words_aux, hc, Bool.false_eq_true, if_false,
      List.append_eq]
    rw [ih (c :: acc) (fun d hd => hfree d (List.mem_cons_of_mem c hd))
      (Or.inl (by simp))]
    simp

theorem words_aux_last :
    ∀ (a acc : List Char), (∀ c ∈ a, is_space c = false) →
      (acc ≠ [] ∨ a ≠ []) →
      words_aux a acc = [acc.reverse ++ a] := by
  intro a
  induction a with
  | nil =>
    intro acc hfree hne
    rcases hne with hne | hne
    · simp [words_aux, hne]
    · simp at hne
  | cons c a' ih =>
    intro acc hfree hne
    have hc : is_space c = false := hfree c (List.mem_cons_self c a')
    simp only [words_aux, hc, Bool.false_eq_true, if_false, List.append_eq]
    rw [ih (c :: acc) (fun d hd => hfree d (List.mem_cons_of_mem c hd))
      (Or.inl (by simp))]
    simp

theorem words_cons_field (a rest : List Char)
    (hfree : ∀ c ∈ a, is_space c = false) (hne : a ≠ []) :
    words (a ++ ' ' :: rest) = a :: words rest := by
  unfold words
  rw [words_aux_append rest a [] hfree (Or.inr hne)]
  simp

theorem words_last_field (a : List Char)
    (hfree : ∀ c ∈ a, is_space c = false) (hne : a ≠ []) :
    words a = [a] := by
  unfold words
  rw [words_aux_last a [] hfree (Or.inr hne)]
  simp

theorem char_from_piece_facts (p : Piece) (hp : p ≠ Piece.None) :
    is_space (char_from_piece p) = false ∧
    ¬('1' ≤ char_from_piece p ∧ char_from_piece p ≤ '8') ∧
    char_from_piece p ≠ '/' ∧
    piece_from_char (char_from_piece p) = p := by
  cases p <;> first
    | exact absurd rfl hp
    | exact ⟨rfl, by decide, by decide, rfl⟩

theorem natDigits_not_space (n : Nat) : ∀ c ∈ natDigits n,
    is_space c = false := by
  intro c hc
  obtain ⟨d, hd, rfl⟩ := natDigits_mem n c hc
  exact (digit_char_facts d hd).1

theorem fen_rank_from_chars (squares : Fin 64 → Piece) (rank : Int) :
    ∀ (fuel : Nat) (file empty : Nat), 8 - file ≤ fuel →
      ∀ c ∈ fen_rank_from squares rank file empty,
        (∃ d, d < 10 ∧ c = Char.ofNat ('0'.toNat + d)) ∨
        (∃ p, p ≠ Piece.None ∧ c = char_from_piece p) := by
  intro fuel
  induction fuel with
  | zero =>
    intro file empty hle c hc
    rw [fen_rank_from_eq, if_neg (by omega)] at hc
    split at hc
    · exact Or.inl (natDigits_mem empty c hc)
    · simp at hc
  | succ fl ih =>
    intro file empty hle c hc
    rw [fen_rank_from_eq] at hc
    split at hc
    · next hfile =>
      simp only [] at hc
      split at hc
      · exact ih (file + 1) (empty + 1) (by omega) c hc
      · next hpiece =>
        rw [List.mem_append] at hc
        rcases hc with hc | hc
        · split at hc
          · exact Or.inl (natDigits_mem empty c hc)
          · simp at hc
        · rcases List.mem_cons.mp hc with rfl | hc
          · exact Or.inr ⟨_, hpiece, rfl⟩
          · exact ih (file + 1) 0 (by omega) c hc
    · split at hc
      · exact Or.inl (natDigits_mem empty c hc)
      · simp at hc

theorem fen_placement_from_not_space (squares : Fin 64 → Piece) :
    ∀ (n : Nat) (rank : Int), ∀ c ∈ fen_placement_from squares n rank,
      is_space c = false := by
  intro n
  induction n with
  | zero => intro rank c hc; simp [fen_placement_from] at hc
  | succ k ih =>
    intro rank c hc
    unfold fen_placement_from at hc
    rw [List.mem_append, List.mem_append] at hc
    rcases hc with (hc | hc) | hc
    · rcases fen_rank_from_chars squares rank 8 0 0 (by omega) c hc with
        ⟨d, hd, rfl⟩ | ⟨p, hp, rfl⟩
      · exact (digit_char_facts d hd).1
      · exact (char_from_piece_facts p hp).1
    · split at hc
      · rw [List.mem_singleton] at hc
        subst hc
        rfl
      · simp at hc
    · exact ih (rank - 1) c hc

theorem fen_placement_ne_nil (squares : Fin 64 → Piece) :
    fen_placement squares ≠ [] := by
  intro h
  rw [fen_placement] at h
  unfold fen_placement_from at h
  rw [if_pos (by omega)] at h
  simp [List.append_eq_nil] at h

theorem castling_field_facts (r : Nat) (hr : r < 16) :
    fen_castling r ≠ [] ∧ (∀ c ∈ fen_castling r, is_space c = false) ∧
    parse_castling (fen_castling r) = r := by
  interval_cases r <;> exact ⟨by decide, by decide, by decide⟩

theorem ep_field_facts (ep : Int) (h0 : 0 ≤ ep) (h64 : ep < 64) :
    fen_en_passant ep ≠ [] ∧
    (∀ c ∈ fen_en_passant ep, is_space c = false) ∧
    fen_en_passant ep ≠ ['-'] ∧
    square_from_chars (fen_en_passant ep) = ep := by
  interval_cases ep <;> exact ⟨by decide, by decide, by decide, by decide⟩

theorem parse_digit_step (e : Nat) (h1 : 1 ≤ e) (h8 : e ≤ 8)
    (rest : List Char) (rank file : Int) (sq : Fin 64 → Piece) :
    parse_placement (natDigits e ++ rest) rank file sq =
      parse_placement rest rank (file + (e : Int)) sq := by
  have hsingle : natDigits e = [Char.ofNat ('0'.toNat + e)] := by
    rw [natDigits_eq, if_pos (by omega)]
  have hval : (Char.ofNat ('0'.toNat + e)).toNat = '0'.toNat + e :=
    (digit_char_facts e (by omega)).2.1
  have hslash : Char.ofNat ('0'.toNat + e) ≠ '/' :=
    (digit_char_facts e (by omega)).2.2.2
  have hdig : '1' ≤ Char.ofNat ('0'.toNat + e) ∧
      Char.ofNat ('0'.toNat + e) ≤ '8' := by
    interval_cases e <;> exact ⟨by decide, by decide⟩
  rw [hsingle, List.cons_append, List.nil_append]
  simp only [parse_placement]
  rw [if_neg hslash, if_pos hdig, hval]
  have harith : file + (((('0'.toNat + e) : Nat) : Int) - (('0'.toNat : Nat) : Int))
      = file + (e : Int) := by push_cast; omega
  rw [harith]

theorem parse_rank_flush (squares : Fin 64 → Piece) (rank : Int)
    (empty : Nat) (hempty : empty ≤ 8) (lo : Int)
    (hlo : lo = 8 - (empty : Int))
    (hprev : ∀ k : Int, lo ≤ k → k < 8 →
      getSq squares (rank * 8 + k) = Piece.None)
    (rest : List Char) (sq : Fin 64 → Piece) :
    parse_placement ((if 0 < empty then natDigits empty else []) ++ rest)
        rank lo sq =
      parse_placement rest rank 8
        (fun i => if ((i.val : Int) / 8 = rank ∧ lo ≤ (i.val : Int) % 8 ∧
            squares i ≠ Piece.None) then squares i else sq i) := by
  by_cases he : 0 < empty
  · rw [if_pos he, parse_digit_step empty he hempty]
    have h8 : lo + (empty : Int) = 8 := by omega
    rw [h8]
    have hfun : (fun i : Fin 64 =>
        if ((i.val : Int) / 8 = rank ∧ lo ≤ (i.val : Int) % 8 ∧
            squares i ≠ Piece.None) then squares i else sq i) = sq := by
      funext i
      rw [if_neg]
      rintro ⟨hir, him, hne⟩
      have hk := hprev ((i.val : Int) % 8) him (by omega)
      rw [getSq_eq_of_val squares _ i (by omega)] at hk
      exact hne hk
    rw [hfun]
  · rw [if_neg he, List.nil_append]
    have h8 : lo = 8 := by omega
    rw [h8]
    have hfun : (fun i : Fin 64 =>
        if ((i.val : Int) / 8 = rank ∧ (8 : Int) ≤ (i.val : Int) % 8 ∧
            squares i ≠ Piece.None) then squares i else sq i) = sq := by
      funext i
      rw [if_neg]
      rintro ⟨hir, him, hne⟩
      omega
    rw [hfun]

theorem parse_rank (squares : Fin 64 → Piece) (rank : Int)
    (hr0 : 0 ≤ rank) (hr7 : rank ≤ 7) :
    ∀ (fuel : Nat) (file : Nat), 8 - file ≤ fuel → file ≤ 8 →
    ∀ (empty : Nat), empty ≤ file →
    ∀ (lo : Int), lo = (file : Int) - (empty : Int) →
    (∀ k : Int, lo ≤ k → k < (file : Int) →
      getSq squares (rank * 8 + k) = Piece.None) →
    ∀ (rest : List Char) (sq : Fin 64 → Piece),
      parse_placement (fen_rank_from squares rank file empty ++ rest) rank
          lo sq =
        parse_placement rest rank 8
          (fun i => if ((i.val : Int) / 8 = rank ∧ lo ≤ (i.val : Int) % 8 ∧
              squares i ≠ Piece.None) then squares i else sq i) := by
  intro fuel
  induction fuel with
  | zero =>
    intro file hfuel hfile empty hempty lo hlo hprev rest sq
    have h8 : file = 8 := by omega
    subst h8
    rw [fen_rank_from_eq, if_neg (by omega)]
    exact parse_rank_flush squares rank empty hempty lo (by push_cast at hlo ⊢; omega)
      hprev rest sq
  | succ fl ih =>
    intro file hfuel hfile empty hempty lo hlo hprev rest sq
    by_cases hf : file < 8
    · rw [fen_rank_from_eq, if_pos hf]
      simp only []
      by_cases hNone : getSq squares (rank * 8 + (file : Int)) = Piece.None
      · rw [if_pos hNone]
        rw [ih (file + 1) (by omega) (by omega) (empty + 1) (by omega) lo
          (by push_cast at hlo ⊢; omega) ?_ rest sq]
        intro k hk1 hk2
        by_cases hkf : k < (file : Int)
        · exact hprev k hk1 hkf
        · have hkeq : k = (file : Int) := by push_cast at hk2; omega
          rw [hkeq]
          exact hNone
      · rw [if_neg hNone]
        simp only [List.append_assoc, List.cons_append]
        have hstep :
            parse_placement ((if 0 < empty then natDigits empty else []) ++
                (char_from_piece (getSq squares (rank * 8 + (file : Int))) ::
                  (fen_rank_from squares rank (file + 1) 0 ++ rest))) rank lo
                sq =
              parse_placement
                (char_from_piece (getSq squares (rank * 8 + (file : Int))) ::
                  (fen_rank_from squares rank (file + 1) 0 ++ rest)) rank
                (file : Int) sq := by
          by_cases he : 0 < empty
          · rw [if_pos he, parse_digit_step empty he (by omega)]
            have hc : lo + (empty : Int) = (file : Int) := by omega
            rw [hc]
          · rw [if_neg he, List.nil_append]
            have hc : lo = (file : Int) := by omega
            rw [hc]
        rw [hstep]
        have hcf := char_from_piece_facts _ hNone
        simp only [parse_placement]
        rw [if_neg hcf.2.2.1, if_neg hcf.2.1]
        simp only [hcf.2.2.2]
        rw [ih (file + 1) (by omega) (by omega) 0 (by omega)
          ((file : Int) + 1) (by push_cast; omega)
          (fun k hk1 hk2 => absurd hk2 (by push_cast; omega)) rest _]
        have hfun : (fun i : Fin 64 =>
            if ((i.val : Int) / 8 = rank ∧
                (file : Int) + 1 ≤ (i.val : Int) % 8 ∧
                squares i ≠ Piece.None) then squares i
            else setSq sq (rank * 8 + (file : Int))
              (getSq squares (rank * 8 + (file : Int))) i) =
            (fun i : Fin 64 =>
            if ((i.val : Int) / 8 = rank ∧ lo ≤ (i.val : Int) % 8 ∧
                squares i ≠ Piece.None) then squares i else sq i) := by
          funext i
          by_cases h1 : ((i.val : Int) / 8 = rank ∧
              (file : Int) + 1 ≤ (i.val : Int) % 8 ∧ squares i ≠ Piece.None)
          · rw [if_pos h1, if_pos ⟨h1.1, by omega, h1.2.2⟩]
          · rw [if_neg h1, setSq_apply]
            by_cases h2 : (i.val : Int) = rank * 8 + (file : Int)
            · rw [if_pos h2]
              rw [if_pos ⟨by omega, by omega,
                by rw [← getSq_eq_of_val squares _ i h2]; exact hNone⟩]
              exact getSq_eq_of_val squares _ i h2
            · rw [if_neg h2]
              rw [if_neg]
              rintro ⟨hir, hlo2, hne⟩
              have him : (i.val : Int) % 8 < (file : Int) := by
                by_cases hx : (file : Int) + 1 ≤ (i.val : Int) % 8
                · exact absurd ⟨hir, hx, hne⟩ h1
                · by_cases hy : (i.val : Int) % 8 = (file : Int)
                  · exact absurd (by omega) h2
                  · omega
              have hk := hprev ((i.val : Int) % 8) hlo2 him
              rw [getSq_eq_of_val squares _ i (by omega)] at hk
              exact hne hk
        rw [hfun]
    · have h8 : file = 8 := by omega
      subst h8
      rw [fen_rank_from_eq, if_neg (by omega)]
      exact parse_rank_flush squares rank empty hempty lo
        (by push_cast at hlo ⊢; omega) hprev rest sq

theorem parse_ranks (squares : Fin 64 → Piece) :
    ∀ (n : Nat), n ≤ 8 → ∀ (rank : Int), rank = (n : Int) - 1 →
    ∀ (sq : Fin 64 → Piece),
      parse_placement (fen_placement_from squares n rank) rank 0 sq =
        (fun i => if ((i.val : Int) / 8 ≤ rank ∧ squares i ≠ Piece.None)
          then squares i else sq i) := by
  intro n
  induction n with
  | zero =>
    intro _ rank hrank sq
    funext i
    simp only [fen_placement_from, parse_placement]
    rw [if_neg]
    rintro ⟨hir, hne⟩
    omega
  | succ k ih =>
    intro hn rank hrank sq
    unfold fen_placement_from
    rw [List.append_assoc]
    rw [parse_rank squares rank (by omega) (by omega) 8 0 (by omega)
      (by omega) 0 (by omega) 0 (by norm_num)
      (fun j hj1 hj2 => absurd hj2 (by push_cast; omega)) _ sq]
    by_cases hr0 : 0 < rank
    · rw [if_pos hr0]
      rw [List.singleton_append]
      simp only [parse_placement, if_true]
      rw [ih (by omega) (rank - 1) (by omega) _]
      funext i
      by_cases hc1 : ((i.val : Int) / 8 ≤ rank - 1 ∧ squares i ≠ Piece.None)
      · rw [if_pos hc1, if_pos ⟨by omega, hc1.2⟩]
      · rw [if_neg hc1]
        by_cases hc2 : ((i.val : Int) / 8 = rank ∧ (0 : Int) ≤ (i.val : Int) % 8 ∧
            squares i ≠ Piece.None)
        · rw [if_pos hc2, if_pos ⟨by omega, hc2.2.2⟩]
        · rw [if_neg hc2, if_neg]
          rintro ⟨hir, hne⟩
          by_cases hr : (i.val : Int) / 8 = rank
          · exact hc2 ⟨hr, by omega, hne⟩
          · exact hc1 ⟨by omega, hne⟩
    · have hrank0 : rank = 0 := by
        have hiv : (0 : Int) ≤ (k : Int) := by positivity
        omega
      have hk0 : k = 0 := by omega
      subst hk0
      rw [if_neg hr0]
      simp only [fen_placement_from, List.nil_append, parse_placement]
      funext i
      by_cases hc2 : ((i.val : Int) / 8 = rank ∧ (0 : Int) ≤ (i.val : Int) % 8 ∧
          squares i ≠ Piece.None)
      · rw [if_pos hc2, if_pos ⟨by omega, hc2.2.2⟩]
      · rw [if_neg hc2, if_neg]
        rintro ⟨hir, hne⟩
        have hiv : (0 : Int) ≤ (i.val : Int) := by positivity
        exact hc2 ⟨by omega, by omega, hne⟩

theorem parse_fen_placement (squares : Fin 64 → Piece) :
    parse_placement (fen_placement squares) 7 0 (fun _ => Piece.None) =
      squares := by
  rw [fen_placement, parse_ranks squares 8 (by omega) 7 (by norm_num)]
  funext i
  have hlt := i.isLt
  by_cases h : squares i = Piece.None
  · rw [if_neg (fun hc => hc.2 h)]
    exact h.symm
  · rw [if_pos ⟨by omega, h⟩]

theorem int_to_chars_facts (i : Int) (h : 0 ≤ i) :
    int_to_chars i ≠ [] ∧ (∀ c ∈ int_to_chars i, is_space c = false) ∧
    parse_int_field (int_to_chars i) 0 = i ∧
    parse_int_field (int_to_chars i) 1 = i := by
  unfold int_to_chars
  rw [if_neg (by omega)]
  refine ⟨natDigits_ne_nil _, natDigits_not_space _, ?_, ?_⟩
  · rw [parse_int_field_natDigits]
    omega
  · rw [parse_int_field_natDigits]
    omega

theorem side_field_facts (c : Color) :
    (if c = Color.White then ['w'] else ['b']) ≠ [] ∧
    (∀ ch ∈ (if c = Color.White then ['w'] else ['b']),
      is_space ch = false) := by
  cases c <;> exact ⟨by decide, by decide⟩

theorem ep_render_facts (ep : Int)
    (h : ep = -1 ∨ (0 ≤ ep ∧ ep < 64)) :
    fen_en_passant ep ≠ [] ∧
    (∀ c ∈ fen_en_passant ep, is_space c = false) := by
  rcases h with rfl | ⟨h0, h64⟩
  · exact ⟨by decide, by decide⟩
  · have := ep_field_facts ep h0 h64
    exact ⟨this.1, this.2.1⟩

theorem to_fen_words (b : Board) (hwf : fen_well_formed b) :
    words (to_fen_chars b.squares b.state) =
      [fen_placement b.squares,
       (if b.state.sideToMove = Color.White then ['w'] else ['b']),
       fen_castling b.state.castlingRights,
       fen_en_passant b.state.enPassantSquare,
       int_to_chars b.state.halfmoveClock,
       int_to_chars b.state.fullmoveNumber] := by
  obtain ⟨hcr, hep, hhm, hfm⟩ := hwf
  have hcastle := castling_field_facts b.state.castlingRights hcr
  have hside := side_field_facts b.state.sideToMove
  have hepf := ep_render_facts b.state.enPassantSquare hep
  have hhmf := int_to_chars_facts b.state.halfmoveClock hhm
  have hfmf := int_to_chars_facts b.state.fullmoveNumber hfm
  have hplfree : ∀ c ∈ fen_placement b.squares, is_space c = false := by
    rw [fen_placement]
    exact fen_placement_from_not_space b.squares 8 7
  unfold to_fen_chars
  simp only [List.append_assoc, List.cons_append]
  rw [words_cons_field _ _ hplfree (fen_placement_ne_nil b.squares)]
  rw [words_cons_field _ _ hside.2 hside.1]
  rw [words_cons_field _ _ hcastle.2.1 hcastle.1]
  rw [words_cons_field _ _ hepf.2 hepf.1]
  rw [words_cons_field _ _ hhmf.2.1 hhmf.1]
  rw [words_last_field _ hfmf.2.1 hfmf.1]

theorem load_fen_chars_of_render (Z : ZobristTables) (b : Board)
    (hwf : fen_well_formed b) :
    (load_fen_chars Z (to_fen_chars b.squares b.state)).squares = b.squares ∧
    (load_fen_chars Z (to_fen_chars b.squares b.state)).state = b.state := by
  have hw := to_fen_words b hwf
  obtain ⟨hcr, hep, hhm, hfm⟩ := hwf
  have hcastle := castling_field_facts b.state.castlingRights hcr
  have hhmf := int_to_chars_facts b.state.halfmoveClock hhm
  have hfmf := int_to_chars_facts b.state.fullmoveNumber hfm
  constructor
  · show parse_placement
      ((words (to_fen_chars b.squares b.state)).getD 0 []) 7 0
      (fun _ => Piece.None) = b.squares
    rw [hw]
    exact parse_fen_placement b.squares
  · show BoardState.mk _ _ _ _ _ = b.state
    rw [hw]
    simp only [List.getD_cons_zero, List.getD_cons_succ]
    ext
    · show (if (if b.state.sideToMove = Color.White then ['w'] else ['b'])
          = ['b'] then Color.Black else Color.White) = b.state.sideToMove
      cases hst : b.state.sideToMove <;> decide
    · show parse_castling (fen_castling b.state.castlingRights) =
        b.state.castlingRights
      exact hcastle.2.2
    · show (if fen_en_passant b.state.enPassantSquare ≠ ['-'] ∧
          fen_en_passant b.state.enPassantSquare ≠ [] then
            square_from_chars (fen_en_passant b.state.enPassantSquare)
          else -1) = b.state.enPassantSquare
      rcases hep with hneg | ⟨h0, h64⟩
      · rw [hneg]
        rw [if_neg (by unfold fen_en_passant; simp)]
      · have := ep_field_facts b.state.enPassantSquare h0 h64
        rw [if_pos ⟨this.2.2.1, this.1⟩]
        exact this.2.2.2
    · exact hhmf.2.2.1
    · exact hfmf.2.2.2

/-- C5: `to_fen (load_fen s)) = s` for every valid six-field FEN string
(the FEN text of any well-formed position), for every Zobrist table. -/
theorem fen_round_trip (Z : ZobristTables) (s : String) (hs : ValidFEN s) :
    to_fen (load_fen Z s) = s := by
  obtain ⟨b, hwf, rfl⟩ := hs
  have hcomp := load_fen_chars_of_render Z b hwf
  show String.mk (to_fen_chars (load_fen_chars Z (to_fen_chars b.squares
    b.state)).squares (load_fen_chars Z (to_fen_chars b.squares
      b.state)).state) = String.mk (to_fen_chars b.squares b.state)
  rw [hcomp.1, hcomp.2]

/-- Witness for C5 at the standard start-position FEN. -/
theorem fen_round_trip_witness :
    to_fen (load_fen Z0
      "rnbqkbnr/pppppppp/8/8/8/8/PPPPPPPP/RNBQKBNR w KQkq - 0 1") =
      "rnbqkbnr/pppppppp/8/8/8/8/PPPPPPPP/RNBQKBNR w KQkq - 0 1" :=
  fen_round_trip Z0 _
    ⟨load_fen Z0 "rnbqkbnr/pppppppp/8/8/8/8/PPPPPPPP/RNBQKBNR w KQkq - 0 1",
     by decide, by decide⟩

theorem eval_scan_step_spec (b : Board) (acc : SideEval × SideEval × Int)
    (s : Int) :
    eval_scan_step b acc s = scan_closed b [s] acc := by
  rcases hp : piece_at b s <;>
    simp [eval_scan_step, accumulate_piece, scan_closed, hp, scan_base,
      scan_count, scan_guard_white, scan_guard_black, is_white_piece,
      Piece.toIndex, PhaseScore.add, sumScores, king_scan,
      piece_square_score, piece_phase_value] <;>
    try (funext f; by_cases hf : f = file_of s <;> simp [hf])

theorem ite_singleton_append {α : Type} {P : Prop} [Decidable P] (s : α)
    (l : List α) :
    (if P then [s] else []) ++ l = if P then s :: l else l := by
  split <;> simp

theorem foldl_phaseAdd (l : List PhaseScore) (i : PhaseScore) :
    l.foldl PhaseScore.add i = PhaseScore.add i (sumScores l) := by
  induction l generalizing i with
  | nil => cases i; simp [sumScores, PhaseScore.add]
  | cons x l ih =>
    rw [List.foldl_cons, ih]
    have h2 : sumScores (x :: l) =
        PhaseScore.add (PhaseScore.add ⟨0, 0⟩ x) (sumScores l) := by
      rw [sumScores, List.foldl_cons, ih]
    rw [h2]
    cases i; cases x; rcases sumScores l with ⟨a, c⟩
    simp [PhaseScore.add]
    constructor <;> ring

theorem sumScores_cons (x : PhaseScore) (l : List PhaseScore) :
    sumScores (x :: l) = PhaseScore.add x (sumScores l) := by
  rw [sumScores, List.foldl_cons, foldl_phaseAdd]
  cases x
  simp [PhaseScore.add]

theorem scan_spec (b : Board) (L : List Int)
    (acc : SideEval × SideEval × Int) :
    L.foldl (eval_scan_step b) acc = scan_closed b L acc := by
  induction L generalizing acc with
  | nil => simp [scan_closed, sumScores, PhaseScore.add, king_scan]
  | cons s L ih =>
    rw [List.foldl_cons, eval_scan_step_spec, ih]
    simp only [scan_closed, List.map_cons, sumScores_cons, List.map_nil,
      List.filter_cons, List.filter_nil, List.sum_cons, List.sum_nil,
      king_scan, List.foldl_cons, List.foldl_nil]
    refine Prod.ext ?_ (Prod.ext ?_ ?_) <;>
      simp [PhaseScore.add, sumScores, add_assoc, funext_iff,
        ite_singleton_append]

theorem mem_squareList {s : Int} (h : s ∈ squareList) : 0 ≤ s ∧ s < 64 := by
  have hall : squareList.all (fun x => decide (0 ≤ x ∧ x < 64)) = true := by
    decide
  rw [List.all_eq_true] at hall
  exact of_decide_eq_true (hall s h)

theorem mirror_square_range {s : Int} (h0 : 0 ≤ s) (h64 : s < 64) :
    0 ≤ mirror_square s ∧ mirror_square s < 64 := by
  unfold mirror_square make_square file_of rank_of
  omega

theorem mirror_square_involutive {s : Int} (h0 : 0 ≤ s) (h64 : s < 64) :
    mirror_square (mirror_square s) = s := by
  unfold mirror_square make_square file_of rank_of
  omega

theorem file_of_mirror {s : Int} (h0 : 0 ≤ s) (h64 : s < 64) :
    file_of (mirror_square s) = file_of s := by
  unfold mirror_square make_square file_of rank_of
  omega

theorem rank_of_mirror {s : Int} (h0 : 0 ≤ s) (h64 : s < 64) :
    rank_of (mirror_square s) = 7 - rank_of s := by
  unfold mirror_square make_square file_of rank_of
  omega

theorem mirror_make_square {f r : Int} (hf0 : 0 ≤ f) (hf : f < 8)
    (hr0 : 0 ≤ r) (hr : r < 8) :
    mirror_square (make_square f r) = make_square f (7 - r) := by
  unfold mirror_square make_square file_of rank_of
  omega

theorem mirrorPiece_involutive (p : Piece) : mirrorPiece (mirrorPiece p) = p := by
  cases p <;> rfl

theorem mirrorPiece_eq_iff (p q : Piece) :
    mirrorPiece p = q ↔ p = mirrorPiece q := by
  cases p <;> cases q <;> simp [mirrorPiece]

theorem piece_phase_value_mirror (p : Piece) :
    piece_phase_value (mirrorPiece p) = piece_phase_value p := by
  cases p <;> rfl

theorem scan_guard_white_mirror (p : Piece) :
    scan_guard_white (mirrorPiece p) = scan_guard_black p := by
  cases p <;> rfl

theorem scan_guard_black_mirror (p : Piece) :
    scan_guard_black (mirrorPiece p) = scan_guard_white p := by
  cases p <;> rfl

theorem piece_at_mirror (b : Board) {s : Int} (h0 : 0 ≤ s) (h64 : s < 64) :
    piece_at (mirrorBoard b) s = mirrorPiece (piece_at b (mirror_square s)) := by
  obtain ⟨hm0, hm64⟩ := mirror_square_range h0 h64
  rw [piece_at, dif_neg (by omega)]
  show mirrorPiece (getSq b.squares (mirror_square ((s.toNat : Nat) : Int))) = _
  have hs : ((s.toNat : Nat) : Int) = s := by omega
  rw [hs, getSq, dif_pos ⟨hm0, hm64⟩, piece_at, dif_neg (by omega)]

theorem squareList_map_mirror_perm :
    (squareList.map mirror_square).Perm squareList := by
  rw [← Multiset.coe_eq_coe]
  decide

theorem squareList_sum_mirror (g : Int → Int) :
    (squareList.map (fun s => g (mirror_square s))).sum =
      (squareList.map g).sum := by
  have h1 : squareList.map (fun s => g (mirror_square s)) =
      (squareList.map mirror_square).map g := by
    rw [List.map_map]
    rfl
  rw [h1]
  exact List.Perm.sum_eq (squareList_map_mirror_perm.map g)

theorem squareList_countP_mirror (p : Int → Bool) :
    squareList.countP (fun s => p (mirror_square s)) = squareList.countP p := by
  have h1 : squareList.countP (fun s => p (mirror_square s)) =
      (squareList.map mirror_square).countP p := by
    rw [List.countP_map]
    rfl
  rw [h1]
  exact squareList_map_mirror_perm.countP_eq p

theorem squareList_filter_mirror (p : Int → Bool) :
    ((squareList.filter (fun s => p (mirror_square s))).map
      mirror_square).Perm (squareList.filter p) := by
  have h1 : (squareList.map mirror_square).filter p =
      (squareList.filter (fun s => p (mirror_square s))).map mirror_square := by
    rw [List.filter_map]
    rfl
  rw [← h1]
  exact squareList_map_mirror_perm.filter p

theorem sumScores_mg (l : List PhaseScore) :
    (sumScores l).mg = (l.map PhaseScore.mg).sum := by
  induction l with
  | nil => rfl
  | cons x l ih => rw [sumScores_cons, List.map_cons, List.sum_cons, ← ih]; rfl

theorem sumScores_eg (l : List PhaseScore) :
    (sumScores l).eg = (l.map PhaseScore.eg).sum := by
  induction l with
  | nil => rfl
  | cons x l ih => rw [sumScores_cons, List.map_cons, List.sum_cons, ← ih]; rfl

theorem sumScores_perm {l₁ l₂ : List PhaseScore} (h : l₁.Perm l₂) :
    sumScores l₁ = sumScores l₂ := by
  ext
  · rw [sumScores_mg, sumScores_mg]
    exact List.Perm.sum_eq (h.map PhaseScore.mg)
  · rw [sumScores_eg, sumScores_eg]
    exact List.Perm.sum_eq (h.map PhaseScore.eg)

theorem piece_square_score_mirror (q : Piece) (c : Color) {s : Int}
    (h0 : 0 ≤ s) (h64 : s < 64) :
    piece_square_score (mirrorPiece q) s c =
      piece_square_score q (mirror_square s) (opposite_color c) := by
  have hm := mirror_square_involutive h0 h64
  cases c <;> cases q <;>
    simp [piece_square_score, mirrorPiece, opposite_color, hm]

theorem rank_scan_mirror (start d : Int) :
    rank_scan (7 - start) (-d) = (rank_scan start d).map (fun r => 7 - r) := by
  unfold rank_scan
  have h1 : (List.range 8).map (fun i => 7 - start + -d * ((i : Int) + 1)) =
      ((List.range 8).map (fun i => start + d * ((i : Int) + 1))).map
        (fun r => 7 - r) := by
    rw [List.map_map]
    refine List.map_congr_left (fun i _ => ?_)
    show 7 - start + -d * ((i : Int) + 1) = 7 - (start + d * ((i : Int) + 1))
    ring
  rw [h1, List.filter_map]
  refine congrArg _ (List.filter_congr (fun r _ => ?_))
  show decide (0 ≤ 7 - r ∧ 7 - r < 8) = decide (0 ≤ r ∧ r < 8)
  rw [decide_eq_decide]
  omega

theorem mem_rank_scan {start d r : Int} (h : r ∈ rank_scan start d) :
    0 ≤ r ∧ r < 8 := by
  unfold rank_scan at h
  have := List.of_mem_filter h
  exact of_decide_eq_true this

theorem list_all_congr {α : Type} {l : List α} {p q : α → Bool}
    (h : ∀ x ∈ l, p x = q x) : l.all p = l.all q := by
  induction l with
  | nil => rfl
  | cons a l ih =>
    simp only [List.all_cons, h a (by simp)]
    rw [ih (fun x hx => h x (by simp [hx]))]

theorem rank_scan_mirror' (start d d' : Int) (h : d' = -d) :
    rank_scan (7 - start) d' = (rank_scan start d).map (fun r => 7 - r) := by
  rw [h]
  exact rank_scan_mirror start d

theorem mirrorPiece_ne_iff (p q : Piece) :
    (mirrorPiece p ≠ q) ↔ (p ≠ mirrorPiece q) := by
  rw [not_iff_not]
  exact mirrorPiece_eq_iff p q

theorem is_passed_pawn_mirror (b : Board) (side : Color) {sq : Int}
    (h0 : 0 ≤ sq) (h64 : sq < 64) :
    is_passed_pawn (mirrorBoard b) (mirror_square sq) (opposite_color side) =
      is_passed_pawn b sq side := by
  have hfile := file_of_mirror h0 h64
  have hrank := rank_of_mirror h0 h64
  have hfb : 0 ≤ file_of sq ∧ file_of sq < 8 := by
    unfold file_of
    omega
  have hrb : 0 ≤ rank_of sq ∧ rank_of sq < 8 := by
    unfold rank_of
    omega
  cases side <;>
  · simp only [is_passed_pawn, opposite_color, hfile, hrank,
      reduceCtorEq, if_false, if_true, reduceIte]
    first
      | rw [rank_scan_mirror' (rank_of sq) 1 (-1) (by norm_num), List.all_map]
      | rw [rank_scan_mirror' (rank_of sq) (-1) 1 (by norm_num), List.all_map]
    refine list_all_congr (fun r hr => ?_)
    have hrr := mem_rank_scan hr
    refine list_all_congr (fun df hdf => ?_)
    have hdfv : df = -1 ∨ df = 0 ∨ df = 1 := by
      simp only [List.mem_cons, List.mem_singleton] at hdf
      tauto
    show (if file_of sq + df < 0 ∨ file_of sq + df > 7 then true
        else decide (piece_at (mirrorBoard b)
          (make_square (file_of sq + df) ((fun r => 7 - r) r)) ≠ _)) = _
    by_cases hf : file_of sq + df < 0 ∨ file_of sq + df > 7
    · rw [if_pos hf, if_pos hf]
    · rw [if_neg hf, if_neg hf]
      have hfr : 0 ≤ file_of sq + df ∧ file_of sq + df < 8 := by omega
      have hin : 0 ≤ make_square (file_of sq + df) (7 - r) ∧
          make_square (file_of sq + df) (7 - r) < 64 := by
        unfold make_square
        omega
      rw [decide_eq_decide]
      rw [piece_at_mirror b hin.1 hin.2,
        mirror_make_square hfr.1 hfr.2 (by omega) (by omega)]
      have h77 : (7 : Int) - (7 - r) = r := by ring
      rw [h77, mirrorPiece_ne_iff]
      rfl

theorem list_any_congr {α : Type} {l : List α} {p q : α → Bool}
    (h : ∀ x ∈ l, p x = q x) : l.any p = l.any q := by
  induction l with
  | nil => rfl
  | cons a l ih =>
    simp only [List.any_cons, h a (by simp)]
    rw [ih (fun x hx => h x (by simp [hx]))]

theorem is_empty_piece_mirror (q : Piece) :
    is_empty_piece (mirrorPiece q) = is_empty_piece q := by
  cases q <;> rfl

theorem is_backward_core_mirror (b : Board) (file rank d : Int)
    (own enemy : Piece) (cnt : Int)
    (hf : 0 ≤ file) (hf8 : file < 8) (hr : 0 ≤ rank) (hr8 : rank < 8) :
    is_backward_core (mirrorBoard b) file (7 - rank) (-d)
      (mirrorPiece own) (mirrorPiece enemy) cnt =
      is_backward_core b file rank d own enemy cnt := by
  simp only [is_backward_core]
  have hteq : (7 : Int) - rank + -d = 7 - (rank + d) := by ring
  rw [hteq]
  by_cases hT : rank + d < 0 ∨ rank + d > 7
  · rw [if_pos (by omega), if_pos hT]
  · rw [if_neg (show ¬(7 - (rank + d) < 0 ∨ 7 - (rank + d) > 7) by omega),
      if_neg hT]
    have htr : 0 ≤ rank + d ∧ rank + d < 8 := by omega
    have hin : 0 ≤ make_square file (7 - (rank + d)) ∧
        make_square file (7 - (rank + d)) < 64 := by
      unfold make_square
      omega
    rw [piece_at_mirror b hin.1 hin.2,
      mirror_make_square hf hf8 (by omega) (by omega),
      show (7 : Int) - (7 - (rank + d)) = rank + d by ring,
      is_empty_piece_mirror]
    by_cases hE : ¬ is_empty_piece (piece_at b (make_square file (rank + d)))
    · rw [if_pos hE, if_pos hE]
    · rw [if_neg hE, if_neg hE]
      have hBC : (([-1, 1] : List Int).all (fun df =>
          if file + df < 0 ∨ file + df > 7 then true
          else (rank_scan (7 - rank) (- -d)).all (fun r =>
            decide (piece_at (mirrorBoard b) (make_square (file + df) r) ≠
              mirrorPiece own)))) =
          (([-1, 1] : List Int).all (fun df =>
          if file + df < 0 ∨ file + df > 7 then true
          else (rank_scan rank (-d)).all (fun r =>
            decide (piece_at b (make_square (file + df) r) ≠ own)))) := by
        refine list_all_congr (fun df hdf => ?_)
        by_cases hA : file + df < 0 ∨ file + df > 7
        · rw [if_pos hA, if_pos hA]
        · rw [if_neg hA, if_neg hA]
          rw [rank_scan_mirror rank (-d), List.all_map]
          refine list_all_congr (fun r hrm => ?_)
          have hrr := mem_rank_scan hrm
          have hin2 : 0 ≤ make_square (file + df) (7 - r) ∧
              make_square (file + df) (7 - r) < 64 := by
            unfold make_square
            omega
          show decide (piece_at (mirrorBoard b)
              (make_square (file + df) (7 - r)) ≠ mirrorPiece own) = _
          rw [decide_eq_decide]
          rw [piece_at_mirror b hin2.1 hin2.2,
            mirror_make_square (by omega) (by omega) (by omega) (by omega),
            show (7 : Int) - (7 - r) = r by ring,
            mirrorPiece_ne_iff, mirrorPiece_involutive]
      rw [hBC]
      by_cases hB : ¬ (([-1, 1] : List Int).all (fun df =>
          if file + df < 0 ∨ file + df > 7 then true
          else (rank_scan rank (-d)).all (fun r =>
            decide (piece_at b (make_square (file + df) r) ≠ own))))
      · rw [if_pos hB, if_pos hB]
      · rw [if_neg hB, if_neg hB]
        have hAny : (([-1, 1] : List Int).any (fun df =>
            if file + df < 0 ∨ file + df > 7 then false
            else decide (piece_at (mirrorBoard b)
              (make_square (file + df) (7 - (rank + d))) =
                mirrorPiece enemy))) =
            (([-1, 1] : List Int).any (fun df =>
            if file + df < 0 ∨ file + df > 7 then false
            else decide (piece_at b (make_square (file + df) (rank + d)) =
              enemy))) := by
          refine list_any_congr (fun df hdf => ?_)
          by_cases hA : file + df < 0 ∨ file + df > 7
          · rw [if_pos hA, if_pos hA]
          · rw [if_neg hA, if_neg hA]
            have hin3 : 0 ≤ make_square (file + df) (7 - (rank + d)) ∧
                make_square (file + df) (7 - (rank + d)) < 64 := by
              unfold make_square
              omega
            rw [decide_eq_decide]
            rw [piece_at_mirror b hin3.1 hin3.2,
              mirror_make_square (by omega) (by omega) (by omega) (by omega),
              show (7 : Int) - (7 - (rank + d)) = rank + d by ring,
              mirrorPiece_eq_iff, mirrorPiece_involutive]
        rw [hAny]

theorem is_backward_pawn_mirror (b : Board) (side : Color)
    (opp' opp : SideEval) (hc : opp'.pawnFileCounts = opp.pawnFileCounts)
    {sq : Int} (h0 : 0 ≤ sq) (h64 : sq < 64) :
    is_backward_pawn (mirrorBoard b) (mirror_square sq) (opposite_color side)
      opp' = is_backward_pawn b sq side opp := by
  have hfile := file_of_mirror h0 h64
  have hrank := rank_of_mirror h0 h64
  have hfb : 0 ≤ file_of sq ∧ file_of sq < 8 := by
    unfold file_of
    omega
  have hrb : 0 ≤ rank_of sq ∧ rank_of sq < 8 := by
    unfold rank_of
    omega
  rw [is_backward_pawn, is_backward_pawn, hfile, hrank, hc]
  cases side
  · exact is_backward_core_mirror b (file_of sq) (rank_of sq) 1
      Piece.WhitePawn Piece.BlackPawn _ hfb.1 hfb.2 hrb.1 hrb.2
  · exact is_backward_core_mirror b (file_of sq) (rank_of sq) (-1)
      Piece.BlackPawn Piece.WhitePawn _ hfb.1 hfb.2 hrb.1 hrb.2

theorem scan_base_mirror_w (b : Board) {s : Int} (h0 : 0 ≤ s) (h64 : s < 64) :
    scan_base (mirrorBoard b) scan_guard_white Color.White s =
      scan_base b scan_guard_black Color.Black (mirror_square s) := by
  rw [scan_base, scan_base, piece_at_mirror b h0 h64, scan_guard_white_mirror]
  by_cases hg : scan_guard_black (piece_at b (mirror_square s))
  · rw [if_pos hg, if_pos hg]
    exact piece_square_score_mirror _ Color.White h0 h64
  · rw [if_neg hg, if_neg hg]

theorem scan_base_mirror_b (b : Board) {s : Int} (h0 : 0 ≤ s) (h64 : s < 64) :
    scan_base (mirrorBoard b) scan_guard_black Color.Black s =
      scan_base b scan_guard_white Color.White (mirror_square s) := by
  rw [scan_base, scan_base, piece_at_mirror b h0 h64, scan_guard_black_mirror]
  by_cases hg : scan_guard_white (piece_at b (mirror_square s))
  · rw [if_pos hg, if_pos hg]
    exact piece_square_score_mirror _ Color.Black h0 h64
  · rw [if_neg hg, if_neg hg]

theorem sumScores_mirror (F : Int → PhaseScore) :
    sumScores (squareList.map (fun s => F (mirror_square s))) =
      sumScores (squareList.map F) := by
  ext
  · rw [sumScores_mg, sumScores_mg, List.map_map, List.map_map]
    exact squareList_sum_mirror (fun s => (F s).mg)
  · rw [sumScores_eg, sumScores_eg, List.map_map, List.map_map]
    exact squareList_sum_mirror (fun s => (F s).eg)

theorem scan_count_mirror (b : Board) (p : Piece) (f : Int) {s : Int}
    (h0 : 0 ≤ s) (h64 : s < 64) :
    scan_count (mirrorBoard b) p s f =
      scan_count b (mirrorPiece p) (mirror_square s) f := by
  rw [scan_count, scan_count, piece_at_mirror b h0 h64,
    file_of_mirror h0 h64]
  by_cases hc : piece_at b (mirror_square s) = mirrorPiece p ∧ f = file_of s
  · rw [if_pos ⟨(mirrorPiece_eq_iff _ _).mpr hc.1, hc.2⟩, if_pos hc]
  · rw [if_neg ?_, if_neg hc]
    intro hcon
    exact hc ⟨(mirrorPiece_eq_iff _ _).mp hcon.1, hcon.2⟩

theorem scan_list_mirror (b : Board) (p : Piece) :
    (squareList.filter
      (fun s => decide (piece_at (mirrorBoard b) s = p))).Perm
      ((squareList.filter
        (fun s => decide (piece_at b s = mirrorPiece p))).map mirror_square) := by
  have hpt : ∀ s ∈ squareList, decide (piece_at (mirrorBoard b) s = p) =
      decide (piece_at b (mirror_square s) = mirrorPiece p) := by
    intro s hs
    obtain ⟨h0, h64⟩ := mem_squareList hs
    rw [piece_at_mirror b h0 h64, decide_eq_decide]
    exact mirrorPiece_eq_iff _ _
  rw [List.filter_congr hpt]
  have h2 := squareList_filter_mirror
    (fun u => decide (piece_at b u = mirrorPiece p))
  have h3 := h2.map mirror_square
  have h4 : ((squareList.filter (fun s =>
      decide (piece_at b (mirror_square s) = mirrorPiece p))).map
        mirror_square).map mirror_square =
      squareList.filter (fun s =>
        decide (piece_at b (mirror_square s) = mirrorPiece p)) := by
    rw [List.map_map]
    have := List.map_congr_left (l := squareList.filter (fun s =>
        decide (piece_at b (mirror_square s) = mirrorPiece p)))
      (f := mirror_square ∘ mirror_square) (g := id) ?_
    · rw [this, List.map_id]
    · intro x hx
      obtain ⟨h0, h64⟩ := mem_squareList (List.mem_of_mem_filter hx)
      exact mirror_square_involutive h0 h64
  rw [h4] at h3
  exact h3

theorem king_scan_getLastD (b : Board) (p : Piece) (L : List Int) (k0 : Int) :
    king_scan b p L k0 =
      (L.filter (fun s => decide (piece_at b s = p))).getLastD k0 := by
  induction L generalizing k0 with
  | nil => rfl
  | cons s L ih =>
    rw [king_scan, List.foldl_cons, List.filter_cons]
    by_cases hp : piece_at b s = p
    · simp only [hp, decide_True, if_true, List.getLastD_cons]
      exact ih s
    · simp only [hp, decide_False, if_false]
      exact ih k0

theorem scan_king_mirror (b : Board) (p : Piece)
    (h1 : (squareList.filter
      (fun s => decide (piece_at b s = mirrorPiece p))).length ≤ 1) :
    king_scan (mirrorBoard b) p squareList (-1) =
      (if king_scan b (mirrorPiece p) squareList (-1) = -1 then -1
       else mirror_square (king_scan b (mirrorPiece p) squareList (-1))) := by
  rw [king_scan_getLastD, king_scan_getLastD]
  have hperm := scan_list_mirror b p
  rcases hL : squareList.filter (fun s => decide (piece_at b s = mirrorPiece p))
    with _ | ⟨u, rest⟩
  · rw [hL] at hperm
    have hnil : squareList.filter
        (fun s => decide (piece_at (mirrorBoard b) s = p)) = [] := by
      have := hperm
      rw [List.map_nil] at this
      exact this.eq_nil
    rw [hnil]
    simp [List.getLastD]
  · rw [hL] at hperm h1
    have hrest : rest = [] := by
      simp only [List.length_cons] at h1
      exact List.eq_nil_of_length_eq_zero (by omega)
    subst hrest
    have hu : squareList.filter
        (fun s => decide (piece_at (mirrorBoard b) s = p)) =
          [mirror_square u] := by
      rw [List.map_cons, List.map_nil] at hperm
      exact List.perm_singleton.mp hperm
    have humem : u ∈ squareList := by
      have : u ∈ squareList.filter
          (fun s => decide (piece_at b s = mirrorPiece p)) := by
        rw [hL]
        exact List.mem_cons_self u []
      exact List.mem_of_mem_filter this
    obtain ⟨hu0, hu64⟩ := mem_squareList humem
    rw [hu]
    rw [if_neg (by simp [List.getLastD]; omega)]
    simp [List.getLastD]

/-- Correspondence between a `SideEval` built from the mirrored board and
the opposite side's `SideEval` of the original: equal base and file counts,
piece lists that are permutations of the mirrored originals, mirrored king
square, plus the range facts the downstream lemmas need. -/
@[reducible] def MirrorSE (x y : SideEval) : Prop :=
  x.base = y.base ∧
  x.pawnFileCounts = y.pawnFileCounts ∧
  x.pawnSquares.Perm (y.pawnSquares.map mirror_square) ∧
  x.knightSquares.Perm (y.knightSquares.map mirror_square) ∧
  x.bishopSquares.Perm (y.bishopSquares.map mirror_square) ∧
  x.rookSquares.Perm (y.rookSquares.map mirror_square) ∧
  x.queenSquares.Perm (y.queenSquares.map mirror_square) ∧
  x.kingSquare =
    (if y.kingSquare = -1 then -1 else mirror_square y.kingSquare) ∧
  (y.kingSquare = -1 ∨ (0 ≤ y.kingSquare ∧ y.kingSquare < 64)) ∧
  (∀ s ∈ y.pawnSquares, 0 ≤ s ∧ s < 64) ∧
  (∀ s ∈ y.knightSquares, 0 ≤ s ∧ s < 64) ∧
  (∀ s ∈ y.bishopSquares, 0 ≤ s ∧ s < 64) ∧
  (∀ s ∈ y.rookSquares, 0 ≤ s ∧ s < 64) ∧
  (∀ s ∈ y.queenSquares, 0 ≤ s ∧ s < 64)

theorem filter_squareList_bounds (b : Board) (p : Piece) :
    ∀ s ∈ squareList.filter (fun s => decide (piece_at b s = p)),
      0 ≤ s ∧ s < 64 :=
  fun s hs => mem_squareList (List.mem_of_mem_filter hs)

theorem scan_base_sum_mirror_w (b : Board) :
    sumScores (squareList.map
      (scan_base (mirrorBoard b) scan_guard_white Color.White)) =
      sumScores (squareList.map (scan_base b scan_guard_black Color.Black)) := by
  rw [List.map_congr_left (fun s hs =>
    scan_base_mirror_w b (mem_squareList hs).1 (mem_squareList hs).2)]
  exact sumScores_mirror _

theorem scan_base_sum_mirror_b (b : Board) :
    sumScores (squareList.map
      (scan_base (mirrorBoard b) scan_guard_black Color.Black)) =
      sumScores (squareList.map (scan_base b scan_guard_white Color.White)) := by
  rw [List.map_congr_left (fun s hs =>
    scan_base_mirror_b b (mem_squareList hs).1 (mem_squareList hs).2)]
  exact sumScores_mirror _

theorem scan_count_sum_mirror (b : Board) (p : Piece) (f : Int) :
    (squareList.map (fun s => scan_count (mirrorBoard b) p s f)).sum =
      (squareList.map (fun s => scan_count b (mirrorPiece p) s f)).sum := by
  rw [List.map_congr_left (fun s hs =>
    scan_count_mirror b p f (mem_squareList hs).1 (mem_squareList hs).2)]
  exact squareList_sum_mirror (fun u => scan_count b (mirrorPiece p) u f)

theorem scan_phase_sum_mirror (b : Board) :
    (squareList.map
      (fun s => piece_phase_value (piece_at (mirrorBoard b) s))).sum =
      (squareList.map (fun s => piece_phase_value (piece_at b s))).sum := by
  rw [List.map_congr_left (fun s hs => by
    rw [piece_at_mirror b (mem_squareList hs).1 (mem_squareList hs).2,
      piece_phase_value_mirror])]
  exact squareList_sum_mirror (fun u => piece_phase_value (piece_at b u))

theorem getLastD_mem_cons (l : List Int) (u : Int) :
    (u :: l).getLastD (-1) ∈ u :: l := by
  induction l generalizing u with
  | nil => simp [List.getLastD]
  | cons v rest ih =>
    rw [List.getLastD_cons]
    exact List.mem_cons_of_mem u (ih v)

theorem king_scan_range (b : Board) (p : Piece) :
    king_scan b p squareList (-1) = -1 ∨
      (0 ≤ king_scan b p squareList (-1) ∧
        king_scan b p squareList (-1) < 64) := by
  rw [king_scan_getLastD]
  rcases hL : squareList.filter (fun s => decide (piece_at b s = p))
    with _ | ⟨u, rest⟩
  · left
    rfl
  · right
    have hmem : (u :: rest).getLastD (-1) ∈ u :: rest := getLastD_mem_cons rest u
    have hmem2 : (u :: rest).getLastD (-1) ∈
        squareList.filter (fun s => decide (piece_at b s = p)) := by
      rw [hL]
      exact hmem
    exact mem_squareList (List.mem_of_mem_filter hmem2)

theorem eval_scan_mirror (b : Board)
    (hwk : (squareList.filter
      (fun s => decide (piece_at b s = Piece.WhiteKing))).length ≤ 1)
    (hbk : (squareList.filter
      (fun s => decide (piece_at b s = Piece.BlackKing))).length ≤ 1) :
    MirrorSE (eval_scan (mirrorBoard b)).1 (eval_scan b).2.1 ∧
    MirrorSE (eval_scan (mirrorBoard b)).2.1 (eval_scan b).1 ∧
    (eval_scan (mirrorBoard b)).2.2 = (eval_scan b).2.2 := by
  rw [eval_scan, eval_scan, scan_spec, scan_spec]
  simp only [MirrorSE, scan_closed, List.nil_append]
  refine ⟨⟨?_, ?_, ?_, ?_, ?_, ?_, ?_, ?_, ?_, ?_, ?_, ?_, ?_, ?_⟩,
    ⟨?_, ?_, ?_, ?_, ?_, ?_, ?_, ?_, ?_, ?_, ?_, ?_, ?_, ?_⟩, ?_⟩
  · exact congrArg _ (scan_base_sum_mirror_w b)
  · funext f
    exact congrArg _ (scan_count_sum_mirror b Piece.WhitePawn f)
  · exact scan_list_mirror b Piece.WhitePawn
  · exact scan_list_mirror b Piece.WhiteKnight
  · exact scan_list_mirror b Piece.WhiteBishop
  · exact scan_list_mirror b Piece.WhiteRook
  · exact scan_list_mirror b Piece.WhiteQueen
  · exact scan_king_mirror b Piece.WhiteKing hbk
  · exact king_scan_range b Piece.BlackKing
  · exact filter_squareList_bounds b Piece.BlackPawn
  · exact filter_squareList_bounds b Piece.BlackKnight
  · exact filter_squareList_bounds b Piece.BlackBishop
  · exact filter_squareList_bounds b Piece.BlackRook
  · exact filter_squareList_bounds b Piece.BlackQueen
  · exact congrArg _ (scan_base_sum_mirror_b b)
  · funext f
    exact congrArg _ (scan_count_sum_mirror b Piece.BlackPawn f)
  · exact scan_list_mirror b Piece.BlackPawn
  · exact scan_list_mirror b Piece.BlackKnight
  · exact scan_list_mirror b Piece.BlackBishop
  · exact scan_list_mirror b Piece.BlackRook
  · exact scan_list_mirror b Piece.BlackQueen
  · exact scan_king_mirror b Piece.BlackKing hwk
  · exact king_scan_range b Piece.WhiteKing
  · exact filter_squareList_bounds b Piece.WhitePawn
  · exact filter_squareList_bounds b Piece.WhiteKnight
  · exact filter_squareList_bounds b Piece.WhiteBishop
  · exact filter_squareList_bounds b Piece.WhiteRook
  · exact filter_squareList_bounds b Piece.WhiteQueen
  · exact congrArg _ (scan_phase_sum_mirror b)

theorem list_countP_congr {α : Type} {l : List α} {p q : α → Bool}
    (h : ∀ x ∈ l, p x = q x) : l.countP p = l.countP q := by
  induction l with
  | nil => rfl
  | cons a l ih =>
    rw [List.countP_cons, List.countP_cons, h a (by simp),
      ih (fun x hx => h x (by simp [hx]))]

theorem sum_perm_map_mirror {l' l : List Int}
    (hp : l'.Perm (l.map mirror_square)) (g' g : Int → Int)
    (hpt : ∀ s ∈ l, g' (mirror_square s) = g s) :
    (l'.map g').sum = (l.map g).sum := by
  have h1 := List.Perm.sum_eq (hp.map g')
  rw [List.map_map] at h1
  have h2 : List.map (g' ∘ mirror_square) l = List.map g l :=
    List.map_congr_left (fun s hs => hpt s hs)
  rw [h2] at h1
  exact h1

theorem sumScores_perm_map_mirror {l' l : List Int}
    (hp : l'.Perm (l.map mirror_square)) (F' F : Int → PhaseScore)
    (hpt : ∀ s ∈ l, F' (mirror_square s) = F s) :
    sumScores (l'.map F') = sumScores (l.map F) := by
  have h1 := hp.map F'
  rw [List.map_map] at h1
  have h2 : List.map (F' ∘ mirror_square) l = List.map F l :=
    List.map_congr_left (fun s hs => hpt s hs)
  rw [h2] at h1
  exact sumScores_perm h1

theorem is_isolated_pawn_congr {us' us : SideEval}
    (h : us'.pawnFileCounts = us.pawnFileCounts) (f : Int) :
    is_isolated_pawn us' f = is_isolated_pawn us f := by
  rw [is_isolated_pawn, is_isolated_pawn, h]

theorem pawn_entry_mirror (b : Board) (side : Color)
    {us' them' us them : SideEval}
    (husc : us'.pawnFileCounts = us.pawnFileCounts)
    (hthemc : them'.pawnFileCounts = them.pawnFileCounts)
    {sq : Int} (h0 : 0 ≤ sq) (h64 : sq < 64) :
    pawn_entry_score (mirrorBoard b) (opposite_color side) us' them'
      (mirror_square sq) = pawn_entry_score b side us them sq := by
  have hrel : (7 : Int) - (7 - rank_of sq) = rank_of sq := by ring
  have hpass := is_passed_pawn_mirror b side h0 h64
  have hback := is_backward_pawn_mirror b side them' them hthemc h0 h64
  have hiso := is_isolated_pawn_congr husc
  cases side <;>
    simp only [opposite_color] at hpass hback <;>
    simp only [pawn_entry_score, opposite_color, reduceCtorEq, reduceIte,
      if_true, if_false, file_of_mirror h0 h64, rank_of_mirror h0 h64, hrel,
      hpass, hback, hiso]

theorem pawn_structure_mirror (b : Board) (side : Color)
    {us' them' us them : SideEval}
    (hus : MirrorSE us' us) (hthem : MirrorSE them' them) :
    pawn_structure_score (mirrorBoard b) (opposite_color side) us' them' =
      pawn_structure_score b side us them := by
  obtain ⟨-, husc, huspl, -, -, -, -, -, -, huspb, -, -, -, -⟩ := hus
  obtain ⟨-, hthemc, -, -, -, -, -, -, -, -, -, -, -, -⟩ := hthem
  rw [pawn_structure_score, pawn_structure_score]
  congr 1
  · have hd : ∀ f, doubled_file_penalty us' f = doubled_file_penalty us f := by
      intro f
      rw [doubled_file_penalty, doubled_file_penalty, husc]
    rw [List.map_congr_left (fun f _ => hd f)]
  · exact sumScores_perm_map_mirror huspl _ _
      (fun sq hsq => pawn_entry_mirror b side husc hthemc
        (huspb sq hsq).1 (huspb sq hsq).2)

theorem knight_activity_mirror (side : Color) {sq : Int} (h0 : 0 ≤ sq)
    (h64 : sq < 64) :
    knight_activity (opposite_color side) (mirror_square sq) =
      knight_activity side sq := by
  have hrel : (7 : Int) - (7 - rank_of sq) = rank_of sq := by ring
  cases side <;>
    simp only [knight_activity, opposite_color, reduceCtorEq, reduceIte,
      if_true, if_false, file_of_mirror h0 h64, rank_of_mirror h0 h64, hrel]

theorem bishop_activity_mirror (side : Color) {sq : Int} (h0 : 0 ≤ sq)
    (h64 : sq < 64) :
    bishop_activity (opposite_color side) (mirror_square sq) =
      bishop_activity side sq := by
  have hrel : (7 : Int) - (7 - rank_of sq) = rank_of sq := by ring
  cases side <;>
    simp only [bishop_activity, opposite_color, reduceCtorEq, reduceIte,
      if_true, if_false, rank_of_mirror h0 h64, hrel]

theorem rook_activity_mirror (side : Color) {us' them' us them : SideEval}
    (husc : us'.pawnFileCounts = us.pawnFileCounts)
    (hthemc : them'.pawnFileCounts = them.pawnFileCounts)
    {sq : Int} (h0 : 0 ≤ sq) (h64 : sq < 64) :
    rook_activity (opposite_color side) us' them' (mirror_square sq) =
      rook_activity side us them sq := by
  have hrel : (7 : Int) - (7 - rank_of sq) = rank_of sq := by ring
  cases side <;>
    simp only [rook_activity, opposite_color, reduceCtorEq, reduceIte,
      if_true, if_false, file_of_mirror h0 h64, rank_of_mirror h0 h64, hrel,
      husc, hthemc]

theorem queen_activity_mirror (side : Color) {sq : Int} (h0 : 0 ≤ sq)
    (h64 : sq < 64) :
    queen_activity (opposite_color side) (mirror_square sq) =
      queen_activity side sq := by
  have hrel : (7 : Int) - (7 - rank_of sq) = rank_of sq := by ring
  cases side <;>
    simp only [queen_activity, opposite_color, reduceCtorEq, reduceIte,
      if_true, if_false, rank_of_mirror h0 h64, hrel]

theorem activity_mirror (side : Color) {us' them' us them : SideEval}
    (hus : MirrorSE us' us) (hthem : MirrorSE them' them) :
    activity_score (opposite_color side) us' them' =
      activity_score side us them := by
  obtain ⟨-, husc, -, husnl, husbl, husrl, husql, -, -, -, husnb, husbb,
    husrb, husqb⟩ := hus
  obtain ⟨-, hthemc, -, -, -, -, -, -, -, -, -, -, -, -⟩ := hthem
  rw [activity_score, activity_score]
  rw [sumScores_perm_map_mirror husnl _ _
    (fun sq hsq => knight_activity_mirror side (husnb sq hsq).1
      (husnb sq hsq).2)]
  rw [sum_perm_map_mirror husbl _ _
    (fun sq hsq => bishop_activity_mirror side (husbb sq hsq).1
      (husbb sq hsq).2)]
  rw [sumScores_perm_map_mirror husrl _ _
    (fun sq hsq => rook_activity_mirror side husc hthemc (husrb sq hsq).1
      (husrb sq hsq).2)]
  rw [sum_perm_map_mirror husql _ _
    (fun sq hsq => queen_activity_mirror side (husqb sq hsq).1
      (husqb sq hsq).2)]

theorem threat_penalty_mirror (kf kr : Int) {l' l : List Int}
    (hp : l'.Perm (l.map mirror_square)) (hb : ∀ s ∈ l, 0 ≤ s ∧ s < 64)
    (pen : Int) :
    threat_penalty kf (7 - kr) l' pen = threat_penalty kf kr l pen := by
  rw [threat_penalty, threat_penalty, hp.countP_eq, List.countP_map]
  congr 2
  refine list_countP_congr (fun s hs => ?_)
  obtain ⟨h0, h64⟩ := hb s hs
  show decide (max |file_of (mirror_square s) - kf|
      |rank_of (mirror_square s) - (7 - kr)| ≤ 2) = _
  rw [file_of_mirror h0 h64, rank_of_mirror h0 h64, decide_eq_decide,
    show (7 : Int) - rank_of s - (7 - kr) = -(rank_of s - kr) by ring,
    abs_neg]

theorem shield_core_mirror (b : Board) (kf kr d d' : Int) (own : Piece)
    (hd' : d' = -d) (hkf : 0 ≤ kf) (hkf8 : kf < 8) (hkr : 0 ≤ kr)
    (hkr8 : kr < 8) :
    (([-1, 0, 1] : List Int).countP (fun df =>
      if kf + df < 0 ∨ kf + df > 7 then false
      else ([1, 2] : List Int).any (fun step =>
        if 7 - kr + d' * step < 0 ∨ 7 - kr + d' * step > 7 then false
        else decide (piece_at (mirrorBoard b)
          (make_square (kf + df) (7 - kr + d' * step)) = mirrorPiece own)))) =
    (([-1, 0, 1] : List Int).countP (fun df =>
      if kf + df < 0 ∨ kf + df > 7 then false
      else ([1, 2] : List Int).any (fun step =>
        if kr + d * step < 0 ∨ kr + d * step > 7 then false
        else decide (piece_at b
          (make_square (kf + df) (kr + d * step)) = own)))) := by
  subst hd'
  refine list_countP_congr (fun df hdf => ?_)
  by_cases hA : kf + df < 0 ∨ kf + df > 7
  · rw [if_pos hA, if_pos hA]
  · rw [if_neg hA, if_neg hA]
    refine list_any_congr (fun step hstep => ?_)
    have hre : (7 : Int) - kr + -d * step = 7 - (kr + d * step) := by ring
    rw [hre]
    by_cases hR : kr + d * step < 0 ∨ kr + d * step > 7
    · rw [if_pos (by omega), if_pos hR]
    · rw [if_neg (by omega), if_neg hR]
      have hin : 0 ≤ make_square (kf + df) (7 - (kr + d * step)) ∧
          make_square (kf + df) (7 - (kr + d * step)) < 64 := by
        unfold make_square
        omega
      rw [decide_eq_decide, piece_at_mirror b hin.1 hin.2,
        mirror_make_square (by omega) (by omega) (by omega) (by omega),
        show (7 : Int) - (7 - (kr + d * step)) = kr + d * step by ring,
        mirrorPiece_eq_iff, mirrorPiece_involutive]

theorem king_safety_mirror (b : Board) (side : Color)
    {us' them' us them : SideEval}
    (hus : MirrorSE us' us) (hthem : MirrorSE them' them) (fm : Int) :
    king_safety_score (mirrorBoard b) (opposite_color side) us' them' fm =
      king_safety_score b side us them fm := by
  obtain ⟨-, husc, -, -, -, -, -, husk, huskr, -, -, -, -, -⟩ := hus
  obtain ⟨-, hthemc, -, hthemnl, hthembl, hthemrl, hthemql, -, -, -,
    hthemnb, hthembb, hthemrb, hthemqb⟩ := hthem
  by_cases hks : us.kingSquare = -1
  · have hks' : us'.kingSquare = -1 := by rw [husk, if_pos hks]
    rw [king_safety_score, king_safety_score, if_pos hks', if_pos hks]
  · have hkr : 0 ≤ us.kingSquare ∧ us.kingSquare < 64 :=
      huskr.resolve_left hks
    have husk' : us'.kingSquare = mirror_square us.kingSquare := by
      rw [husk, if_neg hks]
    obtain ⟨hm0, hm64⟩ := mirror_square_range hkr.1 hkr.2
    have hksm : ¬ (mirror_square us.kingSquare = -1) := by omega
    have hkf : 0 ≤ file_of us.kingSquare ∧ file_of us.kingSquare < 8 := by
      unfold file_of
      omega
    have hkrk : 0 ≤ rank_of us.kingSquare ∧ rank_of us.kingSquare < 8 := by
      unfold rank_of
      omega
    have hfile := file_of_mirror hkr.1 hkr.2
    have hrank := rank_of_mirror hkr.1 hkr.2
    have hthn := threat_penalty_mirror (file_of us.kingSquare)
      (rank_of us.kingSquare) hthemnl hthemnb 6
    have hthb := threat_penalty_mirror (file_of us.kingSquare)
      (rank_of us.kingSquare) hthembl hthembb 5
    have hthr := threat_penalty_mirror (file_of us.kingSquare)
      (rank_of us.kingSquare) hthemrl hthemrb 7
    have hthq := threat_penalty_mirror (file_of us.kingSquare)
      (rank_of us.kingSquare) hthemql hthemqb 9
    have hc1 : (mirror_square us.kingSquare = make_square 6 7) ↔
        (us.kingSquare = make_square 6 0) := by
      unfold mirror_square make_square file_of rank_of
      omega
    have hc2 : (mirror_square us.kingSquare = make_square 2 7) ↔
        (us.kingSquare = make_square 2 0) := by
      unfold mirror_square make_square file_of rank_of
      omega
    have hc3 : (mirror_square us.kingSquare = make_square 6 0) ↔
        (us.kingSquare = make_square 6 7) := by
      unfold mirror_square make_square file_of rank_of
      omega
    have hc4 : (mirror_square us.kingSquare = make_square 2 0) ↔
        (us.kingSquare = make_square 2 7) := by
      unfold mirror_square make_square file_of rank_of
      omega
    have hbr1 : ((7 : Int) - rank_of us.kingSquare = 7) ↔
        (rank_of us.kingSquare = 0) := by omega
    have hbr2 : ((7 : Int) - rank_of us.kingSquare = 0) ↔
        (rank_of us.kingSquare = 7) := by omega
    have hshW := shield_core_mirror b (file_of us.kingSquare)
      (rank_of us.kingSquare) 1 (-1) Piece.WhitePawn (by norm_num)
      hkf.1 hkf.2 hkrk.1 hkrk.2
    have hshB := shield_core_mirror b (file_of us.kingSquare)
      (rank_of us.kingSquare) (-1) 1 Piece.BlackPawn (by norm_num)
      hkf.1 hkf.2 hkrk.1 hkrk.2
    simp only [mirrorPiece] at hshW hshB
    cases side
    · simp only [opposite_color, king_safety_score, husk', hksm, hks,
        if_false, reduceCtorEq, reduceIte, hfile, hrank, husc, hthemc,
        hshW, hthn, hthb, hthr, hthq, hc1, hc2, hbr1, false_and, true_and,
        false_or, or_false]
    · simp only [opposite_color, king_safety_score, husk', hksm, hks,
        if_false, reduceCtorEq, reduceIte, hfile, hrank, husc, hthemc,
        hshB, hthn, hthb, hthr, hthq, hc3, hc4, hbr2, false_and, true_and,
        false_or, or_false]

theorem tdiv_swap_neg (a b c d pc q m : Int) :
    ((a - b) * pc + (c - d) * q).tdiv m =
      -(((b - a) * pc + (d - c) * q).tdiv m) := by
  rw [← Int.neg_tdiv]
  congr 1
  ring

theorem evaluate_mirror (b : Board)
    (hwk : (squareList.filter
      (fun s => decide (piece_at b s = Piece.WhiteKing))).length ≤ 1)
    (hbk : (squareList.filter
      (fun s => decide (piece_at b s = Piece.BlackKing))).length ≤ 1) :
    evaluate (mirrorBoard b) = evaluate b := by
  obtain ⟨hw, hb2, hph⟩ := eval_scan_mirror b hwk hbk
  have hpw : pawn_structure_score (mirrorBoard b) Color.White
      (eval_scan (mirrorBoard b)).1 (eval_scan (mirrorBoard b)).2.1 =
      pawn_structure_score b Color.Black (eval_scan b).2.1 (eval_scan b).1 := by
    have := pawn_structure_mirror b Color.Black hw hb2
    simpa [opposite_color] using this
  have hpb : pawn_structure_score (mirrorBoard b) Color.Black
      (eval_scan (mirrorBoard b)).2.1 (eval_scan (mirrorBoard b)).1 =
      pawn_structure_score b Color.White (eval_scan b).1 (eval_scan b).2.1 := by
    have := pawn_structure_mirror b Color.White hb2 hw
    simpa [opposite_color] using this
  have hkw : king_safety_score (mirrorBoard b) Color.White
      (eval_scan (mirrorBoard b)).1 (eval_scan (mirrorBoard b)).2.1
      (mirrorBoard b).state.fullmoveNumber =
      king_safety_score b Color.Black (eval_scan b).2.1 (eval_scan b).1
        b.state.fullmoveNumber := by
    have := king_safety_mirror b Color.Black hw hb2 b.state.fullmoveNumber
    simpa [opposite_color] using this
  have hkb : king_safety_score (mirrorBoard b) Color.Black
      (eval_scan (mirrorBoard b)).2.1 (eval_scan (mirrorBoard b)).1
      (mirrorBoard b).state.fullmoveNumber =
      king_safety_score b Color.White (eval_scan b).1 (eval_scan b).2.1
        b.state.fullmoveNumber := by
    have := king_safety_mirror b Color.White hb2 hw b.state.fullmoveNumber
    simpa [opposite_color] using this
  have haw : activity_score Color.White (eval_scan (mirrorBoard b)).1
      (eval_scan (mirrorBoard b)).2.1 =
      activity_score Color.Black (eval_scan b).2.1 (eval_scan b).1 := by
    have := activity_mirror Color.Black hw hb2
    simpa [opposite_color] using this
  have hab : activity_score Color.Black (eval_scan (mirrorBoard b)).2.1
      (eval_scan (mirrorBoard b)).1 =
      activity_score Color.White (eval_scan b).1 (eval_scan b).2.1 := by
    have := activity_mirror Color.White hb2 hw
    simpa [opposite_color] using this
  have hside : (mirrorBoard b).state.sideToMove =
      opposite_color b.state.sideToMove := rfl
  simp only [evaluate, hpw, hpb, hkw, hkb, haw, hab, hw.1, hb2.1, hph,
    hside]
  cases hstm : b.state.sideToMove <;>
    simp only [hstm, opposite_color, reduceCtorEq, reduceIte, if_true,
      if_false] <;>
    rw [tdiv_swap_neg] <;>
    try rw [neg_neg]

/-- C7 counterexample: mirroring does not negate `evaluate` (the value is
preserved, and nonzero here). -/
theorem mirror_eval_not_negated :
    ¬ (evaluate (mirrorBoard mirrorEvalBoard) = -(evaluate mirrorEvalBoard)) := by
  decide

/-- C7: for every position with at most one king per side, mirroring the
board vertically, swapping all piece colors and swapping the side to move
preserves the (side-to-move relative) evaluation:
`evaluate (mirrorBoard b) = evaluate b`. -/
theorem evaluate_mirror_symmetric (b : Board)
    (hwk : (squareList.filter
      (fun s => decide (piece_at b s = Piece.WhiteKing))).length ≤ 1)
    (hbk : (squareList.filter
      (fun s => decide (piece_at b s = Piece.BlackKing))).length ≤ 1) :
    evaluate (mirrorBoard b) = evaluate b :=
  evaluate_mirror b hwk hbk

theorem evaluate_mirror_symmetric_witness :
    (squareList.filter (fun s =>
      decide (piece_at mirrorEvalBoard s = Piece.WhiteKing))).length ≤ 1 ∧
    (squareList.filter (fun s =>
      decide (piece_at mirrorEvalBoard s = Piece.BlackKing))).length ≤ 1 ∧
    evaluate (mirrorBoard mirrorEvalBoard) = evaluate mirrorEvalBoard :=
  ⟨by decide, by decide,
   evaluate_mirror_symmetric mirrorEvalBoard (by decide) (by decide)⟩

/-- C3: at a `search_impl` node of positive depth whose position has no
legal moves, provided the transposition-table probe misses and the
null-move step does not cut off (in particular whenever the side to move
is in check, or depth < 3, or it has no non-pawn material): if the side to
move is in check the node returns −(MateValue − ply), else it returns 0. -/
theorem search_impl_no_legal_moves (Z : ZobristTables) (fuel : Nat)
    (b : Board) (depth alpha beta ply : Int) (st : SearchState) (prev : Move)
    (hdepth : 1 ≤ depth)
    (hnl : generate_legal_moves Z b = [])
    (hprobe : (probe_tt st.tt (zobrist_key b) depth alpha beta ply).2 = none)
    (hnull : is_in_check b (side_to_move b) = true ∨
      depth < 3 ∨ has_non_pawn_material b (side_to_move b) = false ∨
      -(search_impl Z fuel (make_null_move Z b) (depth - 3) (-beta)
          (-beta + 1) { st with nodes := st.nodes + 1 } (ply + 1) {}).1 <
        beta) :
    (search_impl Z (fuel + 1) b depth alpha beta st ply prev).1 =
      if is_in_check b (side_to_move b) then -(MateValue - ply) else 0 := by
  rw [search_impl]
  rw [if_neg (show ¬(depth ≤ 0) by omega)]
  simp only [hprobe, hnl]
  by_cases hic : is_in_check b (side_to_move b) = true
  · simp only [hic]
    rw [if_neg (show ¬(¬True ∧ depth ≥ 3 ∧
      has_non_pawn_material b (side_to_move b) = true) by simp)]
    simp
    ring
  · simp only [Bool.not_eq_true] at hic
    simp only [hic]
    by_cases hcond : depth ≥ 3 ∧ has_non_pawn_material b (side_to_move b) = true
    · have hns : -(search_impl Z fuel (make_null_move Z b) (depth - 3)
          (-beta) (-beta + 1) { st with nodes := st.nodes + 1 } (ply + 1)
            {}).1 < beta := by
        rcases hnull with h | h | h | h
        · rw [h] at hic
          exact absurd hic (by simp)
        · exact absurd h (by omega)
        · rw [h] at hcond
          exact absurd hcond (by simp)
        · exact h
      rw [if_pos (show ¬(false = true) ∧ depth ≥ 3 ∧
          has_non_pawn_material b (side_to_move b) = true from
        ⟨by simp, hcond.1, hcond.2⟩)]
      simp [show ¬(-(search_impl Z fuel (make_null_move Z b) (depth - 3)
        (-beta) (-beta + 1) { st with nodes := st.nodes + 1 } (ply + 1)
          {}).1 ≥ beta) by omega]
    · rw [if_neg (show ¬(¬(false = true) ∧ depth ≥ 3 ∧
          has_non_pawn_material b (side_to_move b) = true) from
        fun hc => hcond ⟨hc.2.1, hc.2.2⟩)]
      simp

/-- C3 counterexample: at the stalemate position (no legal moves, not in
check), a depth-1 node whose transposition-table slot holds a valid Exact
entry for the position's key returns that entry's score instead of 0. -/
theorem search_stalemate_counterexample :
    generate_legal_moves Z0 stalemateBoard = [] ∧
    is_in_check stalemateBoard (side_to_move stalemateBoard) = false ∧
    (search_impl Z0 2 stalemateBoard 1 (-InfinityScore) InfinityScore
      { tt := poisonedTT } 0 {}).1 ≠ 0 := by
  refine ⟨by decide, by decide, by decide⟩

theorem search_impl_no_legal_moves_witness :
    (1 : Int) ≤ 1 ∧
    generate_legal_moves Z0 stalemateBoard = [] ∧
    (probe_tt ({} : SearchState).tt (zobrist_key stalemateBoard) 1
      (-InfinityScore) InfinityScore 0).2 = none ∧
    (search_impl Z0 1 stalemateBoard 1 (-InfinityScore) InfinityScore {} 0
      {}).1 =
      if is_in_check stalemateBoard (side_to_move stalemateBoard) then
        -(MateValue - 0) else 0 :=
  ⟨by decide, by decide, by decide,
   search_impl_no_legal_moves Z0 0 stalemateBoard 1 (-InfinityScore)
     InfinityScore 0 {} {} (by decide) (by decide) (by decide)
     (Or.inr (Or.inl (by decide)))⟩
